import Mathlib

/-!
# Thread lifecycle of the teaching kernel (`kernel_threads.c`)

A shallow embedding of `sys_CreateThread`, `sys_ThreadSelf`, `sys_ThreadJoin`,
`sys_ThreadDetach` and `sys_ThreadExit`.

* Pointers are natural numbers: a `Tid_t` is the address of a thread record
  (`PTCB`), a process pointer is the index of the process in the process table.
* Intrusive `rlnode` lists are Lean lists of the objects that own the nodes, front
  of the list first.
* The kernel state is passed explicitly.  Calls into the scheduler, the allocator
  and the file table are appended to `Kernel.trace` in program order.
* `kernel_wait` suspends the caller, so `sys_ThreadJoin` is cut at that call: the
  loop of lines 57-60 and everything after it form `sys_ThreadJoin_loop`, which is
  run once on entry and once more every time the waiting thread is resumed.
* A step that dereferences a null pointer, touches a thread record that has been
  released, or fails an `assert`, has no result (`none`).
-/

namespace TinyOS

abbrev Tid_t := Nat
abbrev Pid_t := Nat
abbrev TCBRef := Nat
abbrev FCBRef := Nat
abbrev Addr := Nat

/-- Modelled from the spec: the process `state` field, whose declaration is not in
`kernel_threads.c`; the spec gives `state ∈ {RUNNING, ZOMBIE}`. -/
inductive pid_state where
  | RUNNING
  | ZOMBIE
deriving DecidableEq, Repr

/-- Modelled from the spec: the thread record (`PTCB`), whose declaration is not in
`kernel_threads.c`.  The fields are the ones the code reads and writes; `exited`
and `detached` are the spec's booleans (the code only ever stores `1`), `refcount`
is the spec's `joiner_count`.  Counters are unbounded integers: the width of the
C fields is not visible here and no property below depends on overflow. -/
structure PTCB where
  tcb : Option TCBRef
  task : Option Nat
  argl : Int
  args : Option Addr
  exitval : Int
  exited : Bool
  detached : Bool
  refcount : Int
deriving DecidableEq, Repr

/-- The part of a scheduler thread (`TCB`) this file uses. -/
structure TCB where
  owner_pcb : Pid_t
  ptcb : Tid_t
deriving DecidableEq, Repr

/-- Modelled from the spec: the process control block (`PCB`), whose declaration is
not in `kernel_threads.c`; the fields this file touches.  `parent = none` is the
null pointer. -/
structure PCB where
  pstate : pid_state
  parent : Option Pid_t
  thread_count : Int
  ptcb_list : List Tid_t
  children_list : List Pid_t
  exited_list : List Pid_t
  args : Option Addr
  FIDT : Nat → Option FCBRef
  main_thread : Option TCBRef

/-- The condition variables this file waits on and broadcasts. -/
inductive CondVar where
  | exit_cv (ptcb : Tid_t)
  | child_exit (pcb : Pid_t)
deriving DecidableEq, Repr

/-- Calls made to the collaborators that are outside this file. -/
inductive Event where
  | spawn_thread (pcb : Pid_t) (tcb : TCBRef)
  | wakeup (tcb : TCBRef)
  | kernel_wait (cv : CondVar) (waiter : TCBRef)
  | kernel_broadcast (cv : CondVar)
  | release_PTCB (ptcb : Tid_t)
  | free (a : Addr)
  | FCB_decref (f : FCBRef)
  | kernel_sleep (tcb : TCBRef)
deriving DecidableEq, Repr

/-- The kernel state: the running thread, the thread table, the process table, the
heap of thread records (`none` at an address that holds no live record), the user
memory that `exitval` pointers point into, and the calls made so far. -/
structure Kernel where
  cur_thread : TCBRef
  threads : TCBRef → TCB
  PT : Pid_t → PCB
  heap : Tid_t → Option PTCB
  umem : Addr → Int
  trace : List Event

/-- The macro `CURPROC`: the process that owns the running thread. -/
def CURPROC (s : Kernel) : Pid_t := (s.threads s.cur_thread).owner_pcb

/-- The scheduler gives the processor to thread `t`. -/
def context_switch (t : TCBRef) (s : Kernel) : Kernel := { s with cur_thread := t }

def emit (e : Event) (s : Kernel) : Kernel := { s with trace := s.trace ++ [e] }

def set_PTCB (p : Tid_t) (r : PTCB) (s : Kernel) : Kernel :=
  { s with heap := Function.update s.heap p (some r) }

def upd_PCB (p : Pid_t) (f : PCB → PCB) (s : Kernel) : Kernel :=
  { s with PT := Function.update s.PT p (f (s.PT p)) }

def upd_PTCB (p : Tid_t) (f : PTCB → PTCB) (s : Kernel) : Kernel :=
  { s with heap := Function.update s.heap p ((s.heap p).map f) }

def upd_TCB (t : TCBRef) (f : TCB → TCB) (s : Kernel) : Kernel :=
  { s with threads := Function.update s.threads t (f (s.threads t)) }

def kernel_broadcast (cv : CondVar) (s : Kernel) : Kernel := emit (Event.kernel_broadcast cv) s

/-- Modelled from the spec: `initialise_PTCB` is not in `kernel_threads.c`.  The
spec has `Acquire` zero-initialise the record and `CreateThread` initialise it
from `(task, arg_length, args)`. -/
def initialise_PTCB (task : Option Nat) (argl : Int) (args : Option Addr) : PTCB :=
  { tcb := none, task := task, argl := argl, args := args, exitval := 0,
    exited := false, detached := false, refcount := 0 }

/-- Modelled from the spec: `release_PTCB` is not in `kernel_threads.c`.  The spec
has `Release(handle)` deallocate the record, with no validation. -/
def release_PTCB (p : Tid_t) (s : Kernel) : Kernel :=
  emit (Event.release_PTCB p) { s with heap := Function.update s.heap p none }

/-- The list search `rlist_find(list, key, NULL)`: the first node whose key is
`key`, or `none` for the null result. -/
def rlist_find (l : List Tid_t) (key : Tid_t) : Option Tid_t := l.find? (fun k => k == key)

/-- Lines 11-29.  `p` is the record `acquire_PTCB` returns and `t` the thread
`spawn_thread` returns. -/
def sys_CreateThread (task : Option Nat) (argl : Int) (args : Option Addr)
    (p : Tid_t) (t : TCBRef) (s : Kernel) : Tid_t × Kernel :=
  let s1 := set_PTCB p (initialise_PTCB task argl args) s
  let s2 := upd_PCB (CURPROC s1) (fun c => { c with thread_count := c.thread_count + 1 }) s1
  if task.isSome then
    let s3 := emit (Event.spawn_thread (CURPROC s2) t)
      (upd_TCB t (fun c => { c with owner_pcb := CURPROC s2 }) s2)
    let s4 := upd_PTCB p (fun r => { r with tcb := some t }) s3
    let s5 := upd_TCB t (fun c => { c with ptcb := p }) s4
    let s6 := upd_PCB (CURPROC s5) (fun c => { c with ptcb_list := c.ptcb_list ++ [p] }) s5
    (p, emit (Event.wakeup t) s6)
  else
    (p, s2)

/-- Lines 34-37. -/
def sys_ThreadSelf (s : Kernel) : Tid_t := (s.threads s.cur_thread).ptcb

/-- How a call of `sys_ThreadJoin` stands after a step: it has returned `rc`, or
the caller is suspended inside `kernel_wait`. -/
inductive JoinStatus where
  | returned (rc : Int)
  | waiting
deriving DecidableEq, Repr

/-- Lines 57-74: the test of the `while` loop and, once it fails, the rest of the
function.  When the test holds the caller is suspended in `kernel_wait`; the
function is run again from the test when the caller is resumed. -/
def sys_ThreadJoin_loop (ptcb : Tid_t) (exitval : Option Addr) (s : Kernel) :
    Option (JoinStatus × Kernel) :=
  match s.heap ptcb with
  | none => none
  | some r =>
    if !r.exited && !r.detached then
      some (JoinStatus.waiting, emit (Event.kernel_wait (CondVar.exit_cv ptcb) s.cur_thread) s)
    else
      let r1 := { r with refcount := r.refcount - 1 }
      let s1 := set_PTCB ptcb r1 s
      if r1.detached then some (JoinStatus.returned (-1), s1)
      else
        let s2 := match exitval with
          | some a => { s1 with umem := Function.update s1.umem a r1.exitval }
          | none => s1
        let s3 := if r1.refcount = 0 then release_PTCB ptcb s2 else s2
        some (JoinStatus.returned 0, s3)

/-- Lines 42-56, followed by the first pass through the loop. -/
def sys_ThreadJoin (tid : Tid_t) (exitval : Option Addr) (s : Kernel) :
    Option (JoinStatus × Kernel) :=
  match rlist_find (s.PT (CURPROC s)).ptcb_list tid with
  | none => some (JoinStatus.returned (-1), s)
  | some ptcb =>
    if tid = sys_ThreadSelf s then some (JoinStatus.returned (-1), s)
    else
      match s.heap ptcb with
      | none => none
      | some r =>
        if r.detached then some (JoinStatus.returned (-1), s)
        else
          sys_ThreadJoin_loop ptcb exitval (set_PTCB ptcb { r with refcount := r.refcount + 1 } s)

/-- Lines 80-96. -/
def sys_ThreadDetach (tid : Tid_t) (s : Kernel) : Option (Int × Kernel) :=
  match rlist_find (s.PT (CURPROC s)).ptcb_list tid with
  | none => some (-1, s)
  | some _ =>
    match s.heap tid with
    | none => none
    | some r =>
      if r.exited then some (-1, s)
      else if !r.detached then
        some (0, kernel_broadcast (CondVar.exit_cv tid) (set_PTCB tid { r with detached := true } s))
      else some (0, s)

/-- Lines 125-129: the loop that moves the children of `curproc` to `initpcb`, one
pass per unit of fuel; `none` when the fuel runs out before the list is empty. -/
def reparent_children (initpcb curproc : Pid_t) : Nat → Kernel → Option Kernel
  | 0, _ => none
  | fuel + 1, s =>
    match (s.PT curproc).children_list with
    | [] => some s
    | child :: rest =>
      let s1 := upd_PCB curproc (fun c => { c with children_list := rest }) s
      let s2 := upd_PCB child (fun c => { c with parent := some initpcb }) s1
      let s3 := upd_PCB initpcb (fun c => { c with children_list := child :: c.children_list }) s2
      reparent_children initpcb curproc fuel s3

/-- Lines 158-163: slots `i`, `i+1`, ... of the file table, `n` of them. -/
def clean_FIDT (curproc : Pid_t) : Nat → Nat → Kernel → Kernel
  | _, 0, s => s
  | i, n + 1, s =>
    match (s.PT curproc).FIDT i with
    | some f =>
      clean_FIDT curproc (i + 1) n
        (upd_PCB curproc (fun c => { c with FIDT := Function.update c.FIDT i none })
          (emit (Event.FCB_decref f) s))
    | none => clean_FIDT curproc (i + 1) n s

/-- Lines 133-136: the exited children of `curproc` go to the back of the exited
list of `initpcb`, whose `child_exit` is broadcast; nothing when there are none. -/
def hand_exited (initpcb curproc : Pid_t) (s : Kernel) : Kernel :=
  if (s.PT curproc).exited_list ≠ [] then
    let moved := (s.PT curproc).exited_list
    let s1 := upd_PCB initpcb (fun c => { c with exited_list := c.exited_list ++ moved }) s
    let s2 := upd_PCB curproc (fun c => { c with exited_list := [] }) s1
    kernel_broadcast (CondVar.child_exit initpcb) s2
  else s

/-- Lines 139-140: `curproc` puts its own node at the front of its parent's exited
list and broadcasts the parent's `child_exit`. -/
def enter_parent_exited_list (curproc : Pid_t) (s : Kernel) : Option Kernel :=
  match (s.PT curproc).parent with
  | none => none
  | some parent =>
    some (kernel_broadcast (CondVar.child_exit parent)
      (upd_PCB parent (fun c => { c with exited_list := curproc :: c.exited_list }) s))

/-- Lines 143-144: the two assertions. -/
def assert_lists_empty (curproc : Pid_t) (s : Kernel) : Option Kernel :=
  if (s.PT curproc).children_list = [] ∧ (s.PT curproc).exited_list = [] then some s else none

/-- Lines 120-145: what a process other than process 1 does with its children and
its exited children when its last thread exits.  `get_pcb(1)` is process 1. -/
def hand_over (curproc : Pid_t) (s : Kernel) : Option Kernel :=
  let initpcb : Pid_t := 1
  (reparent_children initpcb curproc ((s.PT curproc).children_list.length + 1) s).bind
    (fun s1 => (enter_parent_exited_list curproc (hand_exited initpcb curproc s1)).bind
      (assert_lists_empty curproc))

/-- Lines 147-169: the cleanup every process does when its last thread exits. -/
def cleanup (MAX_FILEID : Nat) (curproc : Pid_t) (s : Kernel) : Kernel :=
  let s1 := match (s.PT curproc).args with
    | some a => upd_PCB curproc (fun c => { c with args := none }) (emit (Event.free a) s)
    | none => s
  let s2 := clean_FIDT curproc 0 MAX_FILEID s1
  let s3 := upd_PCB curproc (fun c => { c with main_thread := none }) s2
  upd_PCB curproc (fun c => { c with pstate := pid_state.ZOMBIE }) s3

/-- Lines 103-114: the caller's record gets the exit value and the exited flag, its
`exit_cv` is broadcast, the process loses one live thread, and the record is
released when it is detached. -/
def exit_thread (exitval : Int) (s : Kernel) : Option Kernel :=
  let ptcb := (s.threads s.cur_thread).ptcb
  match s.heap ptcb with
  | none => none
  | some r =>
    let r1 := { r with exitval := exitval, exited := true }
    let s1 := kernel_broadcast (CondVar.exit_cv ptcb) (set_PTCB ptcb r1 s)
    let s2 := upd_PCB (CURPROC s1) (fun c => { c with thread_count := c.thread_count - 1 }) s1
    some (if r1.detached then release_PTCB ptcb s2 else s2)

/-- Lines 116-171: the body of `if(CURPROC->thread_count == 0)`. -/
def exit_process (MAX_FILEID : Nat) (s : Kernel) : Option Kernel :=
  let curproc := CURPROC s
  (if curproc ≠ 1 then hand_over curproc s else some s).map (cleanup MAX_FILEID curproc)

/-- Lines 101-175.  `MAX_FILEID` is the size of the file table, a constant that is
not in `kernel_threads.c`. -/
def sys_ThreadExit (MAX_FILEID : Nat) (exitval : Int) (s : Kernel) : Option Kernel :=
  (exit_thread exitval s).bind (fun s3 =>
    (if (s3.PT (CURPROC s3)).thread_count = 0 then exit_process MAX_FILEID s3 else some s3).map
      (fun s5 => emit (Event.kernel_sleep s5.cur_thread) s5))

/-! ## Closed forms and frames of the exit path -/

/-- The process-table part of the exit path leaves the threads, the heap of thread
records and the user memory alone. -/
def same_threads (s t : Kernel) : Prop :=
  t.cur_thread = s.cur_thread ∧ t.threads = s.threads ∧ t.heap = s.heap ∧ t.umem = s.umem

/-- The process-exit path leaves the thread bookkeeping of every process alone. -/
def same_counts (s t : Kernel) : Prop :=
  ∀ q, (t.PT q).thread_count = (s.PT q).thread_count ∧ (t.PT q).ptcb_list = (s.PT q).ptcb_list

/-- The fields of a process that place it in the process tree. -/
def family (c : PCB) : Option Pid_t × List Pid_t × List Pid_t :=
  (c.parent, c.children_list, c.exited_list)

/-- The state the loop of lines 125-129 ends in, written without the loop: the
children list of `curproc` is empty, its former members are in front of the
children list of `initpcb`, last popped first, and have `initpcb` as parent. -/
def reparented (initpcb curproc : Pid_t) (s : Kernel) : Kernel :=
  { s with PT := fun q =>
      { s.PT q with
        children_list :=
          if q = curproc then []
          else if q = initpcb then
            (s.PT curproc).children_list.reverse ++ (s.PT q).children_list
          else (s.PT q).children_list,
        parent :=
          if q ∈ (s.PT curproc).children_list then some initpcb else (s.PT q).parent } }

/-- Lines 120-145 without the loop and with the parent `parent` of `curproc`
already read: the state `hand_over` ends in when it ends. -/
def handed_over (parent curproc : Pid_t) (s : Kernel) : Kernel :=
  kernel_broadcast (CondVar.child_exit parent)
    (upd_PCB parent (fun c => { c with exited_list := curproc :: c.exited_list })
      (hand_exited 1 curproc (reparented 1 curproc s)))

/-! ## Sequences of calls -/

/-- A call of one of the five entry points, or the resumption of a thread that is
suspended in `sys_ThreadJoin`.  `CreateThread` carries the record and the thread
that the allocator and the scheduler hand out. -/
inductive Call where
  | CreateThread (task : Option Nat) (argl : Int) (args : Option Addr) (p : Tid_t) (t : TCBRef)
  | ThreadSelf
  | ThreadJoin (tid : Tid_t) (exitval : Option Addr)
  | ThreadJoin_resume (tid : Tid_t) (exitval : Option Addr)
  | ThreadDetach (tid : Tid_t)
  | ThreadExit (exitval : Int)
deriving DecidableEq, Repr

/-- The state a call leaves when the running thread makes it. -/
def exec (MAX_FILEID : Nat) : Call → Kernel → Option Kernel
  | Call.CreateThread task argl args p t, s => some (sys_CreateThread task argl args p t s).2
  | Call.ThreadSelf, s => some s
  | Call.ThreadJoin tid exitval, s => (sys_ThreadJoin tid exitval s).map Prod.snd
  | Call.ThreadJoin_resume tid exitval, s => (sys_ThreadJoin_loop tid exitval s).map Prod.snd
  | Call.ThreadDetach tid, s => (sys_ThreadDetach tid s).map Prod.snd
  | Call.ThreadExit exitval, s => sys_ThreadExit MAX_FILEID exitval s

/-- A schedule: each call with the thread that makes it.  The scheduler switches
to the thread, the thread makes the call. -/
def run (MAX_FILEID : Nat) : List (TCBRef × Call) → Kernel → Option Kernel
  | [], s => some s
  | (c, op) :: rest, s => (exec MAX_FILEID op (context_switch c s)).bind (run MAX_FILEID rest)

/-- Every call of the schedule is made by a thread that belongs to process `P` at
the time of the call. -/
def calls_of (MAX_FILEID : Nat) (P : Pid_t) : List (TCBRef × Call) → Kernel → Bool
  | [], _ => true
  | (c, op) :: rest, s =>
    decide ((s.threads c).owner_pcb = P) &&
      match exec MAX_FILEID op (context_switch c s) with
      | some s1 => calls_of MAX_FILEID P rest s1
      | none => true

def is_CreateThread : Call → Bool
  | Call.CreateThread _ _ _ _ _ => true
  | _ => false

def is_ThreadExit : Call → Bool
  | Call.ThreadExit _ => true
  | _ => false

/-- What a call adds to the `thread_count` of the caller's process. -/
def thread_count_delta (op : Call) : Int :=
  if is_CreateThread op then 1 else if is_ThreadExit op then -1 else 0

/-! ## Example states -/

def PCB_blank : PCB :=
  { pstate := pid_state.RUNNING, parent := none, thread_count := 0, ptcb_list := [],
    children_list := [], exited_list := [], args := none, FIDT := fun _ => none,
    main_thread := none }

/-- Process 2, a child of process 1, with three threads: thread 10 (record 100, the
main thread), thread 11 (record 101) and thread 12 (record 102).  Thread 11 is
running. -/
def demo : Kernel :=
  { cur_thread := 11,
    threads := fun t => if t = 11 then { owner_pcb := 2, ptcb := 101 }
      else if t = 12 then { owner_pcb := 2, ptcb := 102 }
      else { owner_pcb := 2, ptcb := 100 },
    PT := fun p => if p = 2 then
        { PCB_blank with parent := some 1, thread_count := 3, ptcb_list := [100, 101, 102],
                         main_thread := some 10 }
      else if p = 1 then { PCB_blank with thread_count := 1, children_list := [2] }
      else PCB_blank,
    heap := fun a => if a = 100 then some (initialise_PTCB none 0 none)
      else if a = 101 then some { initialise_PTCB (some 7) 0 none with tcb := some 11 }
      else if a = 102 then some { initialise_PTCB (some 8) 0 none with tcb := some 12 }
      else none,
    umem := fun _ => 0,
    trace := [] }

/-- The example with thread 10 suspended in `sys_ThreadJoin(101, 5)`: the state the
call leaves when thread 10 makes it in `demo`, with thread 11 running again. -/
def demo_joined : Kernel :=
  context_switch 11
    (((sys_ThreadJoin 101 (some 5) (context_switch 10 demo)).map Prod.snd).getD demo)

/-- The example after `sys_ThreadDetach(101)` by thread 11 while thread 10 waits. -/
def demo_detached : Kernel :=
  ((sys_ThreadDetach 101 demo_joined).map Prod.snd).getD demo

/-- Process 2 with its main thread 10 (record 100) alone, and running. -/
def demo_single : Kernel :=
  { cur_thread := 10,
    threads := fun _ => { owner_pcb := 2, ptcb := 100 },
    PT := fun p => if p = 2 then
        { PCB_blank with parent := some 1, thread_count := 1, ptcb_list := [100],
                         main_thread := some 10 }
      else if p = 1 then { PCB_blank with thread_count := 1, children_list := [2] }
      else PCB_blank,
    heap := fun a => if a = 100 then some (initialise_PTCB none 0 none) else none,
    umem := fun _ => 0,
    trace := [] }

/-- Process 3, a child of process 2, with its last thread 30 (record 300) running;
it has the children 4 and 5 and the exited children 6 and 7.  Process 1 has the
child 2 and the exited child 8, process 2 has the child 3 and the exited child 9. -/
def demo_family : Kernel :=
  { cur_thread := 30,
    threads := fun _ => { owner_pcb := 3, ptcb := 300 },
    PT := fun p =>
      if p = 1 then { PCB_blank with thread_count := 1, children_list := [2], exited_list := [8] }
      else if p = 2 then
        { PCB_blank with parent := some 1, thread_count := 1, children_list := [3],
                         exited_list := [9] }
      else if p = 3 then
        { PCB_blank with parent := some 2, thread_count := 1, ptcb_list := [300],
                         children_list := [4, 5], exited_list := [6, 7],
                         args := some 1000,
                         FIDT := fun i => if i = 0 then some 50 else if i = 2 then some 51 else none,
                         main_thread := some 30 }
      else if p = 4 ∨ p = 5 then { PCB_blank with parent := some 3, thread_count := 1 }
      else if p = 6 ∨ p = 7 then
        { PCB_blank with pstate := pid_state.ZOMBIE, parent := some 3 }
      else PCB_blank,
    heap := fun a => if a = 300 then some (initialise_PTCB none 0 none) else none,
    umem := fun _ => 0,
    trace := [] }

/-- The schedule of the example: the main thread 10 creates thread 11 (record 101)
and joins it, thread 11 exits with 42, thread 10 resumes, creates a record without
a task, detaches its own record and asks for its own handle. -/
def demo_schedule : List (TCBRef × Call) :=
  [(10, Call.CreateThread (some 7) 0 none 101 11),
   (10, Call.ThreadJoin 101 (some 5)),
   (11, Call.ThreadExit 42),
   (10, Call.ThreadJoin_resume 101 (some 5)),
   (10, Call.CreateThread none 0 none 102 0),
   (10, Call.ThreadDetach 100),
   (10, Call.ThreadSelf)]

/-- The state `demo_family` with the children and exited children of process 3
gone. -/
def demo_childless : Kernel :=
  upd_PCB 3 (fun c => { c with children_list := [], exited_list := [] }) demo_family

/-- The calls that were added to the trace between the state `s` and the later
state `t`. -/
def new_events (s t : Kernel) : List Event := t.trace.drop s.trace.length

/-- The records handed to `release_PTCB`, in order. -/
def released (evs : List Event) : List Tid_t :=
  evs.filterMap (fun e => match e with
    | Event.release_PTCB p => some p
    | _ => none)

/-- The files handed to `FCB_decref`, in order. -/
def decrefs (evs : List Event) : List FCBRef :=
  evs.filterMap (fun e => match e with
    | Event.FCB_decref f => some f
    | _ => none)

/-- The buffers handed to `free`, in order. -/
def frees (evs : List Event) : List Addr :=
  evs.filterMap (fun e => match e with
    | Event.free a => some a
    | _ => none)

/-- The `FCB_decref` calls of lines 158-163 for the slots `i`, ..., `i + n - 1` of
the file table `F`, without the loop. -/
def FIDT_decrefs (F : Nat → Option FCBRef) (i n : Nat) : List Event :=
  (List.range n).filterMap (fun k => (F (i + k)).map Event.FCB_decref)

/-- The fields of a process other than its place in the process tree. -/
def belongings (c : PCB) :
    pid_state × Int × List Tid_t × Option Addr × (Nat → Option FCBRef) × Option TCBRef :=
  (c.pstate, c.thread_count, c.ptcb_list, c.args, c.FIDT, c.main_thread)

/-- The destroy invariant of the spec: no joiner holds the record and the thread
has exited or is detached. -/
def destroy_invariant (r : PTCB) : Prop :=
  r.refcount = 0 ∧ (r.exited = true ∨ r.detached = true)

instance (r : PTCB) : Decidable (destroy_invariant r) := by
  unfold destroy_invariant; infer_instance

/-- Lines 57-69 up to the call of `release_PTCB` at line 71: the record handed to
it and the state in which it is called, when the call is reached. -/
def join_release_point (ptcb : Tid_t) (exitval : Option Addr) (s : Kernel) :
    Option (Tid_t × Kernel) :=
  match s.heap ptcb with
  | none => none
  | some r =>
    if !r.exited && !r.detached then none
    else
      let r1 := { r with refcount := r.refcount - 1 }
      let s1 := set_PTCB ptcb r1 s
      if r1.detached then none
      else
        let s2 := match exitval with
          | some a => { s1 with umem := Function.update s1.umem a r1.exitval }
          | none => s1
        if r1.refcount = 0 then some (ptcb, s2) else none

/-- Lines 103-111 up to the call of `release_PTCB` at line 113: the record handed
to it and the state in which it is called, when the call is reached. -/
def exit_release_point (exitval : Int) (s : Kernel) : Option (Tid_t × Kernel) :=
  let ptcb := (s.threads s.cur_thread).ptcb
  match s.heap ptcb with
  | none => none
  | some r =>
    let r1 := { r with exitval := exitval, exited := true }
    let s1 := kernel_broadcast (CondVar.exit_cv ptcb) (set_PTCB ptcb r1 s)
    let s2 := upd_PCB (CURPROC s1) (fun c => { c with thread_count := c.thread_count - 1 }) s1
    if r1.detached then some (ptcb, s2) else none

/-- The call of `release_PTCB` a call of an entry point makes, if it makes one: the
record and the state at the moment of the call.  A join that is entered reaches
line 71 through lines 45-56. -/
def release_point : Call → Kernel → Option (Tid_t × Kernel)
  | Call.ThreadJoin tid exitval, s =>
    match rlist_find (s.PT (CURPROC s)).ptcb_list tid with
    | none => none
    | some ptcb =>
      if tid = sys_ThreadSelf s then none
      else
        match s.heap ptcb with
        | none => none
        | some r =>
          if r.detached then none
          else join_release_point ptcb exitval
            (set_PTCB ptcb { r with refcount := r.refcount + 1 } s)
  | Call.ThreadJoin_resume tid exitval, s => join_release_point tid exitval s
  | Call.ThreadExit exitval, s => exit_release_point exitval s
  | _, _ => none

def is_ThreadJoin : Call → Bool
  | Call.ThreadJoin _ _ => true
  | Call.ThreadJoin_resume _ _ => true
  | _ => false

/-- The example `demo` after thread 10 has entered `sys_ThreadJoin(101, 5)` and
thread 11 has exited with 42: thread 10 is about to resume. -/
def demo_exited : Kernel :=
  context_switch 10
    ((run 16 [(10, Call.ThreadJoin 101 (some 5)), (11, Call.ThreadExit 42)] demo).getD demo)

/-- The example `demo` after threads 10 and 12 have both entered
`sys_ThreadJoin` on record 101, with the slots 5 and 6, and are suspended; thread
11 is running. -/
def demo_two_joined : Kernel :=
  context_switch 11
    ((run 16 [(10, Call.ThreadJoin 101 (some 5)), (12, Call.ThreadJoin 101 (some 6))]
      demo).getD demo)

/-- The handle `p` denotes a live record whose thread has not exited. -/
def running (s : Kernel) (p : Tid_t) : Bool :=
  match s.heap p with
  | some r => !r.exited
  | none => false

/-- The number of entries of the `ptcb_list` of process `q` that are thread
records with `exited == 0`. -/
def live_records (s : Kernel) (q : Pid_t) : Nat :=
  (s.PT q).ptcb_list.countP (running s)

/-- The predicate of the spec: `thread_count` of process `q` is the number of its
thread records that have not exited. -/
def count_invariant (s : Kernel) (q : Pid_t) : Prop :=
  (s.PT q).thread_count = (live_records s q : Int)

instance (s : Kernel) (q : Pid_t) : Decidable (count_invariant s q) := by
  unfold count_invariant; infer_instance

/-- The record 101 of the example `demo_exited`: its thread has exited with 42 and
thread 10 holds a reference. -/
def demo_exited_record : PTCB :=
  { initialise_PTCB (some 7) 0 none with
    tcb := some 11, exitval := 42, exited := true, refcount := 1 }

/-- The call is a resumption of a join that waits for the record `T`. -/
def is_resume_of (T : Tid_t) : Call → Bool
  | Call.ThreadJoin_resume tid _ => decide (tid = T)
  | _ => false

/-- What a call made by the running thread must respect while the thread of the
record `T` has exited and `T` is still in use: the caller of a `sys_ThreadExit` is
not the thread of `T` (that thread never runs again), and the allocator does not
hand out the address `T` to a `sys_CreateThread`. -/
def bystander_call (T : Tid_t) (s : Kernel) : Call → Bool
  | Call.CreateThread _ _ _ p _ => decide (p ≠ T)
  | Call.ThreadExit _ => decide (sys_ThreadSelf s ≠ T)
  | _ => true

/-- Every call of the schedule respects `bystander_call` in the state in which it
is made. -/
def bystanders (MAX_FILEID : Nat) (T : Tid_t) : List (TCBRef × Call) → Kernel → Bool
  | [], _ => true
  | (c, op) :: rest, s =>
    bystander_call T (context_switch c s) op &&
      match exec MAX_FILEID op (context_switch c s) with
      | some s1 => bystanders MAX_FILEID T rest s1
      | none => true

/-- The record `T` holds the exit value `x` of its exited, undetached thread and is
held by more than `k` joiners. -/
def holds_exit (T : Tid_t) (x : Int) (k : Int) (s : Kernel) : Prop :=
  ∃ r, s.heap T = some r ∧ r.exited = true ∧ r.detached = false ∧ r.exitval = x ∧
    k + 1 ≤ r.refcount

/-- The record `T` is live and its thread has not exited; unless it has been
detached, it is held by more than `k` joiners. -/
def awaits_exit (T : Tid_t) (k : Int) (s : Kernel) : Prop :=
  ∃ r, s.heap T = some r ∧ r.exited = false ∧ (r.detached = false → k + 1 ≤ r.refcount)

/-! ## Basic facts about the state updates -/

theorem rlist_find_eq_some_iff (l : List Tid_t) (key k : Tid_t) :
    rlist_find l key = some k ↔ k = key ∧ key ∈ l := by
  unfold rlist_find
  induction l with
  | nil => simp
  | cons a t ih =>
    by_cases h : a = key
    · subst h
      simp [List.find?_cons]
      constructor
      · intro h; exact h.symm
      · intro h; exact h.symm
    · have h2 : (a == key) = false := by simpa using h
      have h3 : ¬ key = a := fun e => h e.symm
      simp [List.find?_cons, h2, ih, h3]

theorem rlist_find_eq_none_iff (l : List Tid_t) (key : Tid_t) :
    rlist_find l key = none ↔ key ∉ l := by
  unfold rlist_find
  simp [List.find?_eq_none]
  constructor
  · intro h hk; exact h key hk rfl
  · intro h x hx e; exact h (e ▸ hx)

theorem rlist_find_mem (l : List Tid_t) (key : Tid_t) (h : key ∈ l) :
    rlist_find l key = some key :=
  (rlist_find_eq_some_iff l key key).2 ⟨rfl, h⟩

theorem same_threads_refl (s : Kernel) : same_threads s s := ⟨rfl, rfl, rfl, rfl⟩

theorem same_threads_trans {a b c : Kernel} (h1 : same_threads a b) (h2 : same_threads b c) :
    same_threads a c :=
  ⟨h2.1.trans h1.1, h2.2.1.trans h1.2.1, h2.2.2.1.trans h1.2.2.1, h2.2.2.2.trans h1.2.2.2⟩

theorem same_threads_upd_PCB (p : Pid_t) (f : PCB → PCB) (s : Kernel) :
    same_threads s (upd_PCB p f s) := ⟨rfl, rfl, rfl, rfl⟩

theorem same_threads_emit (e : Event) (s : Kernel) : same_threads s (emit e s) :=
  ⟨rfl, rfl, rfl, rfl⟩

theorem reparent_children_same_threads (initpcb curproc : Pid_t) :
    ∀ (fuel : Nat) (s t : Kernel), reparent_children initpcb curproc fuel s = some t →
      same_threads s t := by
  intro fuel
  induction fuel with
  | zero => intro s t h; simp [reparent_children] at h
  | succ n ih =>
    intro s t h
    unfold reparent_children at h
    split at h
    · cases h; exact same_threads_refl s
    · have e := ih _ _ h
      exact same_threads_trans ⟨rfl, rfl, rfl, rfl⟩ e

theorem clean_FIDT_same_threads (curproc : Pid_t) :
    ∀ (n i : Nat) (s : Kernel), same_threads s (clean_FIDT curproc i n s) := by
  intro n
  induction n with
  | zero => intro i s; exact same_threads_refl s
  | succ n ih =>
    intro i s
    unfold clean_FIDT
    split
    · have e := ih (i + 1) (upd_PCB curproc (fun c => { c with FIDT := Function.update c.FIDT i none })
        (emit (Event.FCB_decref (by assumption)) s))
      exact same_threads_trans ⟨rfl, rfl, rfl, rfl⟩ e
    · exact ih _ _

theorem hand_exited_same_threads (initpcb curproc : Pid_t) (s : Kernel) :
    same_threads s (hand_exited initpcb curproc s) := by
  unfold hand_exited
  split
  · exact ⟨rfl, rfl, rfl, rfl⟩
  · exact same_threads_refl s

theorem enter_parent_exited_list_same_threads (curproc : Pid_t) (s t : Kernel)
    (h : enter_parent_exited_list curproc s = some t) : same_threads s t := by
  unfold enter_parent_exited_list at h
  split at h
  · cases h
  · cases h; exact ⟨rfl, rfl, rfl, rfl⟩

theorem assert_lists_empty_eq_some (curproc : Pid_t) (s t : Kernel)
    (h : assert_lists_empty curproc s = some t) :
    t = s ∧ (s.PT curproc).children_list = [] ∧ (s.PT curproc).exited_list = [] := by
  unfold assert_lists_empty at h
  split at h
  · rename_i hc; cases h; exact ⟨rfl, hc⟩
  · cases h

theorem hand_over_same_threads (curproc : Pid_t) (s t : Kernel)
    (h : hand_over curproc s = some t) : same_threads s t := by
  unfold hand_over at h
  simp only [Option.bind_eq_some] at h
  obtain ⟨s1, h1, s2, h2, h3⟩ := h
  have e3 := (assert_lists_empty_eq_some _ _ _ h3).1
  subst e3
  exact same_threads_trans (reparent_children_same_threads _ _ _ _ _ h1)
    (same_threads_trans (hand_exited_same_threads _ _ _)
      (enter_parent_exited_list_same_threads _ _ _ h2))

theorem cleanup_same_threads (MAX_FILEID : Nat) (curproc : Pid_t) (s : Kernel) :
    same_threads s (cleanup MAX_FILEID curproc s) := by
  unfold cleanup
  simp only
  refine same_threads_trans ?_ (same_threads_trans (clean_FIDT_same_threads _ _ _ _)
    (same_threads_trans (same_threads_upd_PCB _ _ _) (same_threads_upd_PCB _ _ _)))
  split
  · exact ⟨rfl, rfl, rfl, rfl⟩
  · exact same_threads_refl s

theorem exit_process_same_threads (MAX_FILEID : Nat) (s t : Kernel)
    (h : exit_process MAX_FILEID s = some t) : same_threads s t := by
  unfold exit_process at h
  simp only [Option.map_eq_some'] at h
  obtain ⟨s4, h4, rfl⟩ := h
  refine same_threads_trans ?_ (cleanup_same_threads MAX_FILEID _ s4)
  split at h4
  · exact hand_over_same_threads _ _ _ h4
  · cases h4; exact same_threads_refl _

/-- After its first part `sys_ThreadExit` only works on the process table. -/
theorem sys_ThreadExit_eq_some (MAX_FILEID : Nat) (x : Int) (s s1 : Kernel)
    (h : sys_ThreadExit MAX_FILEID x s = some s1) :
    ∃ s3, exit_thread x s = some s3 ∧ same_threads s3 s1 := by
  unfold sys_ThreadExit at h
  simp only [Option.bind_eq_some, Option.map_eq_some'] at h
  obtain ⟨s3, h3, s5, h5, rfl⟩ := h
  refine ⟨s3, h3, same_threads_trans ?_ (same_threads_emit _ _)⟩
  split at h5
  · exact exit_process_same_threads _ _ _ h5
  · cases h5; exact same_threads_refl _

/-- What `sys_ThreadExit` leaves in the heap of thread records: the caller's record
with the exit value and the exited flag written, or nothing there when the record
was detached and has been released; every other record as it was. -/
theorem sys_ThreadExit_heap (MAX_FILEID : Nat) (x : Int) (s s1 : Kernel) (r : PTCB)
    (hr : s.heap (sys_ThreadSelf s) = some r)
    (h : sys_ThreadExit MAX_FILEID x s = some s1) :
    s1.heap = Function.update s.heap (sys_ThreadSelf s)
      (if r.detached then none else some { r with exitval := x, exited := true }) ∧
    s1.umem = s.umem ∧ s1.threads = s.threads ∧ s1.cur_thread = s.cur_thread := by
  obtain ⟨s3, h3, c1, c2, c3, c4⟩ := sys_ThreadExit_eq_some _ _ _ _ h
  unfold sys_ThreadSelf at hr ⊢
  unfold exit_thread at h3
  simp only [hr, Option.some.injEq] at h3
  subst h3
  rw [c1, c2, c3, c4]
  cases hd : r.detached <;>
    simp [release_PTCB, emit, upd_PCB, set_PTCB, kernel_broadcast]

@[simp] theorem CURPROC_upd_PCB (p : Pid_t) (f : PCB → PCB) (s : Kernel) :
    CURPROC (upd_PCB p f s) = CURPROC s := rfl

@[simp] theorem CURPROC_emit (e : Event) (s : Kernel) : CURPROC (emit e s) = CURPROC s := rfl

@[simp] theorem CURPROC_set_PTCB (p : Tid_t) (r : PTCB) (s : Kernel) :
    CURPROC (set_PTCB p r s) = CURPROC s := rfl

@[simp] theorem CURPROC_release_PTCB (p : Tid_t) (s : Kernel) :
    CURPROC (release_PTCB p s) = CURPROC s := rfl

@[simp] theorem CURPROC_kernel_broadcast (cv : CondVar) (s : Kernel) :
    CURPROC (kernel_broadcast cv s) = CURPROC s := rfl

@[simp] theorem PT_emit (e : Event) (s : Kernel) : (emit e s).PT = s.PT := rfl

@[simp] theorem PT_set_PTCB (p : Tid_t) (r : PTCB) (s : Kernel) : (set_PTCB p r s).PT = s.PT := rfl

@[simp] theorem PT_release_PTCB (p : Tid_t) (s : Kernel) : (release_PTCB p s).PT = s.PT := rfl

@[simp] theorem PT_kernel_broadcast (cv : CondVar) (s : Kernel) :
    (kernel_broadcast cv s).PT = s.PT := rfl

@[simp] theorem PT_upd_PCB_same (p : Pid_t) (f : PCB → PCB) (s : Kernel) :
    (upd_PCB p f s).PT p = f (s.PT p) := by simp [upd_PCB]

theorem PT_upd_PCB_ne (p q : Pid_t) (f : PCB → PCB) (s : Kernel) (h : q ≠ p) :
    (upd_PCB p f s).PT q = s.PT q := by simp [upd_PCB, h]

theorem same_threads_CURPROC {s t : Kernel} (h : same_threads s t) : CURPROC t = CURPROC s := by
  unfold CURPROC; rw [h.1, h.2.1]

/-- The first part of `sys_ThreadExit` on the process table: one live thread less
in the caller's process, nothing else. -/
theorem exit_thread_PT (x : Int) (s s3 : Kernel) (h : exit_thread x s = some s3) :
    CURPROC s3 = CURPROC s ∧
    s3.PT = Function.update s.PT (CURPROC s)
      { s.PT (CURPROC s) with thread_count := (s.PT (CURPROC s)).thread_count - 1 } := by
  unfold exit_thread at h
  simp only at h
  split at h
  · cases h
  · rename_i r hr
    simp only [Option.some.injEq] at h
    subst h
    constructor
    · split <;> simp
    · split <;> simp [upd_PCB]

/-- The first part of `sys_ThreadExit` has a result exactly when the caller's
record is live. -/
theorem exit_thread_isSome (x : Int) (s : Kernel) (r : PTCB)
    (hr : s.heap (sys_ThreadSelf s) = some r) : ∃ s3, exit_thread x s = some s3 := by
  unfold sys_ThreadSelf at hr
  unfold exit_thread
  simp only [hr]
  exact ⟨_, rfl⟩

/-- When the process keeps a live thread, `sys_ThreadExit` is its first part
followed by the final `kernel_sleep`. -/
theorem sys_ThreadExit_of_thread_count (MAX_FILEID : Nat) (x : Int) (s : Kernel) (r : PTCB)
    (hr : s.heap (sys_ThreadSelf s) = some r)
    (hc : (s.PT (CURPROC s)).thread_count ≠ 1) :
    ∃ s3, exit_thread x s = some s3 ∧
      sys_ThreadExit MAX_FILEID x s = some (emit (Event.kernel_sleep s3.cur_thread) s3) := by
  obtain ⟨s3, h3⟩ := exit_thread_isSome x s r hr
  obtain ⟨e1, e2⟩ := exit_thread_PT x s s3 h3
  have hne : (s3.PT (CURPROC s3)).thread_count ≠ 0 := by
    rw [e1, e2]
    simp only [Function.update_same]
    intro h
    exact hc (by omega)
  refine ⟨s3, h3, ?_⟩
  unfold sys_ThreadExit
  simp only [h3, Option.some_bind, hne, if_false, Option.map_some']

/-- A joiner that runs the loop on a record that has exited and is not detached
leaves the loop, takes the exit value and returns 0. -/
theorem sys_ThreadJoin_loop_exited (T : Tid_t) (out : Option Addr) (s : Kernel) (r : PTCB)
    (hr : s.heap T = some r) (hex : r.exited = true) (hdet : r.detached = false) :
    ∃ s3, sys_ThreadJoin_loop T out s = some (JoinStatus.returned 0, s3) ∧
      ∀ v, out = some v → s3.umem v = r.exitval := by
  unfold sys_ThreadJoin_loop
  simp only [hr, hex, hdet]
  refine ⟨_, rfl, ?_⟩
  intro v hv
  subst hv
  by_cases h0 : r.refcount - 1 = 0 <;> simp [h0, release_PTCB, emit, set_PTCB]

/-- A successful `sys_ThreadDetach` on a live record that has not exited: it
returns 0, the record is detached afterwards, and only that record and the trace
can have changed. -/
theorem sys_ThreadDetach_live (T : Tid_t) (s : Kernel) (r : PTCB)
    (hlist : T ∈ (s.PT (CURPROC s)).ptcb_list) (hT : s.heap T = some r)
    (hex : r.exited = false) :
    ∃ s1, sys_ThreadDetach T s = some (0, s1) ∧
      s1.heap = Function.update s.heap T (some { r with detached := true }) ∧
      s1.umem = s.umem ∧ s1.PT = s.PT ∧ s1.threads = s.threads ∧
      s1.cur_thread = s.cur_thread := by
  unfold sys_ThreadDetach
  simp only [rlist_find_mem _ _ hlist, hT, hex]
  cases hd : r.detached
  · refine ⟨_, rfl, ?_, rfl, rfl, rfl, rfl⟩
    simp [kernel_broadcast, emit, set_PTCB]
  · refine ⟨s, rfl, ?_, rfl, rfl, rfl, rfl⟩
    obtain ⟨a, b, c, d, e, f, g, h⟩ := r
    simp only at hex hd
    subst hex hd
    rw [← hT]
    exact (Function.update_eq_self T s.heap).symm

/-- A joiner that runs the loop on a live record that is detached leaves the loop
and returns -1; the user memory is not written. -/
theorem sys_ThreadJoin_loop_detached (T : Tid_t) (out : Option Addr) (s : Kernel) (r : PTCB)
    (hr : s.heap T = some r) (hdet : r.detached = true) :
    ∃ s3, sys_ThreadJoin_loop T out s = some (JoinStatus.returned (-1), s3) ∧
      s3.umem = s.umem := by
  unfold sys_ThreadJoin_loop
  simp only [hr, hdet, Bool.not_true, Bool.and_false, Bool.false_eq_true, if_false, if_true]
  exact ⟨_, rfl, rfl⟩

theorem same_counts_refl (s : Kernel) : same_counts s s := fun _ => ⟨rfl, rfl⟩

theorem same_counts_trans {a b c : Kernel} (h1 : same_counts a b) (h2 : same_counts b c) :
    same_counts a c :=
  fun q => ⟨(h2 q).1.trans (h1 q).1, (h2 q).2.trans (h1 q).2⟩

theorem same_counts_emit {a s : Kernel} (h : same_counts a s) (e : Event) :
    same_counts a (emit e s) := h

theorem same_counts_upd_PCB {a s : Kernel} (h : same_counts a s) (p : Pid_t) (f : PCB → PCB)
    (hf : ∀ c, (f c).thread_count = c.thread_count ∧ (f c).ptcb_list = c.ptcb_list) :
    same_counts a (upd_PCB p f s) := by
  intro q
  by_cases hq : q = p
  · subst hq; rw [PT_upd_PCB_same, (hf _).1, (hf _).2]; exact h q
  · rw [PT_upd_PCB_ne _ _ _ _ hq]; exact h q

theorem reparent_children_same_counts (initpcb curproc : Pid_t) :
    ∀ (fuel : Nat) (s t : Kernel), reparent_children initpcb curproc fuel s = some t →
      same_counts s t := by
  intro fuel
  induction fuel with
  | zero => intro s t h; simp [reparent_children] at h
  | succ n ih =>
    intro s t h
    unfold reparent_children at h
    split at h
    · cases h; exact same_counts_refl s
    · have e := ih _ _ h
      refine same_counts_trans ?_ e
      refine same_counts_upd_PCB (same_counts_upd_PCB (same_counts_upd_PCB (same_counts_refl s)
        _ _ ?_) _ _ ?_) _ _ ?_ <;> exact fun _ => ⟨rfl, rfl⟩

theorem clean_FIDT_same_counts (curproc : Pid_t) :
    ∀ (n i : Nat) (s : Kernel), same_counts s (clean_FIDT curproc i n s) := by
  intro n
  induction n with
  | zero => intro i s; exact same_counts_refl s
  | succ n ih =>
    intro i s
    unfold clean_FIDT
    split
    · rename_i f _
      have e := ih (i + 1) (upd_PCB curproc (fun c => { c with FIDT := Function.update c.FIDT i none })
        (emit (Event.FCB_decref f) s))
      refine same_counts_trans ?_ e
      refine same_counts_upd_PCB (same_counts_emit (same_counts_refl s) _) _ _ ?_
      exact fun _ => ⟨rfl, rfl⟩
    · exact ih _ _

theorem hand_exited_same_counts (initpcb curproc : Pid_t) (s : Kernel) :
    same_counts s (hand_exited initpcb curproc s) := by
  unfold hand_exited
  split
  · refine same_counts_emit (same_counts_upd_PCB (same_counts_upd_PCB (same_counts_refl s)
      _ _ ?_) _ _ ?_) _ <;> exact fun _ => ⟨rfl, rfl⟩
  · exact same_counts_refl s

theorem enter_parent_exited_list_same_counts (curproc : Pid_t) (s t : Kernel)
    (h : enter_parent_exited_list curproc s = some t) : same_counts s t := by
  unfold enter_parent_exited_list at h
  split at h
  · cases h
  · cases h
    refine same_counts_emit (same_counts_upd_PCB (same_counts_refl s) _ _ ?_) _
    exact fun _ => ⟨rfl, rfl⟩

theorem hand_over_same_counts (curproc : Pid_t) (s t : Kernel)
    (h : hand_over curproc s = some t) : same_counts s t := by
  unfold hand_over at h
  simp only [Option.bind_eq_some] at h
  obtain ⟨s1, h1, s2, h2, h3⟩ := h
  have e3 := (assert_lists_empty_eq_some _ _ _ h3).1
  subst e3
  exact same_counts_trans (reparent_children_same_counts _ _ _ _ _ h1)
    (same_counts_trans (hand_exited_same_counts _ _ _)
      (enter_parent_exited_list_same_counts _ _ _ h2))

theorem cleanup_same_counts (MAX_FILEID : Nat) (curproc : Pid_t) (s : Kernel) :
    same_counts s (cleanup MAX_FILEID curproc s) := by
  unfold cleanup
  simp only
  refine same_counts_upd_PCB (same_counts_upd_PCB
    (same_counts_trans ?_ (clean_FIDT_same_counts _ _ _ _)) _ _ ?_) _ _ ?_
  · split
    · refine same_counts_upd_PCB (same_counts_emit (same_counts_refl s) _) _ _ ?_
      exact fun _ => ⟨rfl, rfl⟩
    · exact same_counts_refl s
  · exact fun _ => ⟨rfl, rfl⟩
  · exact fun _ => ⟨rfl, rfl⟩

theorem exit_process_same_counts (MAX_FILEID : Nat) (s t : Kernel)
    (h : exit_process MAX_FILEID s = some t) : same_counts s t := by
  unfold exit_process at h
  simp only [Option.map_eq_some'] at h
  obtain ⟨s4, h4, rfl⟩ := h
  refine same_counts_trans ?_ (cleanup_same_counts MAX_FILEID _ s4)
  split at h4
  · exact hand_over_same_counts _ _ _ h4
  · cases h4; exact same_counts_refl _

/-- The call `sys_ThreadExit` takes one from the `thread_count` of the caller's process and
leaves every other `thread_count` and every `ptcb_list` as they were. -/
theorem sys_ThreadExit_thread_count (MAX_FILEID : Nat) (x : Int) (s s1 : Kernel)
    (h : sys_ThreadExit MAX_FILEID x s = some s1) (q : Pid_t) :
    (s1.PT q).thread_count = (s.PT q).thread_count - (if q = CURPROC s then 1 else 0) ∧
    (s1.PT q).ptcb_list = (s.PT q).ptcb_list := by
  unfold sys_ThreadExit at h
  simp only [Option.bind_eq_some, Option.map_eq_some'] at h
  obtain ⟨s3, h3, s5, h5, rfl⟩ := h
  obtain ⟨_, e2⟩ := exit_thread_PT x s s3 h3
  have e5 : same_counts s3 s5 := by
    split at h5
    · exact exit_process_same_counts _ _ _ h5
    · cases h5; exact same_counts_refl _
  have e6 := same_counts_emit e5 (Event.kernel_sleep s5.cur_thread) q
  rw [e6.1, e6.2, e2]
  by_cases hq : q = CURPROC s
  · subst hq; simp
  · simp [Function.update_noteq hq, hq]

theorem sys_ThreadJoin_loop_PT (T : Tid_t) (out : Option Addr) (s s1 : Kernel) (st : JoinStatus)
    (h : sys_ThreadJoin_loop T out s = some (st, s1)) :
    s1.PT = s.PT ∧ s1.threads = s.threads ∧ s1.cur_thread = s.cur_thread := by
  unfold sys_ThreadJoin_loop at h
  split at h
  · cases h
  · split at h
    · cases h; exact ⟨rfl, rfl, rfl⟩
    · simp only at h
      split at h
      · cases h; exact ⟨rfl, rfl, rfl⟩
      · cases h
        cases out <;> (simp only; split <;> exact ⟨rfl, rfl, rfl⟩)

theorem sys_ThreadJoin_PT (T : Tid_t) (out : Option Addr) (s s1 : Kernel) (st : JoinStatus)
    (h : sys_ThreadJoin T out s = some (st, s1)) :
    s1.PT = s.PT ∧ s1.threads = s.threads ∧ s1.cur_thread = s.cur_thread := by
  unfold sys_ThreadJoin at h
  split at h
  · cases h; exact ⟨rfl, rfl, rfl⟩
  · split at h
    · cases h; exact ⟨rfl, rfl, rfl⟩
    · split at h
      · cases h
      · split at h
        · cases h; exact ⟨rfl, rfl, rfl⟩
        · have e := sys_ThreadJoin_loop_PT _ _ _ _ _ h
          exact e

theorem sys_ThreadDetach_PT (T : Tid_t) (s s1 : Kernel) (rc : Int)
    (h : sys_ThreadDetach T s = some (rc, s1)) :
    s1.PT = s.PT ∧ s1.threads = s.threads ∧ s1.cur_thread = s.cur_thread := by
  unfold sys_ThreadDetach at h
  split at h
  · cases h; exact ⟨rfl, rfl, rfl⟩
  · split at h
    · cases h
    · split at h
      · cases h; exact ⟨rfl, rfl, rfl⟩
      · split at h <;> (cases h; exact ⟨rfl, rfl, rfl⟩)

@[simp] theorem PT_upd_TCB (t : TCBRef) (f : TCB → TCB) (s : Kernel) :
    (upd_TCB t f s).PT = s.PT := rfl

@[simp] theorem PT_upd_PTCB (p : Tid_t) (f : PTCB → PTCB) (s : Kernel) :
    (upd_PTCB p f s).PT = s.PT := rfl

@[simp] theorem CURPROC_upd_PTCB (p : Tid_t) (f : PTCB → PTCB) (s : Kernel) :
    CURPROC (upd_PTCB p f s) = CURPROC s := rfl

@[simp] theorem CURPROC_upd_TCB_ptcb (t : TCBRef) (p : Tid_t) (s : Kernel) :
    CURPROC (upd_TCB t (fun c => { c with ptcb := p }) s) = CURPROC s := by
  unfold CURPROC upd_TCB
  by_cases h : s.cur_thread = t
  · subst h; simp
  · simp [Function.update_noteq h]

@[simp] theorem CURPROC_upd_TCB_owner (t : TCBRef) (s : Kernel) :
    CURPROC (upd_TCB t (fun c => { c with owner_pcb := CURPROC s }) s) = CURPROC s := by
  unfold CURPROC upd_TCB
  by_cases h : s.cur_thread = t
  · subst h; simp
  · simp [Function.update_noteq h]

/-- The process table after `sys_CreateThread`: the caller's process has one more
in `thread_count` and, when there is a task, the new record at the back of its
`ptcb_list`; nothing else changes. -/
theorem sys_CreateThread_PT (task : Option Nat) (argl : Int) (args : Option Addr)
    (p : Tid_t) (t : TCBRef) (s : Kernel) :
    CURPROC (sys_CreateThread task argl args p t s).2 = CURPROC s ∧
    (sys_CreateThread task argl args p t s).2.PT =
      Function.update s.PT (CURPROC s)
        { s.PT (CURPROC s) with
          thread_count := (s.PT (CURPROC s)).thread_count + 1,
          ptcb_list := if task.isSome then (s.PT (CURPROC s)).ptcb_list ++ [p]
                       else (s.PT (CURPROC s)).ptcb_list } := by
  unfold sys_CreateThread
  cases task with
  | none => exact ⟨rfl, by simp [upd_PCB]⟩
  | some f =>
    have e : CURPROC (upd_TCB t (fun c => { c with owner_pcb := CURPROC s })
        (upd_PCB (CURPROC s) (fun c => { c with thread_count := c.thread_count + 1 })
          (set_PTCB p (initialise_PTCB (some f) argl args) s))) = CURPROC s :=
      CURPROC_upd_TCB_owner t (upd_PCB (CURPROC s)
        (fun c => { c with thread_count := c.thread_count + 1 })
          (set_PTCB p (initialise_PTCB (some f) argl args) s))
    simp [e]
    simp [upd_PCB]

/-- The call `sys_CreateThread` adds one to the `thread_count` of the caller's process,
with or without a task, and leaves every other `thread_count` as it was. -/
theorem sys_CreateThread_thread_count (task : Option Nat) (argl : Int) (args : Option Addr)
    (p : Tid_t) (t : TCBRef) (s : Kernel) (q : Pid_t) :
    ((sys_CreateThread task argl args p t s).2.PT q).thread_count =
      (s.PT q).thread_count + (if q = CURPROC s then 1 else 0) := by
  rw [(sys_CreateThread_PT task argl args p t s).2]
  by_cases hq : q = CURPROC s
  · subst hq; simp
  · simp [Function.update_noteq hq, hq]

theorem PT_upd_PCB_apply (p q : Pid_t) (f : PCB → PCB) (s : Kernel) :
    (upd_PCB p f s).PT q = if q = p then f (s.PT q) else s.PT q := by
  by_cases h : q = p
  · subst h; simp
  · simp [PT_upd_PCB_ne _ _ _ _ h, h]

/-- The loop of lines 125-129 ends, and ends in `reparented`, when `curproc` is not
`initpcb` and the fuel exceeds the length of the children list. -/
theorem reparent_children_eq (initpcb curproc : Pid_t) (hne : curproc ≠ initpcb) :
    ∀ (fuel : Nat) (s : Kernel), (s.PT curproc).children_list.length < fuel →
      reparent_children initpcb curproc fuel s = some (reparented initpcb curproc s) := by
  intro fuel
  induction fuel with
  | zero => intro s h; exact absurd h (Nat.not_lt_zero _)
  | succ n ih =>
    intro s hlen
    unfold reparent_children
    cases hk : (s.PT curproc).children_list with
    | nil =>
      simp only
      congr 1
      obtain ⟨a, b, PT, d, e, f⟩ := s
      simp only [reparented, Kernel.mk.injEq, true_and, and_true]
      funext q
      simp only at hk
      by_cases hq : q = curproc
      · subst hq
        rw [hk]
        simp only [if_true, List.not_mem_nil, if_false]
        conv_lhs => rw [show PT q = { PT q with children_list := (PT q).children_list } from rfl]
        rw [hk]
      · simp [hk, hq]
    | cons child rest =>
      simp only
      have hne2 : initpcb ≠ curproc := fun e => hne e.symm
      have hP : ((upd_PCB initpcb (fun c => { c with children_list := child :: c.children_list })
          (upd_PCB child (fun c => { c with parent := some initpcb })
            (upd_PCB curproc (fun c => { c with children_list := rest }) s))).PT
              curproc).children_list = rest := by
        simp only [PT_upd_PCB_apply, hne, if_false]
        by_cases hc : curproc = child <;> simp [hc]
      rw [ih _ (by rw [hP]; rw [hk] at hlen; simp at hlen; omega)]
      congr 1
      unfold reparented
      rw [hP, hk]
      obtain ⟨a, b, PT, d, e, f⟩ := s
      simp only [upd_PCB, Kernel.mk.injEq, true_and, and_true]
      funext q
      simp only at hk
      by_cases hq : q = curproc
      · have hqi : q ≠ initpcb := by rw [hq]; exact hne
        by_cases hc : q = child
        · have hcc : child = curproc := by rw [← hc, hq]
          simp [Function.update, hq, hne, hcc]
        · have hcc : ¬ curproc = child := by rw [← hq]; exact hc
          simp [Function.update, hq, hne, hcc]
      · by_cases hi : q = initpcb
        · by_cases hc : q = child
          · have hci : child = initpcb := by rw [← hc, hi]
            simp [Function.update, hi, hne2, hci, hk]
          · have hci : ¬ initpcb = child := by rw [← hi]; exact hc
            simp [Function.update, hi, hne2, hci, hk]
        · by_cases hc : q = child
          · subst hc; simp [Function.update, hq, hi]
          · simp [Function.update, hq, hi, hc]

theorem family_upd_PCB (p q : Pid_t) (f : PCB → PCB) (s : Kernel)
    (hf : ∀ c, family (f c) = family c) :
    family ((upd_PCB p f s).PT q) = family (s.PT q) := by
  rw [PT_upd_PCB_apply]
  split
  · exact hf _
  · rfl

theorem clean_FIDT_family (curproc : Pid_t) :
    ∀ (n i : Nat) (s : Kernel),
      (∀ q, family ((clean_FIDT curproc i n s).PT q) = family (s.PT q)) ∧
      ∃ evs, (clean_FIDT curproc i n s).trace = s.trace ++ evs := by
  intro n
  induction n with
  | zero => intro i s; exact ⟨fun _ => rfl, [], by simp [clean_FIDT]⟩
  | succ n ih =>
    intro i s
    unfold clean_FIDT
    split
    · rename_i f _
      obtain ⟨e1, evs, e2⟩ := ih (i + 1)
        (upd_PCB curproc (fun c => { c with FIDT := Function.update c.FIDT i none })
          (emit (Event.FCB_decref f) s))
      refine ⟨?_, Event.FCB_decref f :: evs, ?_⟩
      · intro q
        rw [e1 q]
        refine (family_upd_PCB _ _ _ _ ?_).trans rfl
        exact fun _ => rfl
      · rw [e2]; simp [upd_PCB, emit]
    · exact ih _ _

/-- Lines 151-155 leave the place of every process in the tree as it was. -/
theorem release_args_family (curproc : Pid_t) (s : Kernel) (q : Pid_t) :
    family ((match (s.PT curproc).args with
      | some a => upd_PCB curproc (fun c => { c with args := none }) (emit (Event.free a) s)
      | none => s).PT q) = family (s.PT q) := by
  split
  · refine (family_upd_PCB _ _ _ _ ?_).trans rfl
    exact fun _ => rfl
  · rfl

/-- The cleanup of lines 147-169 leaves the place of every process in the process
tree as it was and only adds to the trace. -/
theorem cleanup_family (MAX_FILEID : Nat) (curproc : Pid_t) (s : Kernel) :
    (∀ q, family ((cleanup MAX_FILEID curproc s).PT q) = family (s.PT q)) ∧
    ∃ evs, (cleanup MAX_FILEID curproc s).trace = s.trace ++ evs := by
  unfold cleanup
  simp only
  obtain ⟨e1, evs, e2⟩ := clean_FIDT_family curproc MAX_FILEID 0
    (match (s.PT curproc).args with
      | some a => upd_PCB curproc (fun c => { c with args := none }) (emit (Event.free a) s)
      | none => s)
  constructor
  · intro q
    refine (family_upd_PCB _ _ _ _ ?_).trans ((family_upd_PCB _ _ _ _ ?_).trans ?_)
    · exact fun _ => rfl
    · exact fun _ => rfl
    · rw [e1 q, release_args_family]
  · cases ha : (s.PT curproc).args with
    | none =>
      simp only [ha] at e2
      exact ⟨evs, e2⟩
    | some a =>
      simp only [ha] at e2
      refine ⟨Event.free a :: evs, ?_⟩
      show (clean_FIDT curproc 0 MAX_FILEID _).trace = _
      rw [e2]; simp [upd_PCB, emit]

/-- What the first part of `sys_ThreadExit` does, in full. -/
theorem exit_thread_eq (x : Int) (s : Kernel) (r : PTCB)
    (hr : s.heap (sys_ThreadSelf s) = some r) :
    ∃ s3, exit_thread x s = some s3 ∧ CURPROC s3 = CURPROC s ∧
      s3.cur_thread = s.cur_thread ∧
      s3.PT = Function.update s.PT (CURPROC s)
        { s.PT (CURPROC s) with thread_count := (s.PT (CURPROC s)).thread_count - 1 } ∧
      s3.trace = s.trace ++ Event.kernel_broadcast (CondVar.exit_cv (sys_ThreadSelf s)) ::
        (if r.detached then [Event.release_PTCB (sys_ThreadSelf s)] else []) := by
  obtain ⟨s3, h3⟩ := exit_thread_isSome x s r hr
  obtain ⟨e1, e2⟩ := exit_thread_PT x s s3 h3
  refine ⟨s3, h3, e1, ?_, e2, ?_⟩
  · unfold exit_thread at h3
    unfold sys_ThreadSelf at hr
    simp only [hr, Option.some.injEq] at h3
    subst h3
    split <;> rfl
  · unfold exit_thread at h3
    unfold sys_ThreadSelf at hr ⊢
    simp only [hr, Option.some.injEq] at h3
    subst h3
    cases r.detached <;> simp [release_PTCB, emit, upd_PCB, kernel_broadcast, set_PTCB]

/-- When `curproc` is not process 1, has a parent at line 139 and is not its own
parent, `hand_over` ends, in `handed_over`. -/
theorem hand_over_eq (curproc parent : Pid_t) (s : Kernel) (hne : curproc ≠ 1)
    (hpar : (if curproc ∈ (s.PT curproc).children_list then some 1 else (s.PT curproc).parent)
      = some parent)
    (hpp : parent ≠ curproc) :
    hand_over curproc s = some (handed_over parent curproc s) := by
  unfold hand_over
  simp only
  rw [reparent_children_eq 1 curproc hne _ s (Nat.lt_succ_self _)]
  simp only [Option.some_bind]
  have hp2 : ((hand_exited 1 curproc (reparented 1 curproc s)).PT curproc).parent
      = some parent := by
    unfold hand_exited
    split
    · simp only [PT_kernel_broadcast, PT_upd_PCB_same]
      rw [PT_upd_PCB_apply, if_neg hne]
      simpa [reparented] using hpar
    · simpa [reparented] using hpar
  have hl : ((hand_exited 1 curproc (reparented 1 curproc s)).PT curproc).children_list = [] ∧
      ((hand_exited 1 curproc (reparented 1 curproc s)).PT curproc).exited_list = [] := by
    unfold hand_exited
    split
    · simp only [PT_kernel_broadcast, PT_upd_PCB_same]
      rw [PT_upd_PCB_apply, if_neg hne]
      simp [reparented]
    · rename_i h
      simp only [ne_eq, not_not] at h
      exact ⟨by simp [reparented], h⟩
  unfold enter_parent_exited_list
  simp only [hp2, Option.some_bind]
  unfold assert_lists_empty
  have hpp2 : curproc ≠ parent := fun e => hpp e.symm
  simp only [PT_kernel_broadcast, PT_upd_PCB_apply, hpp2, if_false, hl, and_self, if_true]
  rfl

/-- The children lists and parents after `handed_over` are those of `reparented`. -/
theorem handed_over_children (parent curproc : Pid_t) (s : Kernel) (q : Pid_t) :
    ((handed_over parent curproc s).PT q).children_list =
      (if q = curproc then []
       else if q = 1 then (s.PT curproc).children_list.reverse ++ (s.PT q).children_list
       else (s.PT q).children_list) ∧
    ((handed_over parent curproc s).PT q).parent =
      (if q ∈ (s.PT curproc).children_list then some 1 else (s.PT q).parent) := by
  have h1 : ∀ (u : Kernel) (f : List Pid_t → List Pid_t) (p : Pid_t),
      ((upd_PCB p (fun c => { c with exited_list := f c.exited_list }) u).PT q).children_list
        = (u.PT q).children_list ∧
      ((upd_PCB p (fun c => { c with exited_list := f c.exited_list }) u).PT q).parent
        = (u.PT q).parent := by
    intro u f p
    rw [PT_upd_PCB_apply]
    split <;> exact ⟨rfl, rfl⟩
  have h2 : ((hand_exited 1 curproc (reparented 1 curproc s)).PT q).children_list
        = ((reparented 1 curproc s).PT q).children_list ∧
      ((hand_exited 1 curproc (reparented 1 curproc s)).PT q).parent
        = ((reparented 1 curproc s).PT q).parent := by
    unfold hand_exited
    split
    · simp only [PT_kernel_broadcast]
      have a := h1 (upd_PCB 1 (fun c => { c with exited_list :=
        c.exited_list ++ ((reparented 1 curproc s).PT curproc).exited_list })
          (reparented 1 curproc s)) (fun _ => []) curproc
      have b := h1 (reparented 1 curproc s)
        (fun l => l ++ ((reparented 1 curproc s).PT curproc).exited_list) 1
      exact ⟨a.1.trans b.1, a.2.trans b.2⟩
    · exact ⟨rfl, rfl⟩
  have h3 := h1 (hand_exited 1 curproc (reparented 1 curproc s)) (fun l => curproc :: l) parent
  unfold handed_over
  simp only [PT_kernel_broadcast]
  rw [h3.1, h3.2, h2.1, h2.2]
  exact ⟨rfl, rfl⟩

/-- The exited lists after `handed_over`. -/
theorem handed_over_exited (parent curproc : Pid_t) (s : Kernel) (hne : curproc ≠ 1)
    (q : Pid_t) :
    ((handed_over parent curproc s).PT q).exited_list =
      (if q = parent then [curproc] else []) ++
      (if q = curproc then []
       else if q = 1 then (s.PT 1).exited_list ++ (s.PT curproc).exited_list
       else (s.PT q).exited_list) := by
  have hb : ((hand_exited 1 curproc (reparented 1 curproc s)).PT q).exited_list =
      (if q = curproc then []
       else if q = 1 then (s.PT 1).exited_list ++ (s.PT curproc).exited_list
       else (s.PT q).exited_list) := by
    unfold hand_exited
    by_cases hE : (s.PT curproc).exited_list = []
    · have hE2 : ((reparented 1 curproc s).PT curproc).exited_list = [] := hE
      simp only [hE2, ne_eq, not_true_eq_false, if_false]
      by_cases hq : q = curproc
      · subst hq; simp [hE2]
      · by_cases h1 : q = 1
        · subst h1; simp [hq, hE, reparented]
        · simp [hq, h1, reparented]
    · have hE2 : ((reparented 1 curproc s).PT curproc).exited_list ≠ [] := hE
      simp only [hE2, ne_eq, not_false_eq_true, if_true, PT_kernel_broadcast,
        PT_upd_PCB_apply]
      by_cases hq : q = curproc
      · simp [hq]
      · by_cases h1 : q = 1
        · subst h1; simp [hq, reparented]
        · simp [hq, h1, reparented]
  unfold handed_over
  simp only [PT_kernel_broadcast, PT_upd_PCB_apply]
  by_cases hp : q = parent
  · simp only [hp, if_true, List.singleton_append, List.cons.injEq, true_and]
    rw [← hp]; exact hb
  · simp only [hp, if_false, List.nil_append]
    exact hb

/-- The trace after `handed_over`. -/
theorem handed_over_trace (parent curproc : Pid_t) (s : Kernel) :
    (handed_over parent curproc s).trace = s.trace ++
      ((if (s.PT curproc).exited_list ≠ [] then
          [Event.kernel_broadcast (CondVar.child_exit 1)] else []) ++
        [Event.kernel_broadcast (CondVar.child_exit parent)]) := by
  unfold handed_over hand_exited
  have hE : ((reparented 1 curproc s).PT curproc).exited_list = (s.PT curproc).exited_list := rfl
  rw [hE]
  by_cases h : (s.PT curproc).exited_list = []
  · simp [h, kernel_broadcast, emit, upd_PCB, reparented]
  · simp [h, kernel_broadcast, emit, upd_PCB, reparented]

/-- The exit of the last thread of a process other than process 1: the call
completes when the caller's record is live and the process has a parent other than
itself, and this is the state it ends in. -/
theorem sys_ThreadExit_last_thread (MAX_FILEID : Nat) (x : Int) (s : Kernel) (r : PTCB)
    (parent : Pid_t)
    (hr : s.heap (sys_ThreadSelf s) = some r)
    (hne : CURPROC s ≠ 1)
    (hlast : (s.PT (CURPROC s)).thread_count = 1)
    (hpar : (if CURPROC s ∈ (s.PT (CURPROC s)).children_list then some 1
             else (s.PT (CURPROC s)).parent) = some parent)
    (hpp : parent ≠ CURPROC s) :
    ∃ s3, exit_thread x s = some s3 ∧
      (∀ q, family (s3.PT q) = family (s.PT q)) ∧
      s3.trace = s.trace ++ Event.kernel_broadcast (CondVar.exit_cv (sys_ThreadSelf s)) ::
        (if r.detached then [Event.release_PTCB (sys_ThreadSelf s)] else []) ∧
      sys_ThreadExit MAX_FILEID x s =
        some (emit (Event.kernel_sleep s.cur_thread)
          (cleanup MAX_FILEID (CURPROC s) (handed_over parent (CURPROC s) s3))) := by
  obtain ⟨s3, h3, e1, e2, e3, e4⟩ := exit_thread_eq x s r hr
  have hfam : ∀ q, family (s3.PT q) = family (s.PT q) := by
    intro q
    rw [e3]
    by_cases hq : q = CURPROC s
    · subst hq; simp [family]
    · simp [Function.update_noteq hq]
  refine ⟨s3, h3, hfam, e4, ?_⟩
  have hzero : (s3.PT (CURPROC s3)).thread_count = 0 := by
    rw [e1, e3]; simp [hlast]
  have hpar3 : (if CURPROC s ∈ (s3.PT (CURPROC s)).children_list then some 1
             else (s3.PT (CURPROC s)).parent) = some parent := by
    have hf := hfam (CURPROC s)
    simp only [family, Prod.mk.injEq] at hf
    rw [hf.1, hf.2.1]; exact hpar
  unfold sys_ThreadExit
  simp only [h3, Option.some_bind, hzero, if_true]
  unfold exit_process
  simp only [e1, ne_eq, hne, not_false_eq_true, if_true]
  rw [hand_over_eq (CURPROC s) parent s3 hne hpar3 hpp]
  simp only [Option.map_some']
  have hc : (cleanup MAX_FILEID (CURPROC s) (handed_over parent (CURPROC s) s3)).cur_thread
      = s.cur_thread := by
    rw [(cleanup_same_threads MAX_FILEID (CURPROC s) _).1]
    have h5 : same_threads s3 (handed_over parent (CURPROC s) s3) := by
      unfold handed_over
      refine same_threads_trans (b := hand_exited 1 (CURPROC s) (reparented 1 (CURPROC s) s3))
        (same_threads_trans (b := reparented 1 (CURPROC s) s3) ⟨rfl, rfl, rfl, rfl⟩
          (hand_exited_same_threads _ _ _)) ⟨rfl, rfl, rfl, rfl⟩
    rw [h5.1]
    exact e2
  rw [hc]

/-- The place of every process in the tree after the exit of the last thread of a
process other than process 1, in terms of the state before the call. -/
theorem sys_ThreadExit_last_thread_family (MAX_FILEID : Nat) (x : Int) (s : Kernel) (r : PTCB)
    (parent : Pid_t)
    (hr : s.heap (sys_ThreadSelf s) = some r)
    (hne : CURPROC s ≠ 1)
    (hlast : (s.PT (CURPROC s)).thread_count = 1)
    (hpar : (if CURPROC s ∈ (s.PT (CURPROC s)).children_list then some 1
             else (s.PT (CURPROC s)).parent) = some parent)
    (hpp : parent ≠ CURPROC s) :
    ∃ t, sys_ThreadExit MAX_FILEID x s = some t ∧ ∀ q,
      (t.PT q).children_list =
        (if q = CURPROC s then []
         else if q = 1 then (s.PT (CURPROC s)).children_list.reverse ++ (s.PT q).children_list
         else (s.PT q).children_list) ∧
      (t.PT q).parent =
        (if q ∈ (s.PT (CURPROC s)).children_list then some 1 else (s.PT q).parent) ∧
      (t.PT q).exited_list =
        (if q = parent then [CURPROC s] else []) ++
        (if q = CURPROC s then []
         else if q = 1 then (s.PT 1).exited_list ++ (s.PT (CURPROC s)).exited_list
         else (s.PT q).exited_list) := by
  obtain ⟨s3, _, hfam, _, ht⟩ :=
    sys_ThreadExit_last_thread MAX_FILEID x s r parent hr hne hlast hpar hpp
  refine ⟨_, ht, ?_⟩
  intro q
  have hf : ∀ q, (s3.PT q).parent = (s.PT q).parent ∧
      (s3.PT q).children_list = (s.PT q).children_list ∧
      (s3.PT q).exited_list = (s.PT q).exited_list := by
    intro q
    have h := hfam q; simp only [family, Prod.mk.injEq] at h; exact h
  have h : family ((emit (Event.kernel_sleep s.cur_thread)
      (cleanup MAX_FILEID (CURPROC s) (handed_over parent (CURPROC s) s3))).PT q) =
      family ((handed_over parent (CURPROC s) s3).PT q) := (cleanup_family _ _ _).1 q
  simp only [family, Prod.mk.injEq] at h
  rw [h.1, h.2.1, h.2.2, (handed_over_children _ _ _ q).1, (handed_over_children _ _ _ q).2,
    handed_over_exited _ _ _ hne q, (hf 1).2.2, (hf (CURPROC s)).2.2, (hf (CURPROC s)).2.1,
    (hf q).1, (hf q).2.1, (hf q).2.2]
  exact ⟨rfl, rfl, rfl⟩

theorem new_events_of_append (s t : Kernel) (evs : List Event)
    (h : t.trace = s.trace ++ evs) : new_events s t = evs := by
  unfold new_events
  rw [h, List.drop_left]

theorem FIDT_decrefs_succ (F : Nat → Option FCBRef) (i n : Nat) :
    FIDT_decrefs F i (n + 1) =
      ((F i).map Event.FCB_decref).toList ++ FIDT_decrefs F (i + 1) n := by
  unfold FIDT_decrefs
  rw [List.range_succ_eq_map, List.filterMap_cons, List.filterMap_map]
  have e : ((fun k => Option.map Event.FCB_decref (F (i + k))) ∘ Nat.succ) =
      (fun k => Option.map Event.FCB_decref (F (i + 1 + k))) := by
    funext k
    simp only [Function.comp, Nat.succ_eq_add_one]
    rw [show i + (k + 1) = i + 1 + k by omega]
  rw [e]
  cases hF : F i <;> simp [hF]

/-- The loop of lines 158-163 without the loop: the slots it visits are empty
afterwards, every other slot and every other process is as it was, and the trace
has one `FCB_decref` for every occupied slot it visited, in slot order. -/
theorem clean_FIDT_eq (curproc : Pid_t) :
    ∀ (n i : Nat) (s : Kernel),
      (clean_FIDT curproc i n s).PT = Function.update s.PT curproc
        { s.PT curproc with
          FIDT := fun j => if i ≤ j ∧ j < i + n then none else (s.PT curproc).FIDT j } ∧
      (clean_FIDT curproc i n s).trace =
        s.trace ++ FIDT_decrefs (s.PT curproc).FIDT i n := by
  intro n
  induction n with
  | zero =>
    intro i s
    constructor
    · simp only [clean_FIDT]
      have e : (fun j => if i ≤ j ∧ j < i + 0 then none else (s.PT curproc).FIDT j)
          = (s.PT curproc).FIDT := by
        funext j
        have : ¬ (i ≤ j ∧ j < i + 0) := by omega
        simp [this]
      rw [e]
      exact (Function.update_eq_self curproc s.PT).symm
    · simp [clean_FIDT, FIDT_decrefs]
  | succ n ih =>
    intro i s
    unfold clean_FIDT
    cases hF : (s.PT curproc).FIDT i with
    | none =>
      simp only
      obtain ⟨e1, e2⟩ := ih (i + 1) s
      constructor
      · rw [e1]
        have hfun : (fun j : Nat => if i + 1 ≤ j ∧ j < i + 1 + n then none
              else (s.PT curproc).FIDT j) =
            (fun j : Nat => if i ≤ j ∧ j < i + (n + 1) then none
              else (s.PT curproc).FIDT j) := by
          funext j
          by_cases hj : j = i
          · have a : ¬ (i + 1 ≤ j ∧ j < i + 1 + n) := by omega
            have b : (i ≤ j ∧ j < i + (n + 1)) := by omega
            rw [if_neg a, if_pos b, hj, hF]
          · have a : (i + 1 ≤ j ∧ j < i + 1 + n) ↔ (i ≤ j ∧ j < i + (n + 1)) := by omega
            simp only [a]
        simp only [hfun]
      · rw [e2, FIDT_decrefs_succ, hF]
        simp
    | some f =>
      simp only
      obtain ⟨e1, e2⟩ := ih (i + 1)
        (upd_PCB curproc (fun c => { c with FIDT := Function.update c.FIDT i none })
          (emit (Event.FCB_decref f) s))
      constructor
      · rw [e1]
        have hfun : (fun j : Nat => if i + 1 ≤ j ∧ j < i + 1 + n then none
              else Function.update (s.PT curproc).FIDT i none j) =
            (fun j : Nat => if i ≤ j ∧ j < i + (n + 1) then none
              else (s.PT curproc).FIDT j) := by
          funext j
          by_cases hj : j = i
          · have a : ¬ (i + 1 ≤ j ∧ j < i + 1 + n) := by omega
            have b : (i ≤ j ∧ j < i + (n + 1)) := by omega
            rw [if_neg a, if_pos b, hj, Function.update_same]
          · have a : (i + 1 ≤ j ∧ j < i + 1 + n) ↔ (i ≤ j ∧ j < i + (n + 1)) := by omega
            simp only [a, Function.update_noteq hj]
        simp only [PT_upd_PCB_same, PT_emit, upd_PCB, emit, Function.update_idem,
          Function.update_same, hfun]
      · rw [e2, FIDT_decrefs_succ, hF]
        have e3 : FIDT_decrefs ((upd_PCB curproc
            (fun c => { c with FIDT := Function.update c.FIDT i none })
            (emit (Event.FCB_decref f) s)).PT curproc).FIDT (i + 1) n
            = FIDT_decrefs (s.PT curproc).FIDT (i + 1) n := by
          unfold FIDT_decrefs
          apply List.filterMap_congr
          intro k _
          have : i + 1 + k ≠ i := by omega
          simp [Function.update_noteq this]
        rw [e3]
        simp [upd_PCB, emit]

/-- The cleanup of lines 147-169 without the loop: in the process table only
`args`, the first `MAX_FILEID` slots of `FIDT`, `main_thread` and `pstate` of
`curproc` change; the trace gets a `free` of the argument buffer when there is one
and then the `FCB_decref` calls. -/
theorem cleanup_eq (MAX_FILEID : Nat) (curproc : Pid_t) (s : Kernel) :
    (cleanup MAX_FILEID curproc s).PT = Function.update s.PT curproc
      { s.PT curproc with
        args := none,
        FIDT := fun j => if j < MAX_FILEID then none else (s.PT curproc).FIDT j,
        main_thread := none,
        pstate := pid_state.ZOMBIE } ∧
    (cleanup MAX_FILEID curproc s).trace =
      s.trace ++ ((s.PT curproc).args.toList.map Event.free ++
        FIDT_decrefs (s.PT curproc).FIDT 0 MAX_FILEID) := by
  unfold cleanup
  have hfun : ∀ F : Nat → Option FCBRef,
      (fun j : Nat => if 0 ≤ j ∧ j < 0 + MAX_FILEID then none else F j) =
      (fun j : Nat => if j < MAX_FILEID then none else F j) := by
    intro F
    funext j
    have a : (0 ≤ j ∧ j < 0 + MAX_FILEID) ↔ j < MAX_FILEID := by omega
    simp only [a]
  cases ha : (s.PT curproc).args with
  | none =>
    simp only
    obtain ⟨e1, e2⟩ := clean_FIDT_eq curproc MAX_FILEID 0 s
    constructor
    · simp only [upd_PCB, e1, Function.update_same, Function.update_idem, hfun, ha]
    · simp only [upd_PCB, e2, Option.toList, List.map_nil, List.nil_append]
  | some a =>
    simp only
    obtain ⟨e1, e2⟩ := clean_FIDT_eq curproc MAX_FILEID 0
      (upd_PCB curproc (fun c => { c with args := none }) (emit (Event.free a) s))
    constructor
    · simp only [upd_PCB, emit, Function.update_same, Function.update_idem] at e1 ⊢
      simp only [e1, Function.update_same, Function.update_idem, hfun]
    · simp only [upd_PCB, emit, Function.update_same] at e2 ⊢
      simp only [e2, Option.toList, List.map_cons, List.map_nil, List.append_assoc,
        List.singleton_append]

theorem belongings_upd_PCB (p q : Pid_t) (f : PCB → PCB) (s : Kernel)
    (hf : ∀ c, belongings (f c) = belongings c) :
    belongings ((upd_PCB p f s).PT q) = belongings (s.PT q) := by
  rw [PT_upd_PCB_apply]
  split
  · exact hf _
  · rfl

/-- Lines 120-145 change the place of processes in the tree and nothing else. -/
theorem handed_over_belongings (parent curproc : Pid_t) (s : Kernel) (q : Pid_t) :
    belongings ((handed_over parent curproc s).PT q) = belongings (s.PT q) := by
  unfold handed_over
  simp only [PT_kernel_broadcast]
  refine (belongings_upd_PCB _ _ _ _ ?_).trans ?_
  · exact fun _ => rfl
  · unfold hand_exited
    split
    · simp only [PT_kernel_broadcast]
      refine (belongings_upd_PCB _ _ _ _ ?_).trans ((belongings_upd_PCB _ _ _ _ ?_).trans rfl)
      · exact fun _ => rfl
      · exact fun _ => rfl
    · rfl

/-- The parent that line 139 reads. -/
theorem parent_at_line_139 (curproc : Pid_t) (s : Kernel) :
    ((hand_exited 1 curproc (reparented 1 curproc s)).PT curproc).parent =
      (if curproc ∈ (s.PT curproc).children_list then some 1 else (s.PT curproc).parent) := by
  unfold hand_exited
  split
  · simp only [PT_kernel_broadcast, PT_upd_PCB_same]
    rw [PT_upd_PCB_apply]
    split <;> simp [reparented]
  · simp [reparented]

/-- When `hand_over` ends for a process other than process 1, line 139 has read a
parent other than the process itself and the result is `handed_over`. -/
theorem hand_over_eq_some (curproc : Pid_t) (s t : Kernel) (hne : curproc ≠ 1)
    (h : hand_over curproc s = some t) :
    ∃ parent, (if curproc ∈ (s.PT curproc).children_list then some 1
        else (s.PT curproc).parent) = some parent ∧ parent ≠ curproc ∧
      t = handed_over parent curproc s := by
  have hp := parent_at_line_139 curproc s
  cases hpar : (if curproc ∈ (s.PT curproc).children_list then some 1
      else (s.PT curproc).parent) with
  | none =>
    exfalso
    rw [hpar] at hp
    unfold hand_over at h
    simp only at h
    rw [reparent_children_eq 1 curproc hne _ s (Nat.lt_succ_self _)] at h
    simp only [Option.some_bind] at h
    unfold enter_parent_exited_list at h
    simp only [hp, Option.none_bind] at h
    cases h
  | some parent =>
    by_cases hpp : parent = curproc
    · exfalso
      rw [hpar] at hp
      unfold hand_over at h
      simp only at h
      rw [reparent_children_eq 1 curproc hne _ s (Nat.lt_succ_self _)] at h
      simp only [Option.some_bind] at h
      unfold enter_parent_exited_list at h
      simp only [hp, Option.some_bind] at h
      unfold assert_lists_empty at h
      subst hpp
      simp only [PT_kernel_broadcast, PT_upd_PCB_same] at h
      split at h
      · rename_i hc
        exact absurd hc.2 (by simp)
      · cases h
    · refine ⟨parent, rfl, hpp, ?_⟩
      rw [hand_over_eq curproc parent s hne hpar hpp] at h
      cases h
      rfl

/-- The first part of `sys_ThreadExit` changes no place in the process tree. -/
theorem exit_thread_family (x : Int) (s s3 : Kernel) (h : exit_thread x s = some s3) (q : Pid_t) :
    family (s3.PT q) = family (s.PT q) := by
  rw [(exit_thread_PT x s s3 h).2]
  by_cases hq : q = CURPROC s
  · subst hq; simp [family]
  · simp [Function.update_noteq hq]

/-- The three ways a call of `sys_ThreadExit` can end: the process keeps a thread
and nothing but the first part and the final `kernel_sleep` happens; or the last
thread of process 1 exits and the cleanup runs; or the last thread of another
process exits and lines 120-145 run before the cleanup. -/
theorem sys_ThreadExit_cases (MAX_FILEID : Nat) (x : Int) (s t : Kernel)
    (h : sys_ThreadExit MAX_FILEID x s = some t) :
    ∃ r s3, s.heap (sys_ThreadSelf s) = some r ∧ exit_thread x s = some s3 ∧
      (((s.PT (CURPROC s)).thread_count ≠ 1 ∧ t = emit (Event.kernel_sleep s.cur_thread) s3) ∨
       ((s.PT (CURPROC s)).thread_count = 1 ∧ CURPROC s = 1 ∧
          t = emit (Event.kernel_sleep s.cur_thread) (cleanup MAX_FILEID (CURPROC s) s3)) ∨
       ((s.PT (CURPROC s)).thread_count = 1 ∧ CURPROC s ≠ 1 ∧
          ∃ parent, (if CURPROC s ∈ (s.PT (CURPROC s)).children_list then some 1
              else (s.PT (CURPROC s)).parent) = some parent ∧ parent ≠ CURPROC s ∧
            t = emit (Event.kernel_sleep s.cur_thread)
              (cleanup MAX_FILEID (CURPROC s) (handed_over parent (CURPROC s) s3)))) := by
  cases hr : s.heap (sys_ThreadSelf s) with
  | none =>
    exfalso
    unfold sys_ThreadExit exit_thread at h
    unfold sys_ThreadSelf at hr
    simp only [hr, Option.none_bind] at h
    cases h
  | some r =>
    obtain ⟨s3, h3, e1, e2, e3, _⟩ := exit_thread_eq x s r hr
    refine ⟨r, s3, rfl, h3, ?_⟩
    have hcount : (s3.PT (CURPROC s3)).thread_count = (s.PT (CURPROC s)).thread_count - 1 := by
      rw [e1, e3]; simp
    unfold sys_ThreadExit at h
    simp only [h3, Option.some_bind, Option.map_eq_some'] at h
    obtain ⟨s5, h5, rfl⟩ := h
    by_cases hc : (s.PT (CURPROC s)).thread_count = 1
    · have hz : (s3.PT (CURPROC s3)).thread_count = 0 := by rw [hcount, hc]; rfl
      rw [if_pos hz] at h5
      unfold exit_process at h5
      simp only [Option.map_eq_some', e1] at h5
      obtain ⟨s4, h4, rfl⟩ := h5
      have hcur : ∀ u : Kernel, same_threads s3 u →
          (cleanup MAX_FILEID (CURPROC s) u).cur_thread = s.cur_thread := by
        intro u hu
        rw [(cleanup_same_threads MAX_FILEID (CURPROC s) u).1, hu.1, e2]
      by_cases h1 : CURPROC s = 1
      · right; left
        rw [if_neg (by simpa using h1)] at h4
        cases h4
        refine ⟨hc, h1, ?_⟩
        rw [hcur s3 (same_threads_refl s3)]
      · right; right
        rw [if_pos h1] at h4
        have hst := hand_over_same_threads _ _ _ h4
        obtain ⟨parent, hp, hpp, rfl⟩ := hand_over_eq_some (CURPROC s) s3 s4 h1 h4
        refine ⟨hc, h1, parent, ?_, hpp, ?_⟩
        · have hf := exit_thread_family x s s3 h3 (CURPROC s)
          simp only [family, Prod.mk.injEq] at hf
          rw [← hf.1, ← hf.2.1]; exact hp
        · rw [hcur _ hst]
    · left
      have hz : ¬ (s3.PT (CURPROC s3)).thread_count = 0 := by
        rw [hcount]; intro h0; exact hc (by omega)
      rw [if_neg hz] at h5
      cases h5
      exact ⟨hc, by rw [e2]⟩

@[simp] theorem released_append (a b : List Event) :
    released (a ++ b) = released a ++ released b := by
  simp [released, List.filterMap_append]

@[simp] theorem decrefs_append (a b : List Event) :
    decrefs (a ++ b) = decrefs a ++ decrefs b := by
  simp [decrefs, List.filterMap_append]

@[simp] theorem frees_append (a b : List Event) : frees (a ++ b) = frees a ++ frees b := by
  simp [frees, List.filterMap_append]

theorem filters_FIDT_decrefs (F : Nat → Option FCBRef) (i n : Nat) :
    released (FIDT_decrefs F i n) = [] ∧ frees (FIDT_decrefs F i n) = [] ∧
    decrefs (FIDT_decrefs F i n) = (List.range n).filterMap (fun k => F (i + k)) := by
  unfold FIDT_decrefs released frees decrefs
  simp only [List.filterMap_filterMap]
  refine ⟨?_, ?_, ?_⟩
  · rw [List.filterMap_eq_nil_iff]
    intro k _
    cases F (i + k) <;> rfl
  · rw [List.filterMap_eq_nil_iff]
    intro k _
    cases F (i + k) <;> rfl
  · apply List.filterMap_congr
    intro k _
    cases F (i + k) <;> rfl

theorem filters_map_free (l : List Addr) :
    released (l.map Event.free) = [] ∧ frees (l.map Event.free) = l ∧
    decrefs (l.map Event.free) = [] := by
  unfold released frees decrefs
  induction l with
  | nil => exact ⟨rfl, rfl, rfl⟩
  | cons a l ih =>
    simp only [List.map_cons, List.filterMap_cons]
    exact ⟨ih.1, by rw [ih.2.1], ih.2.2⟩

/-- The events of lines 107-114: one release when the record is detached. -/
theorem filters_exit_head (p : Tid_t) (d : Bool) :
    released (Event.kernel_broadcast (CondVar.exit_cv p) ::
      (if d then [Event.release_PTCB p] else [])) = (if d then [p] else []) ∧
    frees (Event.kernel_broadcast (CondVar.exit_cv p) ::
      (if d then [Event.release_PTCB p] else [])) = [] ∧
    decrefs (Event.kernel_broadcast (CondVar.exit_cv p) ::
      (if d then [Event.release_PTCB p] else [])) = [] := by
  cases d <;> exact ⟨rfl, rfl, rfl⟩

/-- The events of lines 116-171 that are neither `release_PTCB` nor `free` nor
`FCB_decref`: the broadcasts of lines 135 and 140. -/
theorem filters_handed_over (parent curproc : Pid_t) (s : Kernel) :
    ∃ mid, (handed_over parent curproc s).trace = s.trace ++ mid ∧
      released mid = [] ∧ frees mid = [] ∧ decrefs mid = [] := by
  refine ⟨_, handed_over_trace parent curproc s, ?_⟩
  split <;> exact ⟨rfl, rfl, rfl⟩

/-- The trace of a completed `sys_ThreadExit`: the broadcast of the caller's
`exit_cv`, the release of its record when it is detached, then, when the thread was
the last one, broadcasts, the `free` of the argument buffer and the `FCB_decref`
calls, and at the end `kernel_sleep`. -/
theorem sys_ThreadExit_trace (MAX_FILEID : Nat) (x : Int) (s t : Kernel)
    (h : sys_ThreadExit MAX_FILEID x s = some t) :
    ∃ r mid, s.heap (sys_ThreadSelf s) = some r ∧
      released mid = [] ∧ frees mid = [] ∧ decrefs mid = [] ∧
      t.trace = s.trace ++ (Event.kernel_broadcast (CondVar.exit_cv (sys_ThreadSelf s)) ::
        (if r.detached then [Event.release_PTCB (sys_ThreadSelf s)] else []) ++ mid ++
        (if (s.PT (CURPROC s)).thread_count = 1 then
          (s.PT (CURPROC s)).args.toList.map Event.free ++
            FIDT_decrefs (s.PT (CURPROC s)).FIDT 0 MAX_FILEID
         else []) ++ [Event.kernel_sleep s.cur_thread]) := by
  obtain ⟨r, s3, hr, h3, hcases⟩ := sys_ThreadExit_cases MAX_FILEID x s t h
  obtain ⟨s3b, h3b, _, _, e3, e4⟩ := exit_thread_eq x s r hr
  rw [h3] at h3b
  cases h3b
  have hbel : (s3.PT (CURPROC s)).args = (s.PT (CURPROC s)).args ∧
      (s3.PT (CURPROC s)).FIDT = (s.PT (CURPROC s)).FIDT := by
    rw [e3]; simp
  rcases hcases with ⟨hc, rfl⟩ | ⟨hc, _, rfl⟩ | ⟨hc, _, parent, _, _, rfl⟩
  · refine ⟨r, [], hr, rfl, rfl, rfl, ?_⟩
    simp only [emit, e4, if_neg hc]
    simp
  · refine ⟨r, [], hr, rfl, rfl, rfl, ?_⟩
    simp only [emit, (cleanup_eq MAX_FILEID (CURPROC s) s3).2, e4, if_pos hc, hbel.1, hbel.2]
    simp
  · obtain ⟨mid, hm, f1, f2, f3⟩ := filters_handed_over parent (CURPROC s) s3
    refine ⟨r, mid, hr, f1, f2, f3, ?_⟩
    have hb := handed_over_belongings parent (CURPROC s) s3 (CURPROC s)
    simp only [belongings, Prod.mk.injEq] at hb
    simp only [emit, (cleanup_eq MAX_FILEID (CURPROC s) _).2, hm, e4, if_pos hc,
      hb.2.2.2.1, hb.2.2.2.2.1, hbel.1, hbel.2]
    simp

/-- The loop of `sys_ThreadJoin` and the call of `release_PTCB` it makes: the
releases in its trace are the one of `join_release_point`, and the state it ends
in is the state of that call with the record released. -/
theorem sys_ThreadJoin_loop_release (T : Tid_t) (out : Option Addr) (s t : Kernel)
    (st : JoinStatus) (h : sys_ThreadJoin_loop T out s = some (st, t)) :
    released (new_events s t) = ((join_release_point T out s).map Prod.fst).toList ∧
    ∀ p s2, join_release_point T out s = some (p, s2) →
      p = T ∧ t = release_PTCB p s2 ∧ st = JoinStatus.returned 0 := by
  unfold sys_ThreadJoin_loop at h
  unfold join_release_point
  cases hr : s.heap T with
  | none => simp only [hr] at h; cases h
  | some r =>
    simp only [hr] at h ⊢
    split at h
    · rename_i hw
      cases h
      simp only [hw, if_true]
      refine ⟨?_, fun p s2 hp => by cases hp⟩
      rw [new_events_of_append s _ [Event.kernel_wait (CondVar.exit_cv T) s.cur_thread] rfl]
      rfl
    · rename_i hw
      simp only [hw, if_false]
      split at h
      · rename_i hd
        cases h
        simp only [hd, if_true]
        refine ⟨?_, fun p s2 hp => by cases hp⟩
        rw [new_events_of_append s _ [] (by simp [set_PTCB])]
        rfl
      · rename_i hd
        cases h
        simp only [hd, if_false]
        by_cases h0 : r.refcount - 1 = 0
        · simp only [h0, if_true]
          refine ⟨?_, ?_⟩
          · rw [new_events_of_append s _ [Event.release_PTCB T]
              (by cases out <;> simp [release_PTCB, emit, set_PTCB])]
            rfl
          · intro p s2 hp
            cases hp
            exact ⟨rfl, rfl, trivial⟩
        · simp only [h0, if_false]
          refine ⟨?_, fun p s2 hp => by cases hp⟩
          rw [new_events_of_append s _ [] (by cases out <;> simp [set_PTCB])]
          rfl

/-- The record at a release point of the join loop satisfies the destroy
invariant: it has exited, is not detached and has `refcount = 0`. -/
theorem join_release_point_record (T : Tid_t) (out : Option Addr) (s s2 : Kernel) (p : Tid_t)
    (h : join_release_point T out s = some (p, s2)) :
    ∃ r1, s2.heap p = some r1 ∧ r1.refcount = 0 ∧ r1.exited = true ∧ r1.detached = false := by
  unfold join_release_point at h
  cases hr : s.heap T with
  | none => simp only [hr] at h; cases h
  | some r =>
    simp only [hr] at h
    split at h
    · cases h
    · rename_i hw
      split at h
      · cases h
      · rename_i hd
        split at h
        · rename_i h0
          simp only [Option.some.injEq, Prod.mk.injEq] at h
          obtain ⟨rfl, rfl⟩ := h
          have hd2 : r.detached = false := by simpa using hd
          have he : r.exited = true := by
            cases hx : r.exited
            · simp [hx, hd2] at hw
            · rfl
          refine ⟨{ r with refcount := r.refcount - 1 }, ?_, h0, he, hd2⟩
          cases out <;> simp [set_PTCB]
        · cases h

/-- A call of `sys_ThreadJoin` and the call of `release_PTCB` it makes. -/
theorem sys_ThreadJoin_release (tid : Tid_t) (out : Option Addr) (s t : Kernel)
    (st : JoinStatus) (h : sys_ThreadJoin tid out s = some (st, t)) :
    released (new_events s t) =
      ((release_point (Call.ThreadJoin tid out) s).map Prod.fst).toList ∧
    ∀ p s2, release_point (Call.ThreadJoin tid out) s = some (p, s2) →
      p = tid ∧ t = release_PTCB p s2 ∧
      ∃ r1, s2.heap p = some r1 ∧ r1.refcount = 0 ∧ r1.exited = true ∧ r1.detached = false := by
  have hnil : new_events s s = [] := by simp [new_events]
  unfold sys_ThreadJoin at h
  unfold release_point
  cases hf : rlist_find (s.PT (CURPROC s)).ptcb_list tid with
  | none =>
    simp only [hf] at h ⊢
    cases h
    exact ⟨by rw [hnil]; rfl, fun p s2 hp => by cases hp⟩
  | some ptcb =>
    have e := ((rlist_find_eq_some_iff _ _ _).1 hf).1
    subst e
    simp only [hf] at h ⊢
    by_cases hs : ptcb = sys_ThreadSelf s
    · simp only [hs, if_true] at h ⊢
      cases h
      exact ⟨by rw [hnil]; rfl, fun p s2 hp => by cases hp⟩
    · simp only [hs, if_false] at h ⊢
      cases hr : s.heap ptcb with
      | none => simp only [hr] at h; cases h
      | some r =>
        simp only [hr] at h ⊢
        cases hd : r.detached with
        | true =>
          simp only [hd, if_true] at h ⊢
          cases h
          exact ⟨by rw [hnil]; rfl, fun p s2 hp => by cases hp⟩
        | false =>
          simp only [hd, Bool.false_eq_true, if_false] at h ⊢
          obtain ⟨e1, e2⟩ := sys_ThreadJoin_loop_release ptcb out _ t st h
          refine ⟨e1, ?_⟩
          intro p s2 hp
          obtain ⟨a, b, _⟩ := e2 p s2 hp
          exact ⟨a, b, join_release_point_record _ _ _ _ _ hp⟩

/-- The call `sys_ThreadDetach` adds at most a broadcast to the trace. -/
theorem sys_ThreadDetach_trace (tid : Tid_t) (s t : Kernel) (rc : Int)
    (h : sys_ThreadDetach tid s = some (rc, t)) :
    new_events s t = [] ∨ new_events s t = [Event.kernel_broadcast (CondVar.exit_cv tid)] := by
  have hnil : new_events s s = [] := by simp [new_events]
  unfold sys_ThreadDetach at h
  split at h
  · cases h; exact Or.inl hnil
  · split at h
    · cases h
    · split at h
      · cases h; exact Or.inl hnil
      · split at h
        · cases h
          right
          exact new_events_of_append s _ _ rfl
        · cases h; exact Or.inl hnil

/-- The call `sys_CreateThread` adds a `spawn_thread` and a `wakeup` to the trace
when there is a task and nothing otherwise. -/
theorem sys_CreateThread_trace (task : Option Nat) (argl : Int) (args : Option Addr)
    (p : Tid_t) (t : TCBRef) (s : Kernel) :
    (sys_CreateThread task argl args p t s).2.trace = s.trace ++
      (if task.isSome then [Event.spawn_thread (CURPROC s) t, Event.wakeup t] else []) := by
  unfold sys_CreateThread
  cases task with
  | none => simp [upd_PCB, set_PTCB]
  | some f =>
    show (s.trace ++ [Event.spawn_thread (CURPROC s) t]) ++ [Event.wakeup t] = _
    simp

/-- A completed `sys_ThreadExit` and the call of `release_PTCB` it makes. -/
theorem sys_ThreadExit_release (MAX_FILEID : Nat) (x : Int) (s t : Kernel)
    (h : sys_ThreadExit MAX_FILEID x s = some t) :
    ∃ r, s.heap (sys_ThreadSelf s) = some r ∧
      released (new_events s t) = (if r.detached then [sys_ThreadSelf s] else []) ∧
      released (new_events s t) = ((exit_release_point x s).map Prod.fst).toList ∧
      ∀ p s2, exit_release_point x s = some (p, s2) →
        p = sys_ThreadSelf s ∧ exit_thread x s = some (release_PTCB p s2) ∧
        s2.heap p = some { r with exitval := x, exited := true } ∧ r.detached = true := by
  obtain ⟨r, mid, hr, f1, _, _, htr⟩ := sys_ThreadExit_trace MAX_FILEID x s t h
  have hrel : released (new_events s t) = (if r.detached then [sys_ThreadSelf s] else []) := by
    rw [new_events_of_append s t _ htr]
    rw [released_append, released_append, released_append, f1,
      (filters_exit_head (sys_ThreadSelf s) r.detached).1]
    have e : released (if (s.PT (CURPROC s)).thread_count = 1 then
        (s.PT (CURPROC s)).args.toList.map Event.free ++
          FIDT_decrefs (s.PT (CURPROC s)).FIDT 0 MAX_FILEID else []) = [] := by
      split
      · rw [released_append, (filters_map_free _).1, (filters_FIDT_decrefs _ _ _).1]; rfl
      · rfl
    rw [e]
    simp [released]
  refine ⟨r, hr, hrel, ?_, ?_⟩
  · rw [hrel]
    unfold exit_release_point
    unfold sys_ThreadSelf at hr ⊢
    simp only [hr]
    cases r.detached <;> rfl
  · intro p s2 hp
    unfold exit_release_point at hp
    unfold sys_ThreadSelf at hr ⊢
    simp only [hr] at hp
    split at hp
    · rename_i hd
      cases hp
      refine ⟨rfl, ?_, ?_, hd⟩
      · unfold exit_thread
        simp only [hr]
        rw [if_pos hd]
      · simp [upd_PCB, kernel_broadcast, emit, set_PTCB]
    · cases hp

/-- A joiner that runs the loop on a live record that has exited and is not
detached while another joiner still holds the record: it returns 0, the slot gets
the exit value, and the record stays live with one reference less. -/
theorem sys_ThreadJoin_loop_exited_held (T : Tid_t) (v : Addr) (s : Kernel) (r : PTCB)
    (hr : s.heap T = some r) (hex : r.exited = true) (hdet : r.detached = false)
    (hheld : r.refcount ≠ 1) :
    ∃ t, sys_ThreadJoin_loop T (some v) s = some (JoinStatus.returned 0, t) ∧
      t.heap T = some { r with refcount := r.refcount - 1 } ∧
      t.umem = Function.update s.umem v r.exitval := by
  have h0 : ¬ r.refcount - 1 = 0 := fun h => hheld (by omega)
  unfold sys_ThreadJoin_loop
  simp only [hr, hex, hdet, h0, Bool.not_true, Bool.false_and, Bool.false_eq_true, if_false]
  refine ⟨_, rfl, ?_, rfl⟩
  simp [set_PTCB]

theorem live_records_congr (s t : Kernel) (q : Pid_t)
    (hl : (t.PT q).ptcb_list = (s.PT q).ptcb_list)
    (hr : ∀ p ∈ (s.PT q).ptcb_list, running t p = running s p) :
    live_records t q = live_records s q := by
  unfold live_records
  rw [hl]
  apply List.countP_congr
  intro p hp
  rw [hr p hp]

/-- The join loop leaves `exited` and `detached` of every record that is live
before and after as they were, and no record starts or stops being a live record
of a thread that has not exited. -/
theorem sys_ThreadJoin_loop_flags (T : Tid_t) (out : Option Addr) (s t : Kernel)
    (st : JoinStatus) (h : sys_ThreadJoin_loop T out s = some (st, t)) :
    (∀ p r r2, s.heap p = some r → t.heap p = some r2 →
      r2.exited = r.exited ∧ r2.detached = r.detached) ∧
    ∀ p, running t p = running s p := by
  unfold sys_ThreadJoin_loop at h
  cases hr : s.heap T with
  | none => simp only [hr] at h; cases h
  | some r =>
    simp only [hr] at h
    have key : ∀ u : Kernel, (u.heap = Function.update s.heap T
          (some { r with refcount := r.refcount - 1 }) ∨
        (r.exited = true ∧ u.heap = Function.update s.heap T none)) →
        (∀ p r1 r2, s.heap p = some r1 → u.heap p = some r2 →
          r2.exited = r1.exited ∧ r2.detached = r1.detached) ∧
        ∀ p, running u p = running s p := by
      intro u hu
      constructor
      · intro p r1 r2 h1 h2
        by_cases hp : p = T
        · subst hp
          rw [hr] at h1; cases h1
          rcases hu with hu | ⟨_, hu⟩
          · rw [hu] at h2; simp at h2; subst h2; exact ⟨rfl, rfl⟩
          · rw [hu] at h2; simp at h2
        · rcases hu with hu | ⟨_, hu⟩ <;>
          · rw [hu, Function.update_noteq hp, h1] at h2
            cases h2; exact ⟨rfl, rfl⟩
      · intro p
        unfold running
        by_cases hp : p = T
        · subst hp
          rcases hu with hu | ⟨hx, hu⟩
          · rw [hu, hr]; simp
          · rw [hu, hr]; simp [hx]
        · rcases hu with hu | ⟨_, hu⟩ <;> rw [hu, Function.update_noteq hp]
    split at h
    · cases h
      exact ⟨fun p r1 r2 h1 h2 => by
        have h2b : s.heap p = some r2 := h2
        rw [h1] at h2b; cases h2b; exact ⟨rfl, rfl⟩, fun p => rfl⟩
    · rename_i hw
      split at h
      · cases h
        exact key _ (Or.inl rfl)
      · rename_i hd
        cases h
        have hd2 : r.detached = false := by simpa using hd
        have he : r.exited = true := by
          cases hx : r.exited
          · simp [hx, hd2] at hw
          · rfl
        apply key
        split
        · right
          refine ⟨he, ?_⟩
          cases out <;> simp [release_PTCB, emit, set_PTCB]
        · left
          cases out <;> simp [set_PTCB]

/-- The same for a call of `sys_ThreadJoin`. -/
theorem sys_ThreadJoin_flags (tid : Tid_t) (out : Option Addr) (s t : Kernel)
    (st : JoinStatus) (h : sys_ThreadJoin tid out s = some (st, t)) :
    (∀ p r r2, s.heap p = some r → t.heap p = some r2 →
      r2.exited = r.exited ∧ r2.detached = r.detached) ∧
    ∀ p, running t p = running s p := by
  have hrefl : (∀ p r r2, s.heap p = some r → s.heap p = some r2 →
      r2.exited = r.exited ∧ r2.detached = r.detached) ∧ ∀ p, running s p = running s p :=
    ⟨fun p r r2 h1 h2 => by rw [h1] at h2; cases h2; exact ⟨rfl, rfl⟩, fun _ => rfl⟩
  unfold sys_ThreadJoin at h
  split at h
  · cases h; exact hrefl
  · split at h
    · cases h; exact hrefl
    · rename_i ptcb _ _
      cases hr : s.heap ptcb with
      | none => simp only [hr] at h; cases h
      | some r =>
        simp only [hr] at h
        split at h
        · cases h; exact hrefl
        · obtain ⟨e1, e2⟩ := sys_ThreadJoin_loop_flags _ _ _ _ _ h
          constructor
          · intro p r1 r2 h1 h2
            by_cases hp : p = ptcb
            · subst hp
              rw [hr] at h1; cases h1
              exact e1 p { r with refcount := r.refcount + 1 } r2 (by simp [set_PTCB]) h2
            · exact e1 p r1 r2 (by simp [set_PTCB, Function.update_noteq hp, h1]) h2
          · intro p
            rw [e2 p]
            unfold running
            by_cases hp : p = ptcb
            · subst hp; simp [set_PTCB, hr]
            · simp [set_PTCB, Function.update_noteq hp]

/-- The call `sys_ThreadDetach` leaves `exited` of every record as it was, never
clears `detached`, and releases nothing. -/
theorem sys_ThreadDetach_flags (tid : Tid_t) (s t : Kernel) (rc : Int)
    (h : sys_ThreadDetach tid s = some (rc, t)) :
    (∀ p r r2, s.heap p = some r → t.heap p = some r2 →
      r2.exited = r.exited ∧ (r.detached = true → r2.detached = true)) ∧
    (∀ p, running t p = running s p) ∧
    ∀ p, (t.heap p).isSome = (s.heap p).isSome := by
  have hrefl : (∀ p r r2, s.heap p = some r → s.heap p = some r2 →
      r2.exited = r.exited ∧ (r.detached = true → r2.detached = true)) ∧
      (∀ p, running s p = running s p) ∧ ∀ p, (s.heap p).isSome = (s.heap p).isSome :=
    ⟨fun p r r2 h1 h2 => by rw [h1] at h2; cases h2; exact ⟨rfl, id⟩, fun _ => rfl, fun _ => rfl⟩
  unfold sys_ThreadDetach at h
  split at h
  · cases h; exact hrefl
  · cases hr : s.heap tid with
    | none => simp only [hr] at h; cases h
    | some r =>
      simp only [hr] at h
      split at h
      · cases h; exact hrefl
      · split at h
        · cases h
          refine ⟨?_, ?_, ?_⟩
          · intro p r1 r2 h1 h2
            by_cases hp : p = tid
            · subst hp
              rw [hr] at h1; cases h1
              simp [kernel_broadcast, emit, set_PTCB] at h2
              subst h2
              exact ⟨rfl, fun _ => rfl⟩
            · simp [kernel_broadcast, emit, set_PTCB, Function.update_noteq hp, h1] at h2
              subst h2
              exact ⟨rfl, id⟩
          · intro p
            unfold running
            by_cases hp : p = tid
            · subst hp; simp [kernel_broadcast, emit, set_PTCB, hr]
            · simp [kernel_broadcast, emit, set_PTCB, Function.update_noteq hp]
          · intro p
            by_cases hp : p = tid
            · subst hp; simp [kernel_broadcast, emit, set_PTCB, hr]
            · simp [kernel_broadcast, emit, set_PTCB, Function.update_noteq hp]
        · cases h; exact hrefl

theorem countP_erase_one (f : Tid_t → Bool) (a : Tid_t) (l : List Tid_t) (hf : f a = true) :
    (l.countP (fun p => if p = a then false else f p) : Int) = (l.countP f : Int) - l.count a := by
  induction l with
  | nil => simp
  | cons b l ih =>
    by_cases hb : b = a
    · subst hb
      simp only [List.countP_cons, List.count_cons_self, if_true, hf]
      simp only [Bool.false_eq_true, if_false, if_true]
      push_cast
      omega
    · have hba : (b == a) = false := by simpa using hb
      simp only [List.countP_cons, List.count_cons, hb, if_false, hba, Bool.false_eq_true]
      push_cast
      omega

/-- The heap after `sys_CreateThread`: the acquired record is new, every other
record is as it was. -/
theorem sys_CreateThread_heap (task : Option Nat) (argl : Int) (args : Option Addr)
    (p : Tid_t) (t : TCBRef) (s : Kernel) :
    (∃ r, (sys_CreateThread task argl args p t s).2.heap p = some r ∧
      r.exited = false ∧ r.detached = false ∧ r.refcount = 0) ∧
    ∀ q, q ≠ p → (sys_CreateThread task argl args p t s).2.heap q = s.heap q := by
  unfold sys_CreateThread
  cases task with
  | none =>
    refine ⟨⟨initialise_PTCB none argl args, by simp [upd_PCB, set_PTCB], rfl, rfl, rfl⟩, ?_⟩
    intro q hq
    simp [upd_PCB, set_PTCB, Function.update_noteq hq]
  | some f =>
    refine ⟨⟨{ initialise_PTCB (some f) argl args with tcb := some t }, ?_, rfl, rfl, rfl⟩, ?_⟩
    · simp [upd_PCB, upd_TCB, upd_PTCB, emit, set_PTCB]
    · intro q hq
      simp [upd_PCB, upd_TCB, upd_PTCB, emit, set_PTCB, Function.update_noteq hq]

/-- The join loop touches no record but its target. -/
theorem sys_ThreadJoin_loop_heap_other (T : Tid_t) (out : Option Addr) (s t : Kernel)
    (st : JoinStatus) (h : sys_ThreadJoin_loop T out s = some (st, t)) (p : Tid_t)
    (hp : p ≠ T) : t.heap p = s.heap p := by
  unfold sys_ThreadJoin_loop at h
  cases hr : s.heap T with
  | none => simp only [hr] at h; cases h
  | some r =>
    simp only [hr] at h
    split at h
    · cases h; rfl
    · split at h
      · cases h; simp [set_PTCB, Function.update_noteq hp]
      · cases h
        split <;> cases out <;>
          simp [release_PTCB, emit, set_PTCB, Function.update_noteq hp]

/-- A call of `sys_ThreadJoin` touches no record but its target. -/
theorem sys_ThreadJoin_heap_other (tid : Tid_t) (out : Option Addr) (s t : Kernel)
    (st : JoinStatus) (h : sys_ThreadJoin tid out s = some (st, t)) (p : Tid_t)
    (hp : p ≠ tid) : t.heap p = s.heap p := by
  unfold sys_ThreadJoin at h
  cases hf : rlist_find (s.PT (CURPROC s)).ptcb_list tid with
  | none => simp only [hf] at h; cases h; rfl
  | some ptcb =>
    have e := ((rlist_find_eq_some_iff _ _ _).1 hf).1
    subst e
    simp only [hf] at h
    split at h
    · cases h; rfl
    · cases hr : s.heap ptcb with
      | none => simp only [hr] at h; cases h
      | some r =>
        simp only [hr] at h
        split at h
        · cases h; rfl
        · rw [sys_ThreadJoin_loop_heap_other _ _ _ _ _ h p hp]
          simp [set_PTCB, Function.update_noteq hp]

/-- A call of `sys_ThreadDetach` touches no record but its target, and it leaves a
target that has exited as it is. -/
theorem sys_ThreadDetach_heap_other (tid : Tid_t) (s t : Kernel) (rc : Int)
    (h : sys_ThreadDetach tid s = some (rc, t)) (p : Tid_t)
    (hp : p ≠ tid ∨ ∃ r, s.heap tid = some r ∧ r.exited = true) : t.heap p = s.heap p := by
  unfold sys_ThreadDetach at h
  split at h
  · cases h; rfl
  · cases hr : s.heap tid with
    | none => simp only [hr] at h; cases h
    | some r =>
      simp only [hr] at h
      split at h
      · cases h; rfl
      · rename_i hx
        split at h
        · cases h
          rcases hp with hp | ⟨r2, hr2, hx2⟩
          · simp [kernel_broadcast, emit, set_PTCB, Function.update_noteq hp]
          · rw [hr] at hr2; cases hr2
            exact absurd hx2 hx
        · cases h; rfl

/-- A joiner that enters or resumes the loop on a record that has exited, is not
detached and is held by another joiner as well: the record stays live, with one
reference less and nothing else changed. -/
theorem sys_ThreadJoin_loop_held_heap (T : Tid_t) (out : Option Addr) (s t : Kernel)
    (st : JoinStatus) (r : PTCB)
    (hr : s.heap T = some r) (hex : r.exited = true) (hdet : r.detached = false)
    (hheld : r.refcount ≠ 1) (h : sys_ThreadJoin_loop T out s = some (st, t)) :
    t.heap T = some { r with refcount := r.refcount - 1 } := by
  have h0 : ¬ r.refcount - 1 = 0 := fun e => hheld (by omega)
  unfold sys_ThreadJoin_loop at h
  simp only [hr, hex, hdet, h0, Bool.not_true, Bool.false_and, Bool.false_eq_true, if_false,
    Option.some.injEq, Prod.mk.injEq] at h
  obtain ⟨_, rfl⟩ := h
  cases out <;> simp [set_PTCB, hex, hdet]

/-- While more joiners hold the record `T` than resumptions on `T` are still to
come, a completed call of a bystander leaves `T` live with its exit value: a
resumed join on `T` gives up one reference, every other call leaves the number of
references as it found it. -/
theorem exec_holds_exit (MAX_FILEID : Nat) (op : Call) (s t : Kernel) (T : Tid_t) (x k : Int)
    (h : exec MAX_FILEID op s = some t)
    (hby : bystander_call T s op = true)
    (hk : 0 ≤ k - (if is_resume_of T op then 1 else 0))
    (hinv : holds_exit T x k s) :
    holds_exit T x (k - (if is_resume_of T op then 1 else 0)) t := by
  obtain ⟨r, hr, hx, hd, hv, hc⟩ := hinv
  have same : ∀ u : Kernel, u.heap T = s.heap T → is_resume_of T op = false →
      holds_exit T x (k - (if is_resume_of T op then 1 else 0)) u := by
    intro u hu hres
    refine ⟨r, by rw [hu, hr], hx, hd, hv, ?_⟩
    simp only [hres, Bool.false_eq_true, if_false]
    omega
  cases op with
  | CreateThread task argl args p c =>
    simp only [exec, Option.some.injEq] at h
    subst h
    have hp : T ≠ p := by
      simp only [bystander_call, decide_eq_true_eq] at hby
      exact fun e => hby e.symm
    exact same _ ((sys_CreateThread_heap task argl args p c s).2 T hp) rfl
  | ThreadSelf =>
    simp only [exec, Option.some.injEq] at h
    subst h
    exact same _ rfl rfl
  | ThreadJoin tid out =>
    simp only [exec, Option.map_eq_some'] at h
    obtain ⟨⟨st, s1⟩, h2, rfl⟩ := h
    by_cases ht : T = tid
    · subst ht
      simp only [is_resume_of, Bool.false_eq_true, if_false, sub_zero] at hk ⊢
      unfold sys_ThreadJoin at h2
      cases hf : rlist_find (s.PT (CURPROC s)).ptcb_list T with
      | none =>
        simp only [hf] at h2; cases h2
        exact ⟨r, hr, hx, hd, hv, hc⟩
      | some ptcb =>
        have e := ((rlist_find_eq_some_iff _ _ _).1 hf).1
        subst e
        simp only [hf] at h2
        split at h2
        · cases h2; exact ⟨r, hr, hx, hd, hv, hc⟩
        · simp only [hr, hd, Bool.false_eq_true, if_false] at h2
          have hheap := sys_ThreadJoin_loop_held_heap ptcb out _ s1 st
            { r with refcount := r.refcount + 1 } (by simp [set_PTCB, hd]) hx hd
            (by show r.refcount + 1 ≠ 1; omega) h2
          refine ⟨_, hheap, hx, hd, hv, ?_⟩
          show k + 1 ≤ r.refcount + 1 - 1
          omega
    · exact same _ (sys_ThreadJoin_heap_other _ _ _ _ _ h2 T ht) rfl
  | ThreadJoin_resume tid out =>
    simp only [exec, Option.map_eq_some'] at h
    obtain ⟨⟨st, s1⟩, h2, rfl⟩ := h
    by_cases ht : tid = T
    · subst ht
      have hres : is_resume_of tid (Call.ThreadJoin_resume tid out) = true := by
        simp [is_resume_of]
      simp only [hres, if_true] at hk ⊢
      have hheap := sys_ThreadJoin_loop_held_heap tid out s s1 st r hr hx hd
        (by omega) h2
      refine ⟨_, hheap, hx, hd, hv, ?_⟩
      show k - 1 + 1 ≤ r.refcount - 1
      omega
    · have hres : is_resume_of T (Call.ThreadJoin_resume tid out) = false := by
        simp [is_resume_of, ht]
      exact same _ (sys_ThreadJoin_loop_heap_other _ _ _ _ _ h2 T (fun e => ht e.symm)) hres
  | ThreadDetach tid =>
    simp only [exec, Option.map_eq_some'] at h
    obtain ⟨⟨rc, s1⟩, h2, rfl⟩ := h
    refine same _ (sys_ThreadDetach_heap_other tid s s1 rc h2 T ?_) rfl
    by_cases ht : T = tid
    · subst ht; exact Or.inr ⟨r, hr, hx⟩
    · exact Or.inl ht
  | ThreadExit y =>
    simp only [exec] at h
    have hp : T ≠ sys_ThreadSelf s := by
      simp only [bystander_call, decide_eq_true_eq] at hby
      exact fun e => hby e.symm
    obtain ⟨r0, _, hr0, _⟩ := sys_ThreadExit_cases MAX_FILEID y s t h
    have hheap := (sys_ThreadExit_heap MAX_FILEID y s t r0 hr0 h).1
    refine same _ ?_ rfl
    rw [hheap, Function.update_noteq hp]

/-- The same along a schedule of bystanders. -/
theorem run_holds_exit (MAX_FILEID : Nat) (T : Tid_t) (x : Int) :
    ∀ (ops : List (TCBRef × Call)) (s t : Kernel),
      bystanders MAX_FILEID T ops s = true → run MAX_FILEID ops s = some t →
      holds_exit T x (ops.countP (fun co => is_resume_of T co.2) : Int) s →
      holds_exit T x 0 t := by
  intro ops
  induction ops with
  | nil =>
    intro s t _ h hinv
    simp only [run, Option.some.injEq] at h
    subst h
    simpa using hinv
  | cons co rest ih =>
    intro s t hby h hinv
    obtain ⟨c, op⟩ := co
    simp only [run, Option.bind_eq_some] at h
    obtain ⟨s1, h1, h2⟩ := h
    simp only [bystanders, h1, Bool.and_eq_true] at hby
    have hinv2 : holds_exit T x (rest.countP (fun co => is_resume_of T co.2) : Int)
        (context_switch c s) →
        holds_exit T x (rest.countP (fun co => is_resume_of T co.2) : Int) s1 := by
      intro hi
      have := exec_holds_exit MAX_FILEID op (context_switch c s) s1 T x
        ((rest.countP (fun co => is_resume_of T co.2) : Int)
          + (if is_resume_of T op then 1 else 0)) h1 hby.1 (by simp)
        (by
          obtain ⟨r, a, b, c2, d, e⟩ := hinv
          refine ⟨r, a, b, c2, d, ?_⟩
          simp only [List.countP_cons] at e
          cases hres : is_resume_of T op <;> simp [hres] at e ⊢ <;> omega)
      simpa using this
    apply ih s1 t hby.2 h2
    apply hinv2
    obtain ⟨r, a, b, c2, d, e⟩ := hinv
    refine ⟨r, a, b, c2, d, ?_⟩
    simp only [List.countP_cons] at e
    cases hres : is_resume_of T op <;> simp [hres] at e ⊢ <;> omega

/-- A call of `sys_ThreadJoin` that passes the validation on a target that has not
exited takes a reference on the record (line 56) and is suspended in the wait
loop. -/
theorem sys_ThreadJoin_suspends (T : Tid_t) (out : Option Addr) (s : Kernel) (r : PTCB)
    (hlist : T ∈ (s.PT (CURPROC s)).ptcb_list) (hJ : T ≠ sys_ThreadSelf s)
    (hT : s.heap T = some r) (hdet : r.detached = false) (hex : r.exited = false) :
    sys_ThreadJoin T out s = some (JoinStatus.waiting,
      emit (Event.kernel_wait (CondVar.exit_cv T) s.cur_thread)
        (set_PTCB T { r with refcount := r.refcount + 1 } s)) := by
  have hl : (set_PTCB T { r with refcount := r.refcount + 1 } s).heap T
      = some { r with refcount := r.refcount + 1 } := by simp [set_PTCB]
  unfold sys_ThreadJoin
  simp only [rlist_find_mem _ _ hlist, if_neg hJ, hT]
  rw [if_neg (by simp [hdet])]
  unfold sys_ThreadJoin_loop
  rw [hl]
  simp only
  rw [if_pos (by simp [hex, hdet])]
  rfl

/-- Before the thread of `T` exits, a completed call of a bystander leaves the
record `T` live and not exited; and as long as nobody detaches it, no reference is
given up: a join that enters takes one more and waits, a resumed join waits
again. -/
theorem exec_awaits_exit (MAX_FILEID : Nat) (op : Call) (s t : Kernel) (T : Tid_t) (k : Int)
    (h : exec MAX_FILEID op s = some t)
    (hby : bystander_call T s op = true)
    (hinv : awaits_exit T k s) : awaits_exit T k t := by
  obtain ⟨r, hr, hx, hc⟩ := hinv
  have same : ∀ u : Kernel, u.heap T = s.heap T → awaits_exit T k u :=
    fun u hu => ⟨r, by rw [hu, hr], hx, hc⟩
  cases op with
  | CreateThread task argl args p c =>
    simp only [exec, Option.some.injEq] at h
    subst h
    have hp : T ≠ p := by
      simp only [bystander_call, decide_eq_true_eq] at hby
      exact fun e => hby e.symm
    exact same _ ((sys_CreateThread_heap task argl args p c s).2 T hp)
  | ThreadSelf =>
    simp only [exec, Option.some.injEq] at h
    subst h
    exact same _ rfl
  | ThreadJoin tid out =>
    simp only [exec, Option.map_eq_some'] at h
    obtain ⟨⟨st, s1⟩, h2, rfl⟩ := h
    by_cases ht : T = tid
    · subst ht
      by_cases hv : T ∈ (s.PT (CURPROC s)).ptcb_list ∧ T ≠ sys_ThreadSelf s ∧
          r.detached = false
      · obtain ⟨a, b, c⟩ := hv
        rw [sys_ThreadJoin_suspends T out s r a b hr c hx] at h2
        simp only [Option.some.injEq, Prod.mk.injEq] at h2
        obtain ⟨_, rfl⟩ := h2
        refine ⟨{ r with refcount := r.refcount + 1 }, by simp [emit, set_PTCB], hx, ?_⟩
        intro _
        have := hc c
        show k + 1 ≤ r.refcount + 1
        omega
      · have hfail : sys_ThreadJoin T out s = some (JoinStatus.returned (-1), s) := by
          unfold sys_ThreadJoin
          split
          · rfl
          · rename_i ptcb hfind
            obtain ⟨e, hmem⟩ := (rlist_find_eq_some_iff _ _ _).1 hfind
            subst e
            split
            · rfl
            · rename_i hself
              have hd : r.detached = true := by
                cases hd : r.detached
                · exact absurd ⟨hmem, hself, hd⟩ hv
                · rfl
              simp only [hr, hd, if_true]
        rw [hfail] at h2
        cases h2
        exact same _ rfl
    · exact same _ (sys_ThreadJoin_heap_other _ _ _ _ _ h2 T ht)
  | ThreadJoin_resume tid out =>
    simp only [exec, Option.map_eq_some'] at h
    obtain ⟨⟨st, s1⟩, h2, rfl⟩ := h
    by_cases ht : T = tid
    · subst ht
      unfold sys_ThreadJoin_loop at h2
      simp only [hr, hx, Bool.not_false, Bool.true_and] at h2
      cases hd : r.detached with
      | false =>
        simp only [hd, Bool.not_false, if_true, Option.some.injEq, Prod.mk.injEq] at h2
        obtain ⟨_, rfl⟩ := h2
        exact same _ rfl
      | true =>
        simp only [hd, Bool.not_true, Bool.false_eq_true, if_false, if_true,
          Option.some.injEq, Prod.mk.injEq] at h2
        obtain ⟨_, rfl⟩ := h2
        refine ⟨{ r with refcount := r.refcount - 1 }, by simp [set_PTCB, hx, hd], hx, ?_⟩
        intro hd3
        have hd4 : r.detached = false := hd3
        rw [hd] at hd4
        cases hd4
    · exact same _ (sys_ThreadJoin_loop_heap_other _ _ _ _ _ h2 T ht)
  | ThreadDetach tid =>
    simp only [exec, Option.map_eq_some'] at h
    obtain ⟨⟨rc, s1⟩, h2, rfl⟩ := h
    by_cases ht : T = tid
    · subst ht
      unfold sys_ThreadDetach at h2
      split at h2
      · cases h2; exact same _ rfl
      · simp only [hr] at h2
        split at h2
        · cases h2; exact same _ rfl
        · split at h2
          · cases h2
            refine ⟨{ r with detached := true }, by simp [kernel_broadcast, emit, set_PTCB],
              hx, ?_⟩
            intro hd3
            cases hd3
          · cases h2; exact same _ rfl
    · exact same _ (sys_ThreadDetach_heap_other tid s s1 rc h2 T (Or.inl ht))
  | ThreadExit y =>
    simp only [exec] at h
    have hp : T ≠ sys_ThreadSelf s := by
      simp only [bystander_call, decide_eq_true_eq] at hby
      exact fun e => hby e.symm
    obtain ⟨r0, _, hr0, _⟩ := sys_ThreadExit_cases MAX_FILEID y s t h
    have hheap := (sys_ThreadExit_heap MAX_FILEID y s t r0 hr0 h).1
    refine same _ ?_
    rw [hheap, Function.update_noteq hp]

/-- The same along a schedule of bystanders. -/
theorem run_awaits_exit (MAX_FILEID : Nat) (T : Tid_t) (k : Int) :
    ∀ (ops : List (TCBRef × Call)) (s t : Kernel),
      bystanders MAX_FILEID T ops s = true → run MAX_FILEID ops s = some t →
      awaits_exit T k s → awaits_exit T k t := by
  intro ops
  induction ops with
  | nil =>
    intro s t _ h hinv
    simp only [run, Option.some.injEq] at h
    subst h
    exact hinv
  | cons co rest ih =>
    intro s t hby h hinv
    obtain ⟨c, op⟩ := co
    simp only [run, Option.bind_eq_some] at h
    obtain ⟨s1, h1, h2⟩ := h
    simp only [bystanders, h1, Bool.and_eq_true] at hby
    exact ih s1 t hby.2 h2
      (exec_awaits_exit MAX_FILEID op (context_switch c s) s1 T k h1 hby.1 hinv)

/-! ## The claims -/

/-- C1: thread `J` runs in a state where the record `T` is in its process's
`ptcb_list`, is not `J`'s own record, is live, not detached and not exited.  Its
call `sys_ThreadJoin(T, &v)` passes the validation, takes a reference on `T`
(line 56) and is suspended in the wait loop.  Other calls `pre` are made; the
thread `tT` of `T` then runs, finds its record still not detached and calls
`sys_ThreadExit(x)`, which completes whenever another live thread remains; further
calls `ops` are made, among them at most as many resumed joins on `T` as there
were references on `T` before `J` joined.  In `pre` and `ops` no caller of
`sys_ThreadExit` has `T` as its record and no `sys_CreateThread` is handed the
address `T`; joins and detaches on `T`, by any thread, are allowed.  Then `J`
resumes: its join returns 0 and the slot `v` holds `x`.  That `T` is still live
and not detached at that point is not assumed: it follows from the reference that
`J` took. -/
theorem C1_join_returns_exit_value (MAX_FILEID : Nat) (s0 : Kernel) (x : Int) (tT : TCBRef)
    (T : Tid_t) (v : Addr) (r : PTCB) (pre ops : List (TCBRef × Call))
    (hlist : T ∈ (s0.PT (CURPROC s0)).ptcb_list)
    (hJ : T ≠ sys_ThreadSelf s0)
    (hT : s0.heap T = some r) (hdet : r.detached = false) (hex : r.exited = false)
    (href : (ops.countP (fun co => is_resume_of T co.2) : Int) ≤ r.refcount) :
    (∃ s1, sys_ThreadJoin T (some v) s0 = some (JoinStatus.waiting, s1)) ∧
    ∀ s1, sys_ThreadJoin T (some v) s0 = some (JoinStatus.waiting, s1) →
      ∀ s2, bystanders MAX_FILEID T pre s1 = true → run MAX_FILEID pre s1 = some s2 →
        sys_ThreadSelf (context_switch tT s2) = T →
        (∀ r2, s2.heap T = some r2 → r2.detached = false) →
        (((context_switch tT s2).PT (CURPROC (context_switch tT s2))).thread_count ≠ 1 →
          ∃ s3, sys_ThreadExit MAX_FILEID x (context_switch tT s2) = some s3) ∧
        ∀ s3, sys_ThreadExit MAX_FILEID x (context_switch tT s2) = some s3 →
          ∀ s4, bystanders MAX_FILEID T ops s3 = true → run MAX_FILEID ops s3 = some s4 →
            ∃ s5, sys_ThreadJoin_loop T (some v) (context_switch s0.cur_thread s4) =
                some (JoinStatus.returned 0, s5) ∧ s5.umem v = x := by
  have hj := sys_ThreadJoin_suspends T (some v) s0 r hlist hJ hT hdet hex
  refine ⟨⟨_, hj⟩, ?_⟩
  intro s1 h1 s2 hb1 hr1 hself hnd
  rw [hj] at h1
  simp only [Option.some.injEq, Prod.mk.injEq, true_and] at h1
  subst h1
  obtain ⟨r2, hr2, _, hc2⟩ := run_awaits_exit MAX_FILEID T
    (ops.countP (fun co => is_resume_of T co.2) : Int) pre _ s2 hb1 hr1
    ⟨{ r with refcount := r.refcount + 1 }, by simp [emit, set_PTCB], hex,
      fun _ => by show _ ≤ r.refcount + 1; omega⟩
  have hd2 := hnd r2 hr2
  have hr2s : (context_switch tT s2).heap (sys_ThreadSelf (context_switch tT s2)) = some r2 := by
    rw [hself]; exact hr2
  constructor
  · intro hcount
    obtain ⟨s3, _, h⟩ := sys_ThreadExit_of_thread_count MAX_FILEID x _ r2 hr2s hcount
    exact ⟨_, h⟩
  · intro s3 h3 s4 hb2 hr4
    have hh := (sys_ThreadExit_heap MAX_FILEID x _ s3 r2 hr2s h3).1
    have h3T : s3.heap T = some { r2 with exitval := x, exited := true } := by
      rw [hh, hself]; simp [hd2]
    obtain ⟨r4, hr4T, hx4, hd4, hv4, _⟩ := run_holds_exit MAX_FILEID T x ops s3 s4 hb2 hr4
      ⟨_, h3T, rfl, hd2, rfl, hc2 hd2⟩
    obtain ⟨s5, h5, hv⟩ := sys_ThreadJoin_loop_exited T (some v)
      (context_switch s0.cur_thread s4) r4 hr4T hx4 hd4
    exact ⟨s5, h5, (hv v rfl).trans hv4⟩

/-- C1 on the example: thread 10 calls `sys_ThreadJoin(101, 5)` in `demo` and is
suspended, which gives `demo_joined`; thread 11 (record 101) exits there with 42;
before thread 10 runs again, thread 12 joins record 101 as well and takes the
value.  Thread 10 then resumes, returns 0 and finds 42 in its slot. -/
theorem C1_join_returns_exit_value_witness :
    (∃ s1, sys_ThreadJoin 101 (some 5) (context_switch 10 demo)
        = some (JoinStatus.waiting, s1)) ∧
    ∃ s5, sys_ThreadJoin_loop 101 (some 5)
        (context_switch 10
          ((run 16 [(12, Call.ThreadJoin 101 (some 6))]
            ((sys_ThreadExit 16 42 demo_joined).getD demo)).getD demo)) =
          some (JoinStatus.returned 0, s5) ∧ s5.umem 5 = 42 :=
  ⟨(C1_join_returns_exit_value 16 (context_switch 10 demo) 42 11 101 5
      { initialise_PTCB (some 7) 0 none with tcb := some 11 }
      [] [(12, Call.ThreadJoin 101 (some 6))]
      (by decide) (by decide) rfl rfl rfl (by decide)).1,
   ((C1_join_returns_exit_value 16 (context_switch 10 demo) 42 11 101 5
      { initialise_PTCB (some 7) 0 none with tcb := some 11 }
      [] [(12, Call.ThreadJoin 101 (some 6))]
      (by decide) (by decide) rfl rfl rfl (by decide)).2
      (((sys_ThreadJoin 101 (some 5) (context_switch 10 demo)).map Prod.snd).getD demo) rfl
      (((sys_ThreadJoin 101 (some 5) (context_switch 10 demo)).map Prod.snd).getD demo)
      rfl rfl rfl (by intro r2 h; cases h; rfl)).2
     ((sys_ThreadExit 16 42 demo_joined).getD demo) rfl
     ((run 16 [(12, Call.ThreadJoin 101 (some 6))]
        ((sys_ThreadExit 16 42 demo_joined).getD demo)).getD demo) rfl rfl⟩

/-- C2, as stated, fails when the target exits between the detach and the joiner's
resumption.  In the example thread 10 is suspended in `sys_ThreadJoin(101, 5)`;
`sys_ThreadDetach(101)` returns 0; thread 11 then calls `sys_ThreadExit(42)`, which
releases record 101 because it is detached although thread 10 still holds a
reference.  If thread 10 resumes now, the loop test reads a released record and the
join has no result.  If thread 12 first calls `sys_CreateThread` and the allocator
hands out the released address 101 again, thread 10 finds a fresh record there and
is suspended again; when the new thread 13 exits with 7, the join of thread 10
returns 0 and has written 7 into the slot.  In neither case does it return -1. -/
theorem C2_counterexample :
    (sys_ThreadJoin 101 (some 5) (context_switch 10 demo)).map Prod.fst
        = some JoinStatus.waiting ∧
    (demo_joined.heap 101).map (fun r => (r.exited, r.detached, r.refcount))
        = some (false, false, 1) ∧
    ∃ s1 s2, sys_ThreadDetach 101 demo_joined = some (0, s1) ∧
      sys_ThreadExit 16 42 s1 = some s2 ∧
      s2.heap 101 = none ∧
      s2.trace = [Event.kernel_wait (CondVar.exit_cv 101) 10,
                  Event.kernel_broadcast (CondVar.exit_cv 101),
                  Event.kernel_broadcast (CondVar.exit_cv 101),
                  Event.release_PTCB 101, Event.kernel_sleep 11] ∧
      sys_ThreadJoin_loop 101 (some 5) (context_switch 10 s2) = none ∧
      ∃ s3 s4 s5, sys_CreateThread (some 9) 0 none 101 13 (context_switch 12 s2) = (101, s3) ∧
        sys_ThreadJoin_loop 101 (some 5) (context_switch 10 s3)
          = some (JoinStatus.waiting, s4) ∧
        sys_ThreadExit 16 7 (context_switch 13 s4) = some s5 ∧
        (sys_ThreadJoin_loop 101 (some 5) (context_switch 10 s5)).map
            (fun o => (o.1, o.2.umem 5)) = some (JoinStatus.returned 0, 7) :=
  ⟨rfl, rfl, _, _, rfl, rfl, rfl, rfl, rfl, _, _, _, rfl, rfl, rfl, rfl⟩

/-- C2, amended: thread `J` is suspended inside `sys_ThreadJoin(T, &v)` on a live
target `T` of the caller's process that has not exited.  `sys_ThreadDetach(T)`
returns 0 and writes no user memory; and in every later state `s2` where `J` resumes
and `T`'s record is still live (it has not been released by an exit of `T`) with
the detached flag as the detach left it, `J`'s join returns -1 and has written no
user memory, so the slot `v` holds what it held. -/
theorem C2_join_fails_after_detach (s : Kernel) (J : TCBRef) (T : Tid_t) (v : Addr)
    (r : PTCB)
    (hlist : T ∈ (s.PT (CURPROC s)).ptcb_list)
    (_hJ : (s.threads J).ptcb ≠ T)
    (hT : s.heap T = some r) (hex : r.exited = false) :
    (∃ s1, sys_ThreadDetach T s = some (0, s1)) ∧
    ∀ rc s1, sys_ThreadDetach T s = some (rc, s1) →
      rc = 0 ∧ s1.umem = s.umem ∧
      ∀ (s2 : Kernel) (r2 : PTCB), s2.cur_thread = J → s2.heap T = some r2 →
        (∀ r1, s1.heap T = some r1 → r2.detached = r1.detached) →
        ∃ s3, sys_ThreadJoin_loop T (some v) s2 = some (JoinStatus.returned (-1), s3) ∧
          s3.umem = s2.umem := by
  obtain ⟨s1, h1, hh, hu, _⟩ := sys_ThreadDetach_live T s r hlist hT hex
  refine ⟨⟨s1, h1⟩, ?_⟩
  intro rc s1b h1b
  rw [h1] at h1b
  cases h1b
  refine ⟨rfl, hu, ?_⟩
  intro s2 r2 _ h2 hsame
  have hd : r2.detached = true := by
    rw [hsame { r with detached := true } (by rw [hh]; simp)]
  exact sys_ThreadJoin_loop_detached T (some v) s2 r2 h2 hd

/-- C2, amended, on the example: record 101 is detached while thread 10 waits for
it, and thread 10 resumes straight after. -/
theorem C2_join_fails_after_detach_witness :
    ∃ s3, sys_ThreadJoin_loop 101 (some 5) (context_switch 10 demo_detached)
        = some (JoinStatus.returned (-1), s3) ∧
      s3.umem = (context_switch 10 demo_detached).umem :=
  ((C2_join_fails_after_detach demo_joined 10 101 5
      { initialise_PTCB (some 7) 0 none with tcb := some 11, refcount := 1 }
      (by decide) (by decide) rfl rfl).2 0 demo_detached rfl).2.2
    (context_switch 10 demo_detached)
    { initialise_PTCB (some 7) 0 none with tcb := some 11, refcount := 1, detached := true }
    rfl rfl (by intro r1 h; cases h; rfl)

/-- C3: in every state, `sys_ThreadJoin(sys_ThreadSelf(), out)` returns -1 at once:
the call ends in the status `returned (-1)`, never `waiting`, and the state is the
one it started in (no `kernel_wait`, no write), whatever the caller's record holds
and whether or not it is in the process's `ptcb_list` or even live. -/
theorem C3_self_join_fails (s : Kernel) (out : Option Addr) :
    sys_ThreadJoin (sys_ThreadSelf s) out s = some (JoinStatus.returned (-1), s) := by
  unfold sys_ThreadJoin
  split
  · rfl
  · simp

/-- C4: `T` is a live record in the caller's `ptcb_list` with `exited = 0`.  Then
`sys_ThreadDetach(T)` returns 0, and in every later state `s2` in which `T`'s
record is live with the detached flag as the detach left it, `sys_ThreadJoin(T, out)`
by any running thread returns -1 at once and leaves the state as it was: the caller
is not suspended and `T.refcount` is not incremented. -/
theorem C4_join_after_detach_fails (s : Kernel) (T : Tid_t) (r : PTCB) (out : Option Addr)
    (hlist : T ∈ (s.PT (CURPROC s)).ptcb_list)
    (hT : s.heap T = some r) (hex : r.exited = false) :
    (∃ s1, sys_ThreadDetach T s = some (0, s1)) ∧
    ∀ rc s1, sys_ThreadDetach T s = some (rc, s1) →
      rc = 0 ∧
      ∀ (s2 : Kernel) (r2 : PTCB), s2.heap T = some r2 → r2.exited = false →
        (∀ r1, s1.heap T = some r1 → r2.detached = r1.detached) →
        sys_ThreadJoin T out s2 = some (JoinStatus.returned (-1), s2) := by
  obtain ⟨s1, h1, hh, _⟩ := sys_ThreadDetach_live T s r hlist hT hex
  refine ⟨⟨s1, h1⟩, ?_⟩
  intro rc s1b h1b
  rw [h1] at h1b
  cases h1b
  refine ⟨rfl, ?_⟩
  intro s2 r2 h2 _ hsame
  have hd : r2.detached = true := by
    rw [hsame { r with detached := true } (by rw [hh]; simp)]
  unfold sys_ThreadJoin
  split
  · rfl
  · rename_i ptcb hfind
    have e := ((rlist_find_eq_some_iff _ _ _).1 hfind).1
    subst e
    split
    · rfl
    · simp only [h2, hd, if_true]

/-- C4 on the example: record 101 is detached by thread 11, then thread 10 tries
to join it. -/
theorem C4_join_after_detach_fails_witness :
    sys_ThreadJoin 101 (some 5)
        (context_switch 10 (((sys_ThreadDetach 101 demo).map Prod.snd).getD demo)) =
      some (JoinStatus.returned (-1),
        context_switch 10 (((sys_ThreadDetach 101 demo).map Prod.snd).getD demo)) :=
  ((C4_join_after_detach_fails demo 101
      { initialise_PTCB (some 7) 0 none with tcb := some 11 } (some 5)
      (by decide) rfl rfl).2 0 (((sys_ThreadDetach 101 demo).map Prod.snd).getD demo) rfl).2
    (context_switch 10 (((sys_ThreadDetach 101 demo).map Prod.snd).getD demo))
    { initialise_PTCB (some 7) 0 none with tcb := some 11, detached := true }
    rfl rfl (by intro r1 h; cases h; rfl)

/-- C5: `T` is a live record in the caller's `ptcb_list` with `exited = 0`.  A first
`sys_ThreadDetach(T)` returns 0 and leaves `T` detached; a second one, made by any
thread `c` of the same process, returns 0 and its state is the state it started in:
`detached` stays set and the trace gets no further `kernel_broadcast`. -/
theorem C5_detach_idempotent (s : Kernel) (T : Tid_t) (r : PTCB) (c : TCBRef)
    (hlist : T ∈ (s.PT (CURPROC s)).ptcb_list)
    (hT : s.heap T = some r) (hex : r.exited = false)
    (hc : (s.threads c).owner_pcb = CURPROC s) :
    (∃ s1, sys_ThreadDetach T s = some (0, s1)) ∧
    ∀ rc s1, sys_ThreadDetach T s = some (rc, s1) →
      rc = 0 ∧ (s1.heap T).map (fun q => q.detached) = some true ∧
      sys_ThreadDetach T s1 = some (0, s1) ∧
      sys_ThreadDetach T (context_switch c s1) = some (0, context_switch c s1) := by
  obtain ⟨s1, h1, hh, _, hpt, hth, hcur⟩ := sys_ThreadDetach_live T s r hlist hT hex
  refine ⟨⟨s1, h1⟩, ?_⟩
  intro rc s1b h1b
  rw [h1] at h1b
  cases h1b
  have h1T : s1.heap T = some { r with detached := true } := by rw [hh]; simp
  have key : ∀ s2 : Kernel, s2.heap = s1.heap → s2.PT = s1.PT → CURPROC s2 = CURPROC s →
      sys_ThreadDetach T s2 = some (0, s2) := by
    intro s2 e1 e2 e3
    have hl : T ∈ (s2.PT (CURPROC s2)).ptcb_list := by rw [e2, e3, hpt]; exact hlist
    unfold sys_ThreadDetach
    simp only [rlist_find_mem _ _ hl, e1, h1T, hex]
    rfl
  refine ⟨rfl, by rw [h1T]; rfl, key s1 rfl rfl ?_, key _ rfl rfl ?_⟩
  · unfold CURPROC; rw [hth, hcur]
  · unfold CURPROC context_switch; simp only; rw [hth]; exact hc

/-- C5 on the example: thread 11 detaches record 101, then thread 10 detaches it
again. -/
theorem C5_detach_idempotent_witness :
    sys_ThreadDetach 101
        (context_switch 10 (((sys_ThreadDetach 101 demo).map Prod.snd).getD demo)) =
      some (0, context_switch 10 (((sys_ThreadDetach 101 demo).map Prod.snd).getD demo)) :=
  ((C5_detach_idempotent demo 101 { initialise_PTCB (some 7) 0 none with tcb := some 11 } 10
      (by decide) rfl rfl rfl).2 0
    (((sys_ThreadDetach 101 demo).map Prod.snd).getD demo) rfl).2.2.2

/-- C6: in every state in which the handles in the caller's `ptcb_list` are live
records, `sys_ThreadDetach(T)` returns, for every handle `T`; it returns -1 if and
only if `T` is not in the caller's `ptcb_list` or `T.exited` is set; in every other
case it returns 0 and `T.detached` is set afterwards. -/
theorem C6_detach_result (s : Kernel) (T : Tid_t)
    (hlive : T ∈ (s.PT (CURPROC s)).ptcb_list → ∃ r, s.heap T = some r) :
    ∃ rc s1, sys_ThreadDetach T s = some (rc, s1) ∧
      (rc = -1 ↔ (T ∉ (s.PT (CURPROC s)).ptcb_list ∨
                  ∃ r, s.heap T = some r ∧ r.exited = true)) ∧
      (rc ≠ -1 → rc = 0 ∧ ∃ r1, s1.heap T = some r1 ∧ r1.detached = true) := by
  by_cases hl : T ∈ (s.PT (CURPROC s)).ptcb_list
  · obtain ⟨r, hr⟩ := hlive hl
    cases hex : r.exited
    · obtain ⟨s1, h1, hh, _⟩ := sys_ThreadDetach_live T s r hl hr hex
      refine ⟨0, s1, h1, ?_, ?_⟩
      · constructor
        · intro h; exact absurd h (by decide)
        · rintro (h | ⟨q, hq, hqe⟩)
          · exact absurd hl h
          · rw [hr] at hq; cases hq; rw [hex] at hqe; cases hqe
      · intro _
        exact ⟨rfl, { r with detached := true }, by rw [hh]; simp, rfl⟩
    · refine ⟨-1, s, ?_, ?_, ?_⟩
      · unfold sys_ThreadDetach
        simp only [rlist_find_mem _ _ hl, hr, hex, if_true]
      · exact ⟨fun _ => Or.inr ⟨r, hr, hex⟩, fun _ => rfl⟩
      · intro h; exact absurd rfl h
  · refine ⟨-1, s, ?_, ?_, ?_⟩
    · unfold sys_ThreadDetach
      simp only [(rlist_find_eq_none_iff _ _).2 hl]
    · exact ⟨fun _ => Or.inl hl, fun _ => rfl⟩
    · intro h; exact absurd rfl h

/-- C6 on the example: thread 11 detaches the main thread's record 100. -/
theorem C6_detach_result_witness :
    ∃ rc s1, sys_ThreadDetach 100 demo = some (rc, s1) ∧
      (rc = -1 ↔ (100 ∉ (demo.PT (CURPROC demo)).ptcb_list ∨
                  ∃ r, demo.heap 100 = some r ∧ r.exited = true)) ∧
      (rc ≠ -1 → rc = 0 ∧ ∃ r1, s1.heap 100 = some r1 ∧ r1.detached = true) :=
  C6_detach_result demo 100 (fun _ => ⟨initialise_PTCB none 0 none, rfl⟩)

/-- C7: a failing call changes nothing.  `sys_ThreadJoin(tid, out)` on a target that
is not in the caller's `ptcb_list`, or is the caller's own record, or is live and
already detached, returns -1 in the state it started in; so does every
`sys_ThreadJoin` that returns -1 without having waited; and every
`sys_ThreadDetach` that returns -1 leaves the state it started in.  Equal states
have the same thread records and process fields (no refcount, flag or exit value
written), the same trace (no broadcast, nobody woken) and the same user memory
(the output slot is not written). -/
theorem C7_failure_is_atomic (s : Kernel) (tid : Tid_t) (out : Option Addr) :
    ((tid ∉ (s.PT (CURPROC s)).ptcb_list ∨ tid = sys_ThreadSelf s ∨
        ∃ r, s.heap tid = some r ∧ r.detached = true) →
      sys_ThreadJoin tid out s = some (JoinStatus.returned (-1), s)) ∧
    (∀ s1, sys_ThreadJoin tid out s = some (JoinStatus.returned (-1), s1) → s1 = s) ∧
    (∀ s1, sys_ThreadDetach tid s = some (-1, s1) → s1 = s) := by
  refine ⟨?_, ?_, ?_⟩
  · intro h
    unfold sys_ThreadJoin
    split
    · rfl
    · rename_i ptcb hfind
      obtain ⟨e, hmem⟩ := (rlist_find_eq_some_iff _ _ _).1 hfind
      subst e
      split
      · rfl
      · rename_i hself
        rcases h with h | h | ⟨r, hr, hd⟩
        · exact absurd hmem h
        · exact absurd h hself
        · simp only [hr, hd, if_true]
  · intro s1 h
    unfold sys_ThreadJoin at h
    split at h
    · cases h; rfl
    · split at h
      · cases h; rfl
      · split at h
        · cases h
        · rename_i r hr
          split at h
          · cases h; rfl
          · rename_i hd
            exfalso
            unfold sys_ThreadJoin_loop at h
            simp only [set_PTCB, Function.update_same] at h
            split at h
            · cases h
            · simp only [hd] at h
              cases h
  · intro s1 h
    unfold sys_ThreadDetach at h
    split at h
    · cases h; rfl
    · split at h
      · cases h
      · split at h
        · cases h; rfl
        · split at h <;> cases h

/-- C7 on the example: thread 11 joins itself, and thread 11 detaches a handle that
is not in its process's list. -/
theorem C7_failure_is_atomic_witness :
    sys_ThreadJoin 101 (some 5) demo = some (JoinStatus.returned (-1), demo) ∧
    ((sys_ThreadDetach 999 demo).map Prod.snd).getD demo_single = demo :=
  ⟨(C7_failure_is_atomic demo 101 (some 5)).1 (Or.inr (Or.inl rfl)),
   (C7_failure_is_atomic demo 999 none).2.2
     (((sys_ThreadDetach 999 demo).map Prod.snd).getD demo_single) rfl⟩

/-- C8: process `P` has `thread_count = 1`, and a schedule of calls, each made by a
thread of `P`, runs to completion.  Then `P.thread_count` is
`N + 1 - M`, with `N` the number of `sys_CreateThread` calls and `M` the number of
`sys_ThreadExit` calls in the schedule.  Call by call: a `sys_CreateThread` adds
exactly 1 (with or without a task), a `sys_ThreadExit` takes exactly 1, and
`sys_ThreadJoin` (entered or resumed), `sys_ThreadDetach` and `sys_ThreadSelf`
leave it as it was. -/
theorem C8_thread_count (MAX_FILEID : Nat) (P : Pid_t) (ops : List (TCBRef × Call))
    (s t : Kernel)
    (hof : calls_of MAX_FILEID P ops s = true)
    (hone : (s.PT P).thread_count = 1)
    (hrun : run MAX_FILEID ops s = some t) :
    (t.PT P).thread_count =
      (ops.countP (fun co => is_CreateThread co.2) : Int) + 1
        - (ops.countP (fun co => is_ThreadExit co.2) : Int) ∧
    ∀ (c : TCBRef) (op : Call) (s0 s1 : Kernel), (s0.threads c).owner_pcb = P →
      exec MAX_FILEID op (context_switch c s0) = some s1 →
      (s1.PT P).thread_count = (s0.PT P).thread_count + thread_count_delta op := by
  have step : ∀ (c : TCBRef) (op : Call) (s0 s1 : Kernel), (s0.threads c).owner_pcb = P →
      exec MAX_FILEID op (context_switch c s0) = some s1 →
      (s1.PT P).thread_count = (s0.PT P).thread_count + thread_count_delta op := by
    intro c op s0 s1 hc h
    have hcur : CURPROC (context_switch c s0) = P := hc
    cases op with
    | CreateThread task argl args p t0 =>
      simp only [exec, Option.some.injEq] at h
      subst h
      rw [sys_CreateThread_thread_count, hcur]
      simp [thread_count_delta, is_CreateThread]
      rfl
    | ThreadSelf =>
      simp only [exec, Option.some.injEq] at h
      subst h
      simp [thread_count_delta, is_CreateThread, is_ThreadExit]
      rfl
    | ThreadJoin tid out =>
      simp only [exec, Option.map_eq_some'] at h
      obtain ⟨⟨st, s2⟩, h2, rfl⟩ := h
      rw [(sys_ThreadJoin_PT _ _ _ _ _ h2).1]
      simp [thread_count_delta, is_CreateThread, is_ThreadExit]
      rfl
    | ThreadJoin_resume tid out =>
      simp only [exec, Option.map_eq_some'] at h
      obtain ⟨⟨st, s2⟩, h2, rfl⟩ := h
      rw [(sys_ThreadJoin_loop_PT _ _ _ _ _ h2).1]
      simp [thread_count_delta, is_CreateThread, is_ThreadExit]
      rfl
    | ThreadDetach tid =>
      simp only [exec, Option.map_eq_some'] at h
      obtain ⟨⟨rc, s2⟩, h2, rfl⟩ := h
      rw [(sys_ThreadDetach_PT _ _ _ _ h2).1]
      simp [thread_count_delta, is_CreateThread, is_ThreadExit]
      rfl
    | ThreadExit x =>
      simp only [exec] at h
      rw [(sys_ThreadExit_thread_count _ _ _ _ h P).1, hcur]
      simp [thread_count_delta, is_CreateThread, is_ThreadExit]
      rfl
  refine ⟨?_, step⟩
  have gen : ∀ (ops : List (TCBRef × Call)) (s : Kernel),
      calls_of MAX_FILEID P ops s = true → run MAX_FILEID ops s = some t →
      (t.PT P).thread_count = (s.PT P).thread_count
        + (ops.countP (fun co => is_CreateThread co.2) : Int)
        - (ops.countP (fun co => is_ThreadExit co.2) : Int) := by
    intro ops
    induction ops with
    | nil =>
      intro s _ h
      simp only [run, Option.some.injEq] at h
      subst h
      simp
    | cons co rest ih =>
      intro s hof h
      obtain ⟨c, op⟩ := co
      simp only [run, Option.bind_eq_some] at h
      obtain ⟨s1, h1, h2⟩ := h
      simp only [calls_of, h1, Bool.and_eq_true, decide_eq_true_eq] at hof
      rw [ih s1 hof.2 h2, step c op s s1 hof.1 h1]
      cases op <;>
        simp [List.countP_cons, thread_count_delta, is_CreateThread, is_ThreadExit] <;> omega
  rw [gen ops s hof hrun, hone]
  ring

/-- C8 on the example schedule, which has two `sys_CreateThread` calls and one
`sys_ThreadExit`: the count ends at 2. -/
theorem C8_thread_count_witness :
    (((run 16 demo_schedule demo_single).getD demo_single).PT 2).thread_count =
      (demo_schedule.countP (fun co => is_CreateThread co.2) : Int) + 1
        - (demo_schedule.countP (fun co => is_ThreadExit co.2) : Int) :=
  (C8_thread_count 16 2 demo_schedule demo_single
    ((run 16 demo_schedule demo_single).getD demo_single) rfl rfl rfl).1

/-- C9: the running thread is the last thread of its process `P` (`thread_count`
is 1), `P` is not process 1, the caller's record is live and `P` has a parent other
than itself.  Then `sys_ThreadExit` completes, `P.thread_count` is 0, `P`'s
`children_list` is empty, every process that was in it has process 1 as parent,
and the `children_list` of process 1 is the former list of `P`, reversed, in front
of its own former list: a permutation of its former members together with the
moved children, so none is lost and none is duplicated. -/
theorem C9_reparenting (MAX_FILEID : Nat) (x : Int) (s : Kernel) (r : PTCB) (par : Pid_t)
    (hr : s.heap (sys_ThreadSelf s) = some r)
    (hne : CURPROC s ≠ 1)
    (hlast : (s.PT (CURPROC s)).thread_count = 1)
    (hpar : (s.PT (CURPROC s)).parent = some par)
    (hpp : par ≠ CURPROC s) :
    ∃ t, sys_ThreadExit MAX_FILEID x s = some t ∧
      (t.PT (CURPROC s)).thread_count = 0 ∧
      (t.PT (CURPROC s)).children_list = [] ∧
      (∀ c ∈ (s.PT (CURPROC s)).children_list, (t.PT c).parent = some 1) ∧
      (t.PT 1).children_list =
        (s.PT (CURPROC s)).children_list.reverse ++ (s.PT 1).children_list ∧
      List.Perm (t.PT 1).children_list
        ((s.PT 1).children_list ++ (s.PT (CURPROC s)).children_list) := by
  have hpar2 : (if CURPROC s ∈ (s.PT (CURPROC s)).children_list then some 1
      else (s.PT (CURPROC s)).parent) =
      some (if CURPROC s ∈ (s.PT (CURPROC s)).children_list then 1 else par) := by
    split
    · rfl
    · exact hpar
  have hpp2 : (if CURPROC s ∈ (s.PT (CURPROC s)).children_list then 1 else par) ≠ CURPROC s := by
    split
    · exact fun e => hne e.symm
    · exact hpp
  obtain ⟨s3, _, hfam, _, ht⟩ :=
    sys_ThreadExit_last_thread MAX_FILEID x s r _ hr hne hlast hpar2 hpp2
  refine ⟨_, ht, ?_, ?_⟩
  · rw [(sys_ThreadExit_thread_count _ _ _ _ ht (CURPROC s)).1, hlast]; simp
  have hq : ∀ q, family ((emit (Event.kernel_sleep s.cur_thread)
      (cleanup MAX_FILEID (CURPROC s) (handed_over
        (if CURPROC s ∈ (s.PT (CURPROC s)).children_list then 1 else par)
        (CURPROC s) s3))).PT q) = family ((handed_over
        (if CURPROC s ∈ (s.PT (CURPROC s)).children_list then 1 else par)
        (CURPROC s) s3).PT q) := fun q => (cleanup_family _ _ _).1 q
  have hkids : (s3.PT (CURPROC s)).children_list = (s.PT (CURPROC s)).children_list := by
    have h := hfam (CURPROC s); simp only [family, Prod.mk.injEq] at h; exact h.2.1
  have hch : ∀ q, ((emit (Event.kernel_sleep s.cur_thread)
      (cleanup MAX_FILEID (CURPROC s) (handed_over
        (if CURPROC s ∈ (s.PT (CURPROC s)).children_list then 1 else par)
        (CURPROC s) s3))).PT q).children_list =
      (if q = CURPROC s then []
       else if q = 1 then (s.PT (CURPROC s)).children_list.reverse ++ (s.PT q).children_list
       else (s.PT q).children_list) := by
    intro q
    have h := hq q; simp only [family, Prod.mk.injEq] at h
    rw [h.2.1, (handed_over_children _ _ _ q).1, hkids]
    have h2 := hfam q; simp only [family, Prod.mk.injEq] at h2
    rw [h2.2.1]
  have hpa : ∀ q, ((emit (Event.kernel_sleep s.cur_thread)
      (cleanup MAX_FILEID (CURPROC s) (handed_over
        (if CURPROC s ∈ (s.PT (CURPROC s)).children_list then 1 else par)
        (CURPROC s) s3))).PT q).parent =
      (if q ∈ (s.PT (CURPROC s)).children_list then some 1 else (s.PT q).parent) := by
    intro q
    have h := hq q; simp only [family, Prod.mk.injEq] at h
    rw [h.1, (handed_over_children _ _ _ q).2, hkids]
    have h2 := hfam q; simp only [family, Prod.mk.injEq] at h2
    rw [h2.1]
  have h1 : (1 : Pid_t) ≠ CURPROC s := fun e => hne e.symm
  refine ⟨?_, ?_, ?_, ?_⟩
  · rw [hch]; simp
  · intro c hc
    rw [hpa, if_pos hc]
  · rw [hch, if_neg h1]; simp
  · rw [hch, if_neg h1]
    simp only [if_true]
    exact (List.perm_append_comm).trans
      (List.Perm.append_left _ (List.reverse_perm _))

/-- C9 on the example: the last thread of process 3 exits; its children 4 and 5
go to process 1. -/
theorem C9_reparenting_witness :
    ∃ t, sys_ThreadExit 16 0 demo_family = some t ∧
      (t.PT (CURPROC demo_family)).thread_count = 0 ∧
      (t.PT (CURPROC demo_family)).children_list = [] ∧
      (∀ c ∈ (demo_family.PT (CURPROC demo_family)).children_list, (t.PT c).parent = some 1) ∧
      (t.PT 1).children_list =
        (demo_family.PT (CURPROC demo_family)).children_list.reverse
          ++ (demo_family.PT 1).children_list ∧
      List.Perm (t.PT 1).children_list
        ((demo_family.PT 1).children_list ++ (demo_family.PT (CURPROC demo_family)).children_list) :=
  C9_reparenting 16 0 demo_family (initialise_PTCB none 0 none) 2 rfl (by decide) rfl rfl
    (by decide)

/-- C10: the running thread is the last thread of its process `P`, `P` is not
process 1, the caller's record is live, `P` has a parent `par` other than itself
and is not in its own children list, and `P`'s own node is not yet in the exited
list of its parent or in its own.  Then `sys_ThreadExit` completes; `P`'s
`exited_list` is empty; the `exited_list` of process 1 is its former list followed
by the former list of `P` (behind `P`'s own node when process 1 is the parent), so
every other entry occurs as often as it did in the two lists together; `P` occurs
exactly once in the `exited_list` of its parent, at the front; and during the call
`child_exit` of process 1 is broadcast when `P` had an exited child, and then
`child_exit` of the parent is broadcast. -/
theorem C10_zombie_handoff (MAX_FILEID : Nat) (x : Int) (s : Kernel) (r : PTCB) (par : Pid_t)
    (hr : s.heap (sys_ThreadSelf s) = some r)
    (hne : CURPROC s ≠ 1)
    (hlast : (s.PT (CURPROC s)).thread_count = 1)
    (hpar : (s.PT (CURPROC s)).parent = some par)
    (hpp : par ≠ CURPROC s)
    (hself : CURPROC s ∉ (s.PT (CURPROC s)).children_list)
    (hnode1 : CURPROC s ∉ (s.PT par).exited_list)
    (hnode2 : CURPROC s ∉ (s.PT (CURPROC s)).exited_list) :
    ∃ t, sys_ThreadExit MAX_FILEID x s = some t ∧
      (t.PT (CURPROC s)).exited_list = [] ∧
      (t.PT 1).exited_list = (if par = 1 then [CURPROC s] else []) ++
        ((s.PT 1).exited_list ++ (s.PT (CURPROC s)).exited_list) ∧
      (∀ z, z ≠ CURPROC s → (t.PT 1).exited_list.count z =
        (s.PT 1).exited_list.count z + (s.PT (CURPROC s)).exited_list.count z) ∧
      (t.PT (CURPROC s)).parent = some par ∧
      (t.PT par).exited_list.head? = some (CURPROC s) ∧
      (t.PT par).exited_list.count (CURPROC s) = 1 ∧
      ∃ before after, t.trace = s.trace ++ before ++
        ((if (s.PT (CURPROC s)).exited_list ≠ [] then
            [Event.kernel_broadcast (CondVar.child_exit 1)] else []) ++
          [Event.kernel_broadcast (CondVar.child_exit par)]) ++ after := by
  have hpar2 : (if CURPROC s ∈ (s.PT (CURPROC s)).children_list then some 1
      else (s.PT (CURPROC s)).parent) = some par := by
    rw [if_neg hself]; exact hpar
  obtain ⟨s3, _, hfam, htr3, ht⟩ :=
    sys_ThreadExit_last_thread MAX_FILEID x s r par hr hne hlast hpar2 hpp
  refine ⟨_, ht, ?_⟩
  have hf : ∀ q, (s3.PT q).parent = (s.PT q).parent ∧
      (s3.PT q).children_list = (s.PT q).children_list ∧
      (s3.PT q).exited_list = (s.PT q).exited_list := by
    intro q
    have h := hfam q; simp only [family, Prod.mk.injEq] at h; exact h
  have hq : ∀ q, family ((emit (Event.kernel_sleep s.cur_thread)
      (cleanup MAX_FILEID (CURPROC s) (handed_over par (CURPROC s) s3))).PT q) =
      family ((handed_over par (CURPROC s) s3).PT q) := fun q => (cleanup_family _ _ _).1 q
  have hex : ∀ q, ((emit (Event.kernel_sleep s.cur_thread)
      (cleanup MAX_FILEID (CURPROC s) (handed_over par (CURPROC s) s3))).PT q).exited_list =
      (if q = par then [CURPROC s] else []) ++
      (if q = CURPROC s then []
       else if q = 1 then (s.PT 1).exited_list ++ (s.PT (CURPROC s)).exited_list
       else (s.PT q).exited_list) := by
    intro q
    have h := hq q; simp only [family, Prod.mk.injEq] at h
    rw [h.2.2, handed_over_exited _ _ _ hne q, (hf 1).2.2, (hf (CURPROC s)).2.2, (hf q).2.2]
  have hpa : ((emit (Event.kernel_sleep s.cur_thread)
      (cleanup MAX_FILEID (CURPROC s) (handed_over par (CURPROC s) s3))).PT (CURPROC s)).parent
      = some par := by
    have h := hq (CURPROC s); simp only [family, Prod.mk.injEq] at h
    rw [h.1, (handed_over_children _ _ _ _).2, (hf (CURPROC s)).2.1, if_neg hself,
      (hf (CURPROC s)).1, hpar]
  have h1 : (1 : Pid_t) ≠ CURPROC s := fun e => hne e.symm
  have hpc : CURPROC s ≠ par := fun e => hpp e.symm
  refine ⟨?_, ?_, ?_, hpa, ?_, ?_, ?_⟩
  · rw [hex]; simp [hpc]
  · rw [hex, if_neg h1]
    by_cases hp1 : par = 1
    · simp [hp1]
    · have hp1b : ¬ (1 : Pid_t) = par := fun e => hp1 e.symm
      simp [hp1, hp1b]
  · intro z hz
    rw [hex, if_neg h1]
    simp only [if_true, List.count_append]
    have hz0 : (if (1 : Pid_t) = par then [CURPROC s] else []).count z = 0 := by
      split
      · exact List.count_eq_zero_of_not_mem (by simpa using hz)
      · rfl
    rw [hz0]; omega
  · rw [hex]; simp
  · rw [hex, if_neg hpp]
    simp only [if_true, List.singleton_append, List.count_cons_self]
    have h0 : (if par = 1 then (s.PT 1).exited_list ++ (s.PT (CURPROC s)).exited_list
        else (s.PT par).exited_list).count (CURPROC s) = 0 := by
      apply List.count_eq_zero_of_not_mem
      split
      · rename_i hp1
        rw [hp1] at hnode1
        simp [hnode1, hnode2]
      · exact hnode1
    rw [h0]
  · obtain ⟨evs, hev⟩ := (cleanup_family MAX_FILEID (CURPROC s)
      (handed_over par (CURPROC s) s3)).2
    refine ⟨Event.kernel_broadcast (CondVar.exit_cv (sys_ThreadSelf s)) ::
      (if r.detached then [Event.release_PTCB (sys_ThreadSelf s)] else []),
      evs ++ [Event.kernel_sleep s.cur_thread], ?_⟩
    show (cleanup MAX_FILEID (CURPROC s) (handed_over par (CURPROC s) s3)).trace
      ++ [Event.kernel_sleep s.cur_thread] = _
    rw [hev, handed_over_trace, htr3, (hf (CURPROC s)).2.2]
    simp only [List.append_assoc]

/-- C10 on the example: the last thread of process 3 exits; its exited children 6
and 7 go behind 8 in the exited list of process 1 and process 3 itself goes to the
front of the exited list of its parent, process 2. -/
theorem C10_zombie_handoff_witness :
    ∃ t, sys_ThreadExit 16 0 demo_family = some t ∧
      (t.PT (CURPROC demo_family)).exited_list = [] ∧
      (t.PT 1).exited_list = (if (2 : Pid_t) = 1 then [CURPROC demo_family] else []) ++
        ((demo_family.PT 1).exited_list ++ (demo_family.PT (CURPROC demo_family)).exited_list) ∧
      (∀ z, z ≠ CURPROC demo_family → (t.PT 1).exited_list.count z =
        (demo_family.PT 1).exited_list.count z
          + (demo_family.PT (CURPROC demo_family)).exited_list.count z) ∧
      (t.PT (CURPROC demo_family)).parent = some 2 ∧
      (t.PT 2).exited_list.head? = some (CURPROC demo_family) ∧
      (t.PT 2).exited_list.count (CURPROC demo_family) = 1 ∧
      ∃ before after, t.trace = demo_family.trace ++ before ++
        ((if (demo_family.PT (CURPROC demo_family)).exited_list ≠ [] then
            [Event.kernel_broadcast (CondVar.child_exit 1)] else []) ++
          [Event.kernel_broadcast (CondVar.child_exit 2)]) ++ after :=
  C10_zombie_handoff 16 0 demo_family (initialise_PTCB none 0 none) 2 rfl (by decide) rfl rfl
    (by decide) (by decide) (by decide) (by decide)

/-- C11, as stated, fails when the parent of the exiting process is process 1.  In
the example process 2 is a child of process 1, has no children and no exited
children, and its last thread exits: the `exited_list` of process 1 was empty and
holds process 2 afterwards, so it is not the same after the call as before. -/
theorem C11_counterexample :
    CURPROC demo_single = 2 ∧ (demo_single.PT 2).parent = some 1 ∧
    (demo_single.PT 2).thread_count = 1 ∧
    (demo_single.PT 2).children_list = [] ∧ (demo_single.PT 2).exited_list = [] ∧
    (demo_single.PT 1).exited_list = [] ∧
    ∃ t, sys_ThreadExit 16 0 demo_single = some t ∧ (t.PT 1).exited_list = [2] ∧
      (t.PT 1).exited_list ≠ (demo_single.PT 1).exited_list :=
  ⟨rfl, rfl, rfl, rfl, rfl, rfl, _, rfl, rfl, by decide⟩

/-- C11, amended: the running thread is the last thread of its process `P`, `P` is
not process 1, has a parent `par` other than itself, and its `children_list` and
`exited_list` are empty; the caller's record is live.  Then `sys_ThreadExit`
completes, the `exited_list` of the parent is its former list with `P`'s node in
front and nothing else new, the `children_list` of process 1 is as before, and so
is the `exited_list` of process 1 unless process 1 is the parent. -/
theorem C11_childless_exit (MAX_FILEID : Nat) (x : Int) (s : Kernel) (r : PTCB) (par : Pid_t)
    (hr : s.heap (sys_ThreadSelf s) = some r)
    (hne : CURPROC s ≠ 1)
    (hlast : (s.PT (CURPROC s)).thread_count = 1)
    (hpar : (s.PT (CURPROC s)).parent = some par)
    (hpp : par ≠ CURPROC s)
    (hkids : (s.PT (CURPROC s)).children_list = [])
    (hzomb : (s.PT (CURPROC s)).exited_list = []) :
    ∃ t, sys_ThreadExit MAX_FILEID x s = some t ∧
      (t.PT par).exited_list = CURPROC s :: (s.PT par).exited_list ∧
      (t.PT 1).children_list = (s.PT 1).children_list ∧
      (par ≠ 1 → (t.PT 1).exited_list = (s.PT 1).exited_list) := by
  have hpar2 : (if CURPROC s ∈ (s.PT (CURPROC s)).children_list then some 1
      else (s.PT (CURPROC s)).parent) = some par := by
    rw [hkids]; simpa using hpar
  obtain ⟨t, ht, hq⟩ :=
    sys_ThreadExit_last_thread_family MAX_FILEID x s r par hr hne hlast hpar2 hpp
  have h1 : (1 : Pid_t) ≠ CURPROC s := fun e => hne e.symm
  refine ⟨t, ht, ?_, ?_, ?_⟩
  · rw [(hq par).2.2, if_neg hpp, hzomb]
    by_cases hp1 : par = 1
    · subst hp1; simp
    · simp [hp1]
  · rw [(hq 1).1, if_neg h1, hkids]; simp
  · intro hp1
    have hp1b : ¬ (1 : Pid_t) = par := fun e => hp1 e.symm
    rw [(hq 1).2.2, if_neg h1, hzomb]
    simp [hp1b]

/-- C11, amended, on the example: the last thread of process 3 exits once its
children and exited children are gone; its parent is process 2. -/
theorem C11_childless_exit_witness :
    ∃ t, sys_ThreadExit 16 0 demo_childless = some t ∧
      (t.PT 2).exited_list = CURPROC demo_childless :: (demo_childless.PT 2).exited_list ∧
      (t.PT 1).children_list = (demo_childless.PT 1).children_list ∧
      ((2 : Pid_t) ≠ 1 → (t.PT 1).exited_list = (demo_childless.PT 1).exited_list) :=
  C11_childless_exit 16 0 demo_childless (initialise_PTCB none 0 none) 2 rfl (by decide) rfl rfl
    (by decide) rfl rfl

/-- C12: the running thread is the last thread of its process `P`, which may be
process 1, and its record is live.  `sys_ThreadExit` completes when `P` is process
1 or has a parent other than itself; and whenever it completes, `P.args` is null,
every `P.FIDT[i]` with `i < MAX_FILEID` is null, `P.main_thread` is null and
`P.pstate` is `ZOMBIE`; the `free` calls of the call are one on the former
`P.args` when it was set and none otherwise; and its `FCB_decref` calls are one
for each formerly occupied slot below `MAX_FILEID`, in slot order, and no other. -/
theorem C12_last_exit_cleanup (MAX_FILEID : Nat) (x : Int) (s : Kernel) (r : PTCB)
    (hr : s.heap (sys_ThreadSelf s) = some r)
    (hlast : (s.PT (CURPROC s)).thread_count = 1) :
    ((CURPROC s = 1 ∨ ∃ par, (s.PT (CURPROC s)).parent = some par ∧ par ≠ CURPROC s) →
      ∃ t, sys_ThreadExit MAX_FILEID x s = some t) ∧
    ∀ t, sys_ThreadExit MAX_FILEID x s = some t →
      (t.PT (CURPROC s)).args = none ∧
      (∀ i, i < MAX_FILEID → (t.PT (CURPROC s)).FIDT i = none) ∧
      (t.PT (CURPROC s)).main_thread = none ∧
      (t.PT (CURPROC s)).pstate = pid_state.ZOMBIE ∧
      frees (new_events s t) = (s.PT (CURPROC s)).args.toList ∧
      decrefs (new_events s t) = (List.range MAX_FILEID).filterMap (s.PT (CURPROC s)).FIDT := by
  constructor
  · rintro (h1 | ⟨par, hpar, hpp⟩)
    · obtain ⟨s3, h3, e1, _, e3, _⟩ := exit_thread_eq x s r hr
      have hz : (s3.PT (CURPROC s3)).thread_count = 0 := by
        rw [e1, e3]; simp [hlast]
      unfold sys_ThreadExit
      simp only [h3, Option.some_bind, hz, if_true]
      unfold exit_process
      simp only [e1, h1, ne_eq, not_true_eq_false, if_false, Option.map_some']
      exact ⟨_, rfl⟩
    · by_cases h1 : CURPROC s = 1
      · obtain ⟨s3, h3, e1, _, e3, _⟩ := exit_thread_eq x s r hr
        have hz : (s3.PT (CURPROC s3)).thread_count = 0 := by
          rw [e1, e3]; simp [hlast]
        unfold sys_ThreadExit
        simp only [h3, Option.some_bind, hz, if_true]
        unfold exit_process
        simp only [e1, h1, ne_eq, not_true_eq_false, if_false, Option.map_some']
        exact ⟨_, rfl⟩
      · have hpar2 : (if CURPROC s ∈ (s.PT (CURPROC s)).children_list then some 1
            else (s.PT (CURPROC s)).parent) =
            some (if CURPROC s ∈ (s.PT (CURPROC s)).children_list then 1 else par) := by
          split
          · rfl
          · exact hpar
        have hpp2 : (if CURPROC s ∈ (s.PT (CURPROC s)).children_list then 1 else par)
            ≠ CURPROC s := by
          split
          · exact fun e => h1 e.symm
          · exact hpp
        obtain ⟨s3, _, _, _, ht⟩ :=
          sys_ThreadExit_last_thread MAX_FILEID x s r _ hr h1 hlast hpar2 hpp2
        exact ⟨_, ht⟩
  · intro t ht
    obtain ⟨r2, mid, hr2, f1, f2, f3, htr⟩ := sys_ThreadExit_trace MAX_FILEID x s t ht
    have hPT : ∃ u : Kernel, t.PT = (cleanup MAX_FILEID (CURPROC s) u).PT := by
      obtain ⟨_, s3, _, _, hcases⟩ := sys_ThreadExit_cases MAX_FILEID x s t ht
      rcases hcases with ⟨hc, _⟩ | ⟨_, _, rfl⟩ | ⟨_, _, parent, _, _, rfl⟩
      · exact absurd hlast hc
      · exact ⟨s3, rfl⟩
      · exact ⟨_, rfl⟩
    obtain ⟨u, hu⟩ := hPT
    rw [hu, (cleanup_eq MAX_FILEID (CURPROC s) u).1]
    simp only [Function.update_same]
    refine ⟨trivial, ?_, trivial, trivial, ?_, ?_⟩
    · intro i hi
      simp [hi]
    · rw [new_events_of_append s t _ htr, if_pos hlast]
      rw [frees_append, frees_append, frees_append, frees_append, f2,
        (filters_FIDT_decrefs (s.PT (CURPROC s)).FIDT 0 MAX_FILEID).2.1,
        (filters_map_free (s.PT (CURPROC s)).args.toList).2.1,
        (filters_exit_head (sys_ThreadSelf s) r2.detached).2.1]
      simp [frees]
    · rw [new_events_of_append s t _ htr, if_pos hlast]
      rw [decrefs_append, decrefs_append, decrefs_append, decrefs_append, f3,
        (filters_FIDT_decrefs (s.PT (CURPROC s)).FIDT 0 MAX_FILEID).2.2,
        (filters_map_free (s.PT (CURPROC s)).args.toList).2.2,
        (filters_exit_head (sys_ThreadSelf s) r2.detached).2.2]
      simp [decrefs]

/-- C12 on the example: the last thread of process 3 exits; the process had an
argument buffer at 1000 and the files 50 and 51 in slots 0 and 2. -/
theorem C12_last_exit_cleanup_witness :
    ∃ t, sys_ThreadExit 16 0 demo_family = some t ∧
      (t.PT 3).args = none ∧ (∀ i, i < 16 → (t.PT 3).FIDT i = none) ∧
      (t.PT 3).main_thread = none ∧ (t.PT 3).pstate = pid_state.ZOMBIE ∧
      frees (new_events demo_family t) = [1000] ∧
      decrefs (new_events demo_family t) = [50, 51] :=
  ⟨_, rfl,
    (C12_last_exit_cleanup 16 0 demo_family (initialise_PTCB none 0 none) rfl rfl).2 _ rfl⟩

/-- C13, as stated, fails in `sys_ThreadExit`.  In the example thread 10 enters
`sys_ThreadJoin(101, 5)` and is suspended, then thread 11 calls
`sys_ThreadDetach(101)`; in the state reached, `sys_ThreadExit(42)` by thread 11
calls `release_PTCB` on record 101, and at that moment the record has
`refcount = 1`: the destroy invariant does not hold. -/
theorem C13_counterexample :
    run 16 [(10, Call.ThreadJoin 101 (some 5)), (11, Call.ThreadDetach 101)] demo
      = some demo_detached ∧
    ∃ t s2 r1, exec 16 (Call.ThreadExit 42) demo_detached = some t ∧
      released (new_events demo_detached t) = [101] ∧
      release_point (Call.ThreadExit 42) demo_detached = some (101, s2) ∧
      exit_thread 42 demo_detached = some (release_PTCB 101 s2) ∧
      s2.heap 101 = some r1 ∧ r1.refcount = 1 ∧ ¬ destroy_invariant r1 :=
  ⟨rfl, _, _, _, rfl, rfl, rfl, rfl, rfl, rfl, by decide⟩

/-- C13, amended: in every state, when a call of one of the entry points (or a
resumed `sys_ThreadJoin`) completes and has called `release_PTCB` on a record `p`,
it has done so once, at its `release_point`, and at that moment the record had
`exited` or `detached` set.  When the call is a `sys_ThreadJoin` the record
satisfied the whole destroy invariant (`refcount = 0`, exited, not detached).  When
it is a `sys_ThreadExit`, `p` is the caller's record, with `exited` and `detached`
set and with the `refcount` it had before the call, whatever that is. -/
theorem C13_release_invariant (MAX_FILEID : Nat) (op : Call) (s t : Kernel) (p : Tid_t)
    (h : exec MAX_FILEID op s = some t) (hp : p ∈ released (new_events s t)) :
    released (new_events s t) = [p] ∧
    ∃ s2 r1, release_point op s = some (p, s2) ∧ s2.heap p = some r1 ∧
      (r1.exited = true ∨ r1.detached = true) ∧
      (is_ThreadJoin op = true → destroy_invariant r1 ∧ t = release_PTCB p s2) ∧
      (is_ThreadExit op = true → p = sys_ThreadSelf s ∧ r1.exited = true ∧
        r1.detached = true ∧ ∃ r, s.heap p = some r ∧ r1.refcount = r.refcount) := by
  cases op with
  | CreateThread task argl args q c =>
    exfalso
    simp only [exec, Option.some.injEq] at h
    subst h
    rw [new_events_of_append s _ _ (sys_CreateThread_trace task argl args q c s)] at hp
    cases task <;> simp [released] at hp
  | ThreadSelf =>
    exfalso
    simp only [exec, Option.some.injEq] at h
    subst h
    simp [new_events, released] at hp
  | ThreadDetach tid =>
    exfalso
    simp only [exec, Option.map_eq_some'] at h
    obtain ⟨⟨rc, s2⟩, h2, rfl⟩ := h
    rcases sys_ThreadDetach_trace tid s s2 rc h2 with e | e
    · rw [e] at hp; simp [released] at hp
    · rw [e] at hp; simp [released] at hp
  | ThreadJoin tid out =>
    simp only [exec, Option.map_eq_some'] at h
    obtain ⟨⟨st, s1⟩, h2, rfl⟩ := h
    obtain ⟨e1, e2⟩ := sys_ThreadJoin_release tid out s s1 st h2
    rw [e1] at hp ⊢
    cases hrp : release_point (Call.ThreadJoin tid out) s with
    | none => rw [hrp] at hp; simp at hp
    | some ps =>
      obtain ⟨p2, s2⟩ := ps
      rw [hrp] at hp
      simp only [Option.map_some', Option.toList, List.mem_singleton] at hp
      subst hp
      obtain ⟨_, ht, r1, hr1, h0, hx, hd⟩ := e2 p s2 hrp
      refine ⟨rfl, s2, r1, rfl, hr1, Or.inl hx, fun _ => ⟨⟨h0, Or.inl hx⟩, ht⟩, ?_⟩
      intro hE; simp [is_ThreadExit] at hE
  | ThreadJoin_resume tid out =>
    simp only [exec, Option.map_eq_some'] at h
    obtain ⟨⟨st, s1⟩, h2, rfl⟩ := h
    obtain ⟨e1, e2⟩ := sys_ThreadJoin_loop_release tid out s s1 st h2
    rw [e1] at hp ⊢
    cases hrp : join_release_point tid out s with
    | none => rw [hrp] at hp; simp at hp
    | some ps =>
      obtain ⟨p2, s2⟩ := ps
      rw [hrp] at hp
      simp only [Option.map_some', Option.toList, List.mem_singleton] at hp
      subst hp
      obtain ⟨_, ht, _⟩ := e2 p s2 hrp
      obtain ⟨r1, hr1, h0, hx, hd⟩ := join_release_point_record _ _ _ _ _ hrp
      refine ⟨rfl, s2, r1, hrp, hr1, Or.inl hx, fun _ => ⟨⟨h0, Or.inl hx⟩, ht⟩, ?_⟩
      intro hE; simp [is_ThreadExit] at hE
  | ThreadExit x =>
    simp only [exec] at h
    obtain ⟨r, hr, _, e1, e2⟩ := sys_ThreadExit_release MAX_FILEID x s t h
    rw [e1] at hp ⊢
    cases hrp : exit_release_point x s with
    | none => rw [hrp] at hp; simp at hp
    | some ps =>
      obtain ⟨p2, s2⟩ := ps
      rw [hrp] at hp
      simp only [Option.map_some', Option.toList, List.mem_singleton] at hp
      subst hp
      obtain ⟨hself, _, hr1, hd⟩ := e2 p s2 hrp
      refine ⟨rfl, s2, _, hrp, hr1, Or.inl rfl, ?_, ?_⟩
      · intro hJ; simp [is_ThreadJoin] at hJ
      · intro _
        exact ⟨hself, rfl, hd, r, by rw [hself]; exact hr, rfl⟩

/-- C13, amended, on the example: thread 10 resumes its join of record 101 after
thread 11 has exited; the join releases the record, whose `refcount` is 0 then. -/
theorem C13_release_invariant_witness :
    released (new_events demo_exited
        ((exec 16 (Call.ThreadJoin_resume 101 (some 5)) demo_exited).getD demo)) = [101] ∧
    ∃ s2 r1, release_point (Call.ThreadJoin_resume 101 (some 5)) demo_exited = some (101, s2) ∧
      s2.heap 101 = some r1 ∧ destroy_invariant r1 :=
  have h := C13_release_invariant 16 (Call.ThreadJoin_resume 101 (some 5)) demo_exited
    ((exec 16 (Call.ThreadJoin_resume 101 (some 5)) demo_exited).getD demo) 101 rfl
    (by decide)
  ⟨h.1, h.2.elim fun s2 h2 => h2.elim fun r1 h3 =>
    ⟨s2, r1, h3.1, h3.2.1, (h3.2.2.2.1 rfl).1⟩⟩

/-- C14: two distinct threads `J1` and `J2` are suspended in `sys_ThreadJoin` on
the live record `T`, which is not detached and has not exited; each of them has
incremented `T.refcount` (line 56), so it is at least 2.  The thread of `T` runs
and calls `sys_ThreadExit(x)`, which completes whenever another live thread
remains.  When then `J1` resumes and after it `J2`, both joins return 0 and both
slots hold `x`; and the same when `J2` resumes first and `J1` after it. -/
theorem C14_two_joiners (MAX_FILEID : Nat) (s : Kernel) (x : Int) (J1 J2 : TCBRef)
    (T : Tid_t) (v1 v2 : Addr) (r : PTCB)
    (hrun : sys_ThreadSelf s = T)
    (_hJ : J1 ≠ J2)
    (hT : s.heap T = some r) (hdet : r.detached = false) (_hex : r.exited = false)
    (href : 2 ≤ r.refcount) :
    ((s.PT (CURPROC s)).thread_count ≠ 1 → ∃ s1, sys_ThreadExit MAX_FILEID x s = some s1) ∧
    ∀ s1, sys_ThreadExit MAX_FILEID x s = some s1 →
      (∃ sa sb,
        sys_ThreadJoin_loop T (some v1) (context_switch J1 s1)
          = some (JoinStatus.returned 0, sa) ∧
        sys_ThreadJoin_loop T (some v2) (context_switch J2 sa)
          = some (JoinStatus.returned 0, sb) ∧
        sb.umem v1 = x ∧ sb.umem v2 = x) ∧
      (∃ sa sb,
        sys_ThreadJoin_loop T (some v2) (context_switch J2 s1)
          = some (JoinStatus.returned 0, sa) ∧
        sys_ThreadJoin_loop T (some v1) (context_switch J1 sa)
          = some (JoinStatus.returned 0, sb) ∧
        sb.umem v1 = x ∧ sb.umem v2 = x) := by
  subst hrun
  constructor
  · intro hc
    obtain ⟨s3, _, h⟩ := sys_ThreadExit_of_thread_count MAX_FILEID x s r hT hc
    exact ⟨_, h⟩
  · intro s1 h1
    have hh := (sys_ThreadExit_heap MAX_FILEID x s s1 r hT h1).1
    have h1T : s1.heap (sys_ThreadSelf s) = some { r with exitval := x, exited := true } := by
      rw [hh]; simp [hdet]
    have key : ∀ (Ja Jb : TCBRef) (va vb : Addr), ∃ sa sb,
        sys_ThreadJoin_loop (sys_ThreadSelf s) (some va) (context_switch Ja s1)
          = some (JoinStatus.returned 0, sa) ∧
        sys_ThreadJoin_loop (sys_ThreadSelf s) (some vb) (context_switch Jb sa)
          = some (JoinStatus.returned 0, sb) ∧
        sb.umem va = x ∧ sb.umem vb = x := by
      intro Ja Jb va vb
      obtain ⟨sa, ha, haT, hau⟩ := sys_ThreadJoin_loop_exited_held (sys_ThreadSelf s) va
        (context_switch Ja s1) { r with exitval := x, exited := true } h1T rfl hdet
        (by show r.refcount ≠ 1; omega)
      obtain ⟨sb, hb, hbu⟩ := sys_ThreadJoin_loop_exited (sys_ThreadSelf s) (some vb)
        (context_switch Jb sa) _ haT rfl hdet
      refine ⟨sa, sb, ha, hb, ?_, hbu vb rfl⟩
      have hav : sa.umem va = x := by rw [hau]; simp
      unfold sys_ThreadJoin_loop at hb
      have haT2 : (context_switch Jb sa).heap (sys_ThreadSelf s) =
          some { r with exitval := x, exited := true, refcount := r.refcount - 1 } := haT
      simp only [haT2, hdet, Bool.not_true, Bool.false_and, Bool.false_eq_true, if_false,
        Option.some.injEq, Prod.mk.injEq, true_and] at hb
      subst hb
      by_cases hv : va = vb
      · subst hv
        split <;> simp [release_PTCB, emit, set_PTCB, context_switch]
      · split <;> simp [release_PTCB, emit, set_PTCB, context_switch, Function.update_noteq hv, hav]
    exact ⟨key J1 J2 v1 v2, by
      obtain ⟨sa, sb, a, b, c, d⟩ := key J2 J1 v2 v1
      exact ⟨sa, sb, a, b, d, c⟩⟩

/-- C14 on the example: threads 10 and 12 wait for record 101 with the slots 5 and
6, thread 11 exits with 42, thread 10 resumes and then thread 12. -/
theorem C14_two_joiners_witness :
    ∃ sa sb,
      sys_ThreadJoin_loop 101 (some 5)
          (context_switch 10 ((sys_ThreadExit 16 42 demo_two_joined).getD demo))
        = some (JoinStatus.returned 0, sa) ∧
      sys_ThreadJoin_loop 101 (some 6) (context_switch 12 sa)
        = some (JoinStatus.returned 0, sb) ∧
      sb.umem 5 = 42 ∧ sb.umem 6 = 42 :=
  ((C14_two_joiners 16 demo_two_joined 42 10 12 101 5 6
      { initialise_PTCB (some 7) 0 none with tcb := some 11, refcount := 2 }
      rfl (by decide) rfl rfl rfl (by decide)).2
    ((sys_ThreadExit 16 42 demo_two_joined).getD demo) rfl).1

/-- C15: `sys_CreateThread` with a task returns the acquired record `p`.
Afterwards the `ptcb_list` of the caller's process is the former list with `p` at
the back, the record `p` is live, fresh (not exited, not detached, no joiner) and
points to the spawned thread `t`, the thread `t` belongs to the caller's process
and points back to `p`, and the calls made are `spawn_thread` for the caller's
process followed by `wakeup(t)`.  A following `sys_ThreadDetach(p)` by any thread
`c` of the same process finds the record: it returns 0 and leaves it detached. -/
theorem C15_create_thread (f : Nat) (argl : Int) (args : Option Addr) (p : Tid_t)
    (t : TCBRef) (s : Kernel) :
    (sys_CreateThread (some f) argl args p t s).1 = p ∧
    CURPROC (sys_CreateThread (some f) argl args p t s).2 = CURPROC s ∧
    ((sys_CreateThread (some f) argl args p t s).2.PT (CURPROC s)).ptcb_list
      = (s.PT (CURPROC s)).ptcb_list ++ [p] ∧
    (sys_CreateThread (some f) argl args p t s).2.heap p
      = some { initialise_PTCB (some f) argl args with tcb := some t } ∧
    (sys_CreateThread (some f) argl args p t s).2.threads t
      = { owner_pcb := CURPROC s, ptcb := p } ∧
    new_events s (sys_CreateThread (some f) argl args p t s).2
      = [Event.spawn_thread (CURPROC s) t, Event.wakeup t] ∧
    ∀ c, ((sys_CreateThread (some f) argl args p t s).2.threads c).owner_pcb = CURPROC s →
      ∃ s2, sys_ThreadDetach p (context_switch c (sys_CreateThread (some f) argl args p t s).2)
          = some (0, s2) ∧
        (s2.heap p).map (fun q => q.detached) = some true := by
  have hPT := sys_CreateThread_PT (some f) argl args p t s
  have hlist : ((sys_CreateThread (some f) argl args p t s).2.PT (CURPROC s)).ptcb_list
      = (s.PT (CURPROC s)).ptcb_list ++ [p] := by
    rw [hPT.2]; simp
  have hheap : (sys_CreateThread (some f) argl args p t s).2.heap p
      = some { initialise_PTCB (some f) argl args with tcb := some t } := by
    simp [sys_CreateThread, upd_PCB, upd_TCB, upd_PTCB, emit, set_PTCB]
  have hthr : (sys_CreateThread (some f) argl args p t s).2.threads t
      = { owner_pcb := CURPROC s, ptcb := p } := by
    simp [sys_CreateThread, upd_PCB, upd_TCB, upd_PTCB, emit, set_PTCB]
    rfl
  refine ⟨rfl, hPT.1, hlist, hheap, hthr, ?_, ?_⟩
  · rw [new_events_of_append s _ _ (sys_CreateThread_trace (some f) argl args p t s)]
    rfl
  · intro c hc
    have hcur : CURPROC (context_switch c (sys_CreateThread (some f) argl args p t s).2)
        = CURPROC s := hc
    obtain ⟨s2, h2, hh, _⟩ := sys_ThreadDetach_live p
      (context_switch c (sys_CreateThread (some f) argl args p t s).2)
      { initialise_PTCB (some f) argl args with tcb := some t }
      (by rw [hcur]
          show p ∈ ((sys_CreateThread (some f) argl args p t s).2.PT (CURPROC s)).ptcb_list
          rw [hlist]; simp)
      hheap rfl
    refine ⟨s2, h2, ?_⟩
    rw [hh]; simp

/-- C15 on the example: the main thread 10 of process 2 creates thread 11 with the
record 101, and then detaches it. -/
theorem C15_create_thread_witness :
    ∃ s2, sys_ThreadDetach 101
        (context_switch 10 (sys_CreateThread (some 7) 0 none 101 11 demo_single).2)
          = some (0, s2) ∧
      (s2.heap 101).map (fun q => q.detached) = some true :=
  (C15_create_thread 7 0 none 101 11 demo_single).2.2.2.2.2.2 10 rfl

/-- C16, as stated, fails for `sys_CreateThread` without a task.  In the example
process 2 has `thread_count = 3` and three records that have not exited in its
`ptcb_list`; after `sys_CreateThread(NULL, 0, NULL)` by thread 11 `thread_count` is
4 and the list still has the same three records. -/
theorem C16_counterexample :
    count_invariant demo (CURPROC demo) ∧
    ((sys_CreateThread none 0 none 103 0 demo).2.PT (CURPROC demo)).thread_count = 4 ∧
    live_records (sys_CreateThread none 0 none 103 0 demo).2 (CURPROC demo) = 3 ∧
    ¬ count_invariant (sys_CreateThread none 0 none 103 0 demo).2 (CURPROC demo) := by
  refine ⟨by decide, rfl, rfl, by decide⟩

/-- C16, amended: the predicate `thread_count = number of records in the
ptcb_list that have not exited`, for the caller's process, is preserved by every
completed `sys_ThreadJoin` (entered or resumed), `sys_ThreadDetach` and
`sys_ThreadSelf`; by `sys_CreateThread` with a task, when the acquired record is
not yet in the list; and by `sys_ThreadExit`, when the caller's record is in the
list once and has not exited before. -/
theorem C16_count_invariant (MAX_FILEID : Nat) (op : Call) (s t : Kernel)
    (h : exec MAX_FILEID op s = some t)
    (hinv : count_invariant s (CURPROC s))
    (hcreate : ∀ task argl args p c, op = Call.CreateThread task argl args p c →
      task.isSome = true ∧ p ∉ (s.PT (CURPROC s)).ptcb_list)
    (hexit : ∀ x, op = Call.ThreadExit x →
      (s.PT (CURPROC s)).ptcb_list.count (sys_ThreadSelf s) = 1 ∧
      ∃ r, s.heap (sys_ThreadSelf s) = some r ∧ r.exited = false) :
    count_invariant t (CURPROC s) := by
  unfold count_invariant at hinv ⊢
  cases op with
  | CreateThread task argl args p c =>
    obtain ⟨htask, hfresh⟩ := hcreate task argl args p c rfl
    simp only [exec, Option.some.injEq] at h
    subst h
    obtain ⟨⟨r, hr, hx, _⟩, hother⟩ := sys_CreateThread_heap task argl args p c s
    rw [(sys_CreateThread_PT task argl args p c s).2]
    unfold live_records
    rw [(sys_CreateThread_PT task argl args p c s).2]
    simp only [Function.update_same, htask, if_true, List.countP_append, List.countP_cons,
      List.countP_nil]
    have hp : running (sys_CreateThread task argl args p c s).2 p = true := by
      unfold running; rw [hr]; simp [hx]
    have hold : (s.PT (CURPROC s)).ptcb_list.countP
        (running (sys_CreateThread task argl args p c s).2) = live_records s (CURPROC s) := by
      unfold live_records
      apply List.countP_congr
      intro q hq
      have hqp : q ≠ p := fun e => hfresh (e ▸ hq)
      unfold running
      rw [hother q hqp]
    rw [hold, hp, hinv]
    simp
  | ThreadSelf =>
    simp only [exec, Option.some.injEq] at h
    subst h
    exact hinv
  | ThreadJoin tid out =>
    simp only [exec, Option.map_eq_some'] at h
    obtain ⟨⟨st, s1⟩, h2, rfl⟩ := h
    have hPT := (sys_ThreadJoin_PT _ _ _ _ _ h2).1
    rw [live_records_congr s s1 (CURPROC s) (by rw [hPT])
      (fun p _ => (sys_ThreadJoin_flags _ _ _ _ _ h2).2 p)]
    simp only [hPT]
    exact hinv
  | ThreadJoin_resume tid out =>
    simp only [exec, Option.map_eq_some'] at h
    obtain ⟨⟨st, s1⟩, h2, rfl⟩ := h
    have hPT := (sys_ThreadJoin_loop_PT _ _ _ _ _ h2).1
    rw [live_records_congr s s1 (CURPROC s) (by rw [hPT])
      (fun p _ => (sys_ThreadJoin_loop_flags _ _ _ _ _ h2).2 p)]
    simp only [hPT]
    exact hinv
  | ThreadDetach tid =>
    simp only [exec, Option.map_eq_some'] at h
    obtain ⟨⟨rc, s1⟩, h2, rfl⟩ := h
    have hPT := (sys_ThreadDetach_PT _ _ _ _ h2).1
    rw [live_records_congr s s1 (CURPROC s) (by rw [hPT])
      (fun p _ => (sys_ThreadDetach_flags _ _ _ _ h2).2.1 p)]
    simp only [hPT]
    exact hinv
  | ThreadExit x =>
    obtain ⟨hcount, r, hr, hx⟩ := hexit x rfl
    simp only [exec] at h
    obtain ⟨hc, hl⟩ := sys_ThreadExit_thread_count MAX_FILEID x s t h (CURPROC s)
    have hheap := (sys_ThreadExit_heap MAX_FILEID x s t r hr h).1
    have hrun : ∀ p, running t p = (if p = sys_ThreadSelf s then false else running s p) := by
      intro p
      unfold running
      rw [hheap]
      by_cases hp : p = sys_ThreadSelf s
      · subst hp
        cases r.detached <;> simp
      · simp [Function.update_noteq hp, hp]
    have hself : running s (sys_ThreadSelf s) = true := by
      unfold running; rw [hr]; simp [hx]
    have hlive : (live_records t (CURPROC s) : Int) = (live_records s (CURPROC s) : Int) - 1 := by
      unfold live_records
      rw [hl]
      have e : (s.PT (CURPROC s)).ptcb_list.countP (running t) =
          (s.PT (CURPROC s)).ptcb_list.countP
            (fun p => if p = sys_ThreadSelf s then false else running s p) := by
        apply List.countP_congr
        intro p _
        rw [hrun p]
      rw [e, countP_erase_one (running s) (sys_ThreadSelf s) _ hself, hcount]
      rfl
    rw [hc, hlive, hinv]
    simp

/-- C16, amended, on the example: thread 11 exits; process 2 goes from three
threads and three records that have not exited to two and two. -/
theorem C16_count_invariant_witness :
    count_invariant ((exec 16 (Call.ThreadExit 42) demo).getD demo) (CURPROC demo) :=
  C16_count_invariant 16 (Call.ThreadExit 42) demo ((exec 16 (Call.ThreadExit 42) demo).getD demo)
    rfl (by decide) (by intro _ _ _ _ _ h; cases h)
    (by intro x _; exact ⟨by decide, _, rfl, rfl⟩)

/-- C17: a record `p` is live before and after a completed call.  When the call is
`sys_ThreadJoin` (entered or resumed), `sys_ThreadDetach`, `sys_ThreadExit` or
`sys_ThreadSelf`: if `exited` is set before, it is set after, and if `detached` is
set before, it is set after.  When the call is `sys_CreateThread`, every record
other than the one it acquires is as it was.  So no call writes 0 to a flag of an
existing record. -/
theorem C17_flags_monotone (MAX_FILEID : Nat) (op : Call) (s t : Kernel) (p : Tid_t)
    (r r2 : PTCB)
    (h : exec MAX_FILEID op s = some t)
    (hr : s.heap p = some r) (hr2 : t.heap p = some r2) :
    (is_CreateThread op = false →
      (r.exited = true → r2.exited = true) ∧ (r.detached = true → r2.detached = true)) ∧
    (∀ task argl args q c, op = Call.CreateThread task argl args q c → p ≠ q → r2 = r) := by
  cases op with
  | CreateThread task argl args q c =>
    refine ⟨fun hf => by simp [is_CreateThread] at hf, ?_⟩
    intro task2 argl2 args2 q2 c2 he hpq
    cases he
    simp only [exec, Option.some.injEq] at h
    subst h
    rw [(sys_CreateThread_heap task argl args q c s).2 p hpq, hr] at hr2
    cases hr2
    rfl
  | ThreadSelf =>
    simp only [exec, Option.some.injEq] at h
    subst h
    rw [hr] at hr2; cases hr2
    exact ⟨fun _ => ⟨id, id⟩, fun _ _ _ _ _ he => by cases he⟩
  | ThreadJoin tid out =>
    simp only [exec, Option.map_eq_some'] at h
    obtain ⟨⟨st, s1⟩, h2, rfl⟩ := h
    obtain ⟨e1, e2⟩ := (sys_ThreadJoin_flags _ _ _ _ _ h2).1 p r r2 hr hr2
    exact ⟨fun _ => ⟨fun hx => by rw [e1]; exact hx, fun hd => by rw [e2]; exact hd⟩,
      fun _ _ _ _ _ he => by cases he⟩
  | ThreadJoin_resume tid out =>
    simp only [exec, Option.map_eq_some'] at h
    obtain ⟨⟨st, s1⟩, h2, rfl⟩ := h
    obtain ⟨e1, e2⟩ := (sys_ThreadJoin_loop_flags _ _ _ _ _ h2).1 p r r2 hr hr2
    exact ⟨fun _ => ⟨fun hx => by rw [e1]; exact hx, fun hd => by rw [e2]; exact hd⟩,
      fun _ _ _ _ _ he => by cases he⟩
  | ThreadDetach tid =>
    simp only [exec, Option.map_eq_some'] at h
    obtain ⟨⟨rc, s1⟩, h2, rfl⟩ := h
    obtain ⟨e1, e2⟩ := (sys_ThreadDetach_flags _ _ _ _ h2).1 p r r2 hr hr2
    exact ⟨fun _ => ⟨fun hx => by rw [e1]; exact hx, e2⟩, fun _ _ _ _ _ he => by cases he⟩
  | ThreadExit x =>
    refine ⟨fun _ => ?_, fun _ _ _ _ _ he => by cases he⟩
    simp only [exec] at h
    obtain ⟨r0, _, hr0, _⟩ := sys_ThreadExit_cases MAX_FILEID x s t h
    have hheap := (sys_ThreadExit_heap MAX_FILEID x s t r0 hr0 h).1
    rw [hheap] at hr2
    by_cases hp : p = sys_ThreadSelf s
    · subst hp
      rw [hr0] at hr; cases hr
      cases hd : r.detached
      · simp [hd] at hr2
        subst hr2
        exact ⟨fun _ => rfl, fun h => by simp [hd] at h⟩
      · simp [hd] at hr2
    · rw [Function.update_noteq hp, hr] at hr2
      cases hr2
      exact ⟨id, id⟩

/-- C17 on the example: record 101 has exited and thread 10 has not yet resumed its
join; thread 12 joins record 101 too and returns at once; the record is still live
and `exited` is still set. -/
theorem C17_flags_monotone_witness :
    ((exec 16 (Call.ThreadJoin 101 (some 6)) (context_switch 12 demo_exited)).getD demo).heap 101
      = some demo_exited_record ∧
    demo_exited_record.exited = true :=
  ⟨rfl, ((C17_flags_monotone 16 (Call.ThreadJoin 101 (some 6)) (context_switch 12 demo_exited)
      ((exec 16 (Call.ThreadJoin 101 (some 6)) (context_switch 12 demo_exited)).getD demo) 101
      demo_exited_record demo_exited_record rfl rfl rfl).1 rfl).1 rfl⟩

/-- C18: a completed `sys_ThreadExit` calls `release_PTCB` on the caller's record
if and only if the record's `detached` flag is set, whatever its `refcount`, and
on no other record.  When the record is not detached it is not released: it is
still live afterwards, with the exit value and `exited` written.  When it is
detached it is gone afterwards.  And a completed `sys_ThreadDetach` calls
`release_PTCB` on no record: every record that was live is still live. -/
theorem C18_exit_releases_iff_detached (MAX_FILEID : Nat) (x : Int) (s t : Kernel)
    (h : sys_ThreadExit MAX_FILEID x s = some t) :
    (∃ r, s.heap (sys_ThreadSelf s) = some r ∧
      released (new_events s t) = (if r.detached then [sys_ThreadSelf s] else []) ∧
      (sys_ThreadSelf s ∈ released (new_events s t) ↔ r.detached = true) ∧
      (r.detached = false →
        t.heap (sys_ThreadSelf s) = some { r with exitval := x, exited := true }) ∧
      (r.detached = true → t.heap (sys_ThreadSelf s) = none)) ∧
    ∀ (tid : Tid_t) (u v : Kernel) (rc : Int), sys_ThreadDetach tid u = some (rc, v) →
      released (new_events u v) = [] ∧ ∀ p, (v.heap p).isSome = (u.heap p).isSome := by
  constructor
  · obtain ⟨r, hr, hrel, _⟩ := sys_ThreadExit_release MAX_FILEID x s t h
    have hheap := (sys_ThreadExit_heap MAX_FILEID x s t r hr h).1
    refine ⟨r, hr, hrel, ?_, ?_, ?_⟩
    · rw [hrel]
      cases r.detached <;> simp
    · intro hd
      rw [hheap]; simp [hd]
    · intro hd
      rw [hheap]; simp [hd]
  · intro tid u v rc hd
    refine ⟨?_, (sys_ThreadDetach_flags tid u v rc hd).2.2⟩
    rcases sys_ThreadDetach_trace tid u v rc hd with e | e <;> rw [e] <;> rfl

/-- C18 on the example: record 101 is detached while thread 10 holds a reference
to it (`refcount = 1`); the exit of thread 11 releases it all the same. -/
theorem C18_exit_releases_iff_detached_witness :
    released (new_events demo_detached ((sys_ThreadExit 16 42 demo_detached).getD demo)) = [101] ∧
    (demo_detached.heap 101).map (fun r => (r.detached, r.refcount)) = some (true, 1) ∧
    ∃ r, demo_detached.heap (sys_ThreadSelf demo_detached) = some r ∧
      released (new_events demo_detached ((sys_ThreadExit 16 42 demo_detached).getD demo))
        = (if r.detached then [sys_ThreadSelf demo_detached] else []) :=
  ⟨rfl, rfl,
    (C18_exit_releases_iff_detached 16 42 demo_detached
      ((sys_ThreadExit 16 42 demo_detached).getD demo) rfl).1.elim
      fun r hr => ⟨r, hr.1, hr.2.1⟩⟩

/-- C19, as stated, fails.  In the example record 101 of thread 11 is not detached,
has not exited and has no joiner, so the destroy invariant is false for it.  After
`sys_ThreadExit(42)` by thread 11 the record has `exited` set and `refcount = 0`:
the invariant is true, yet the call has made no call of `release_PTCB` and the
record is still live. -/
theorem C19_counterexample :
    ∃ r t r2, demo.heap (sys_ThreadSelf demo) = some r ∧ sys_ThreadSelf demo = 101 ∧
      ¬ destroy_invariant r ∧
      sys_ThreadExit 16 42 demo = some t ∧
      t.heap 101 = some r2 ∧ destroy_invariant r2 ∧
      released (new_events demo t) = [] :=
  ⟨_, _, _, rfl, rfl, by decide, rfl, rfl, by decide, rfl⟩

/-- C19, amended: the record `p` is live and the destroy invariant is false for
it before a completed call.  If the call is a resumed `sys_ThreadJoin` on `p`, `p`
is not detached and the join's decrement of `refcount` makes the invariant true,
that call calls `release_PTCB` on `p` and the record is gone afterwards.  If the
call is `sys_ThreadExit`, it does not release `p` unless `p` is detached (and the
caller's own record); if it is `sys_ThreadDetach`, it releases nothing and `p` is
still live. -/
theorem C19_release_by_last_join (MAX_FILEID : Nat) (op : Call) (s t : Kernel) (p : Tid_t)
    (r : PTCB)
    (h : exec MAX_FILEID op s = some t)
    (hr : s.heap p = some r)
    (_hbefore : ¬ destroy_invariant r) :
    (∀ out, op = Call.ThreadJoin_resume p out → r.detached = false →
      destroy_invariant { r with refcount := r.refcount - 1 } →
      released (new_events s t) = [p] ∧ t.heap p = none) ∧
    (∀ x, op = Call.ThreadExit x → p ∈ released (new_events s t) →
      p = sys_ThreadSelf s ∧ r.detached = true) ∧
    (∀ tid, op = Call.ThreadDetach tid →
      released (new_events s t) = [] ∧ (t.heap p).isSome = true) := by
  refine ⟨?_, ?_, ?_⟩
  · intro out hop hd hafter
    subst hop
    simp only [exec, Option.map_eq_some'] at h
    obtain ⟨⟨st, s1⟩, h2, rfl⟩ := h
    obtain ⟨h0, hx⟩ := hafter
    have hx2 : r.exited = true := by
      rcases hx with hx | hx
      · exact hx
      · rw [hd] at hx; cases hx
    have h0' : r.refcount - 1 = 0 := h0
    obtain ⟨e1, e2⟩ := sys_ThreadJoin_loop_release p out s s1 st h2
    have hrp : ∃ s2, join_release_point p out s = some (p, s2) := by
      unfold join_release_point
      simp only [hr, hx2, hd, h0', Bool.not_true, Bool.false_and, Bool.false_eq_true,
        if_false, if_true]
      exact ⟨_, rfl⟩
    obtain ⟨s2, hs2⟩ := hrp
    obtain ⟨_, ht, _⟩ := e2 p s2 hs2
    refine ⟨by rw [e1, hs2]; rfl, ?_⟩
    rw [ht]
    simp [release_PTCB, emit]
  · intro x hop hp
    subst hop
    simp only [exec] at h
    obtain ⟨r0, hr0, hrel, _⟩ := sys_ThreadExit_release MAX_FILEID x s t h
    rw [hrel] at hp
    cases hd : r0.detached
    · simp [hd] at hp
    · simp only [hd, if_true, List.mem_singleton] at hp
      subst hp
      rw [hr0] at hr; cases hr
      exact ⟨rfl, hd⟩
  · intro tid hop
    subst hop
    simp only [exec, Option.map_eq_some'] at h
    obtain ⟨⟨rc, s1⟩, h2, rfl⟩ := h
    refine ⟨?_, ?_⟩
    · rcases sys_ThreadDetach_trace tid s s1 rc h2 with e | e <;> rw [e] <;> rfl
    · rw [(sys_ThreadDetach_flags tid s s1 rc h2).2.2 p, hr]; rfl

/-- C19, amended, on the example: record 101 has exited and thread 10 holds the
last reference; when thread 10 resumes, its join releases the record. -/
theorem C19_release_by_last_join_witness :
    released (new_events demo_exited
      ((exec 16 (Call.ThreadJoin_resume 101 (some 5)) demo_exited).getD demo)) = [101] ∧
    ((exec 16 (Call.ThreadJoin_resume 101 (some 5)) demo_exited).getD demo).heap 101 = none :=
  (C19_release_by_last_join 16 (Call.ThreadJoin_resume 101 (some 5)) demo_exited
    ((exec 16 (Call.ThreadJoin_resume 101 (some 5)) demo_exited).getD demo) 101
    demo_exited_record rfl rfl (by decide)).1 (some 5) rfl rfl (by decide)

/-- C20: a completed `sys_ThreadExit` runs lines 116-171 exactly when the
`thread_count` of the caller's process `P` is 0 after the decrement.  When it is
not 0, the call is its first part followed by `kernel_sleep`, and in the process
table only `P.thread_count` has changed: `children_list`, `exited_list`, `parent`,
`args`, `FIDT`, `main_thread` and `pstate` of `P` and every field of every other
process are as before.  When it is 0, the call is its first part, then
`exit_process`, then `kernel_sleep`, and `P` is a `ZOMBIE` without `main_thread`
afterwards. -/
theorem C20_cascade_iff_last (MAX_FILEID : Nat) (x : Int) (s t : Kernel)
    (h : sys_ThreadExit MAX_FILEID x s = some t) :
    ((s.PT (CURPROC s)).thread_count - 1 ≠ 0 →
      (∃ s3, exit_thread x s = some s3 ∧ t = emit (Event.kernel_sleep s.cur_thread) s3) ∧
      (∀ q, q ≠ CURPROC s → t.PT q = s.PT q) ∧
      t.PT (CURPROC s) =
        { s.PT (CURPROC s) with thread_count := (s.PT (CURPROC s)).thread_count - 1 } ∧
      family (t.PT (CURPROC s)) = family (s.PT (CURPROC s)) ∧
      (t.PT (CURPROC s)).args = (s.PT (CURPROC s)).args ∧
      (t.PT (CURPROC s)).FIDT = (s.PT (CURPROC s)).FIDT ∧
      (t.PT (CURPROC s)).main_thread = (s.PT (CURPROC s)).main_thread ∧
      (t.PT (CURPROC s)).pstate = (s.PT (CURPROC s)).pstate) ∧
    ((s.PT (CURPROC s)).thread_count - 1 = 0 →
      (∃ s3 s4, exit_thread x s = some s3 ∧ exit_process MAX_FILEID s3 = some s4 ∧
        t = emit (Event.kernel_sleep s.cur_thread) s4) ∧
      (t.PT (CURPROC s)).pstate = pid_state.ZOMBIE ∧
      (t.PT (CURPROC s)).main_thread = none) := by
  obtain ⟨r, s3, hr, h3, hcases⟩ := sys_ThreadExit_cases MAX_FILEID x s t h
  obtain ⟨e1, e3⟩ := exit_thread_PT x s s3 h3
  constructor
  · intro hne
    have hc : (s.PT (CURPROC s)).thread_count ≠ 1 := fun e => hne (by rw [e]; rfl)
    rcases hcases with ⟨_, rfl⟩ | ⟨hc1, _⟩ | ⟨hc1, _⟩
    · refine ⟨⟨s3, h3, rfl⟩, ?_, ?_, ?_, ?_, ?_, ?_, ?_⟩
      · intro q hq
        show s3.PT q = s.PT q
        rw [e3, Function.update_noteq hq]
      all_goals
        show _ = _
        simp only [PT_emit, e3, Function.update_same, family]
    · exact absurd hc1 hc
    · exact absurd hc1 hc
  · intro hz
    have hc : (s.PT (CURPROC s)).thread_count = 1 := by omega
    have hPT : ∃ u : Kernel, t.PT = (cleanup MAX_FILEID (CURPROC s) u).PT := by
      rcases hcases with ⟨hc1, _⟩ | ⟨_, _, rfl⟩ | ⟨_, _, parent, _, _, rfl⟩
      · exact absurd hc hc1
      · exact ⟨s3, rfl⟩
      · exact ⟨_, rfl⟩
    refine ⟨?_, ?_⟩
    · have hzero : (s3.PT (CURPROC s3)).thread_count = 0 := by
        rw [e1, e3]; simp [hc]
      unfold sys_ThreadExit at h
      simp only [h3, Option.some_bind, hzero, if_true, Option.map_eq_some'] at h
      obtain ⟨s4, h4, rfl⟩ := h
      refine ⟨s3, s4, h3, h4, ?_⟩
      have hcur : s4.cur_thread = s.cur_thread := by
        rw [(exit_process_same_threads _ _ _ h4).1]
        obtain ⟨s3b, h3b, _, e2, _⟩ := exit_thread_eq x s r hr
        rw [h3] at h3b; cases h3b
        exact e2
      rw [hcur]
    · obtain ⟨u, hu⟩ := hPT
      rw [hu, (cleanup_eq MAX_FILEID (CURPROC s) u).1]
      simp

/-- C20 on the example: thread 11 of process 2 exits while two more threads live;
the process-exit path does not run and only `thread_count` changes. -/
theorem C20_cascade_iff_last_witness :
    (((sys_ThreadExit 16 42 demo).getD demo).PT 2).thread_count = 2 ∧
    (∀ q, q ≠ CURPROC demo → ((sys_ThreadExit 16 42 demo).getD demo).PT q = demo.PT q) ∧
    (((sys_ThreadExit 16 42 demo).getD demo).PT (CURPROC demo)).pstate
      = (demo.PT (CURPROC demo)).pstate :=
  have h := (C20_cascade_iff_last 16 42 demo ((sys_ThreadExit 16 42 demo).getD demo) rfl).1
    (by decide)
  ⟨rfl, h.2.1, h.2.2.2.2.2.2.2⟩

end TinyOS
